import Mathlib

/-!
# Verification of the route-optimizer monthly scheduler (AR76F/route-optimizer)

This file gives a shallow embedding, in Lean 4, of the scheduling and data-loading
logic of the repository:

* `src/app.py` — `render_page_2`: the job loader, the travel-time oracle
  `travel_min_cached`, the split-chunk helper `_choose_onsite_no_crumbs`, and the
  monthly scheduler `schedule_month_with_duo`;
* `src/pages/2_Planning.py` — the travel-time oracle `travel_minutes` and the job
  loader `load_jobs_from_excel`.

Machine integers of the source are modelled as `Int`/`Nat` (Python integers do not
overflow).  External collaborators that the source calls (the Google Distance
Matrix client, the geographic prefilter built on floating-point haversine
distances over geocoded FSA centroids) are modelled as oracle parameters; the
hypotheses imposed on them are stated explicitly at each theorem.  Everything
else (filters, folds, bookings, cache state, counters) is translated
definitionally from the source.
-/

namespace RouteOpt

/-! ## Basic helpers shared by the embeddings -/

/-- `mm_to_hhmm` (src/app.py): minutes since day start rendered as `"HH:MM"`;
Python `//` and `%` are floor division and nonnegative remainder, i.e. `Int.fdiv`
and `Int.emod`; `f"{h:02d}"` left-pads with `0` to width 2. -/
def pad2 (i : Int) : String :=
  let s := toString i
  if s.length < 2 then "0" ++ s else s

def mm_to_hhmm (m : Int) : String :=
  let h := m.fdiv 60
  let mm := m.emod 60
  pad2 h ++ ":" ++ pad2 mm

/-- `_choose_onsite_no_crumbs` (src/app.py lines 1382-1421): the amount of the
remaining on-site duration to book today so that neither today's part nor the
leftover is a "crumb" smaller than `min_chunk` (unless the job finishes today). -/
def choose_onsite_no_crumbs (remaining_min max_onsite_today min_chunk : Int) : Int :=
  if max_onsite_today ≤ 0 then 0
  else
    let onsite_today := min remaining_min max_onsite_today
    if onsite_today ≥ remaining_min then onsite_today
    else
      let rem_after := remaining_min - onsite_today
      if onsite_today < min_chunk then 0
      else if rem_after < min_chunk then
        if remaining_min ≤ max_onsite_today then remaining_min
        else
          let onsite_today := remaining_min - min_chunk
          let onsite_today := min onsite_today max_onsite_today
          if onsite_today < min_chunk then 0
          else
            let rem_after := remaining_min - onsite_today
            if rem_after > 0 ∧ rem_after < min_chunk then 0
            else onsite_today
      else onsite_today

/-- `compute_total_parts` (src/app.py): `ceil(total / cap)` with a guard for a
non-positive cap.  The exact ceiling of the integer quotient is
`-((-a) fdiv b)` for `b > 0`. -/
def compute_total_parts (job_minutes_total daily_onsite_cap : Int) : Int :=
  if daily_onsite_cap ≤ 0 then 1
  else -((-job_minutes_total).fdiv daily_onsite_cap)

/-! ## C6: the no-crumbs chunk chooser -/

example : choose_onsite_no_crumbs 500 450 180 = 320 := by decide

example : choose_onsite_no_crumbs 500 300 180 = 300 := by decide

/-- **C6.** For all non-negative integers `remaining_min`, `max_onsite_today` and
`min_chunk`, the chunk chosen by `_choose_onsite_no_crumbs` is either `0`, or is
at most `max_onsite_today` and satisfies: either it equals `remaining_min` (the
final part), or it is at least `min_chunk` and the leftover
`remaining_min - chunk` is also at least `min_chunk` — so no produced part other
than the final one is below the minimum chunk, and the leftover for a future day
is never a positive amount smaller than the minimum chunk. -/
theorem C6_choose_onsite_no_crumbs (r m c : Int) (hr : 0 ≤ r) (hm : 0 ≤ m)
    (hc : 0 ≤ c) :
    choose_onsite_no_crumbs r m c = 0 ∨
      (choose_onsite_no_crumbs r m c ≤ m ∧
        (choose_onsite_no_crumbs r m c = r ∨
          (c ≤ choose_onsite_no_crumbs r m c ∧
            c ≤ r - choose_onsite_no_crumbs r m c))) := by
  simp only [choose_onsite_no_crumbs]
  split_ifs <;> omega

/-- Witness for C6 at the spec's own example (a 500-minute job, 450 minutes of
room today, 180-minute minimum chunk). -/
theorem C6_choose_onsite_no_crumbs_witness :
    choose_onsite_no_crumbs 500 450 180 = 0 ∨
      (choose_onsite_no_crumbs 500 450 180 ≤ 450 ∧
        (choose_onsite_no_crumbs 500 450 180 = 500 ∨
          (180 ≤ choose_onsite_no_crumbs 500 450 180 ∧
            180 ≤ 500 - choose_onsite_no_crumbs 500 450 180))) :=
  C6_choose_onsite_no_crumbs 500 450 180 (by decide) (by decide) (by decide)

/-! ## The travel-time oracle

`travel_min_cached` (src/app.py lines 1115-1154) and `travel_minutes`
(src/pages/2_Planning.py lines 93-117).  The Google Distance Matrix client is an
external collaborator: the outcome of the one HTTP query a call may make is a
parameter (`none` models the client raising an exception, which the source
catches).  The SQLite table `travel` (primary key `k`) is modelled as an
association list with at most one entry per key; the `md5` of the normalized
request string is modelled by the normalized request string itself (the source
only ever uses the digest as an opaque dictionary key). -/

/-- One element of a Distance Matrix response, i.e.
`r["rows"][0]["elements"][0]`.  A duration is its `"value"` field in seconds;
`none` models an absent (or Python-falsy) duration entry. -/
structure MatrixElem where
  status : String
  duration_in_traffic : Option Int
  duration : Option Int
deriving Repr, DecidableEq

/-- A whole Distance Matrix response.  `elem = none` models a response without
`rows[0].elements[0]` (the resulting `KeyError`/`IndexError` is caught by the
source).  The top-level `status` is only inspected by `travel_minutes`. -/
structure MatrixResp where
  status : String
  elem : Option MatrixElem
deriving Repr, DecidableEq

/-- Python's `\s` whitespace class restricted to ASCII (the only characters the
source's addresses contain). -/
def pyIsSpace (c : Char) : Bool :=
  c = ' ' ∨ c = '\t' ∨ c = '\n' ∨ c = '\r' ∨ c = '\x0b' ∨ c = '\x0c'

/-- Collapse every maximal run of whitespace to a single `' '` (the effect of
`re.sub(r"\s+", " ", ·)`); the boolean records whether the previous character
was part of a whitespace run. -/
def collapseWsAux : Bool → List Char → List Char
  | _, [] => []
  | prevWs, c :: cs =>
    if pyIsSpace c then
      if prevWs then collapseWsAux true cs else ' ' :: collapseWsAux true cs
    else c :: collapseWsAux false cs

/-- `_norm` (src/app.py): `re.sub(r"\s+", " ", str(s or "").strip().lower())`. -/
def norm (s : String) : String :=
  let stripped :=
    ((s.data.dropWhile pyIsSpace).reverse.dropWhile pyIsSpace).reverse
  String.mk (collapseWsAux false (stripped.map Char.toLower))

/-- `_key` (src/app.py): the cache key of an (origin, destination, traffic-flag)
triple; the source stores `md5(raw)`, we store `raw` itself. -/
def cacheKey (origin dest : String) (traffic_flag : Bool) : String :=
  norm origin ++ "|" ++ norm dest ++ "|driving|traffic=" ++
    (if traffic_flag then "1" else "0")

/-- `int(round(sec / 60))`: seconds to minutes, rounding half to even exactly as
Python's `round` does on the rational `sec / 60` (the `float` division is exact
at every tie `sec = 60k + 30` and never crosses a rounding boundary at
realistic magnitudes). -/
def round_div60_half_even (sec : Int) : Int :=
  let d := sec.fdiv 60
  let r := sec.emod 60
  if 2 * r < 60 then d
  else if 2 * r > 60 then d + 1
  else if d.emod 2 = 0 then d else d + 1

/-- The persistent state touched by `travel_min_cached`: the SQLite `travel`
table (key ↦ minutes, timestamp) and the two session counters. -/
structure OracleState where
  cache : List (String × Int × Int)
  api_calls : Nat
  cache_hits : Nat
deriving Repr, DecidableEq

/-- `SELECT minutes, ts FROM travel WHERE k=? AND ts>=?` against a table whose
primary key is `k`. -/
def cacheLookup (cache : List (String × Int × Int)) (k : String) (min_ts : Int) :
    Option Int :=
  match cache.find? (fun e => e.1 == k) with
  | some e => if min_ts ≤ e.2.2 then some e.2.1 else none
  | none => none

/-- `INSERT OR REPLACE INTO travel(k, minutes, ts) VALUES(?,?,?)`. -/
def cacheInsert (cache : List (String × Int × Int)) (k : String) (mn ts : Int) :
    List (String × Int × Int) :=
  (k, mn, ts) :: cache.filter (fun e => ¬ e.1 == k)

/-- `travel_min_cached` (src/app.py lines 1115-1154).  `use_traffic`,
`cache_days` are the sidebar settings, `now` is `int(time.time())`, `resp` the
outcome of the (at most one) Distance Matrix query. -/
def travel_min_cached (use_traffic : Bool) (cache_days now : Int)
    (resp : Option MatrixResp) (st : OracleState) (origin dest : String) :
    Int × OracleState :=
  if origin = "" ∨ dest = "" then (9999, st)
  else
    let k := cacheKey origin dest use_traffic
    let min_ts := now - cache_days * 86400
    match cacheLookup st.cache k min_ts with
    | some minutes => (minutes, { st with cache_hits := st.cache_hits + 1 })
    | none =>
      match resp with
      | none => (9999, st)
      | some r =>
        match r.elem with
        | none => (9999, st)
        | some el =>
          if el.status ≠ "OK" then (9999, st)
          else
            let dur :=
              if use_traffic then el.duration_in_traffic.orElse fun _ => el.duration
              else el.duration.orElse fun _ => el.duration_in_traffic
            let minutes := round_div60_half_even (dur.getD 0)
            (minutes,
              { st with cache := cacheInsert st.cache k minutes now,
                        api_calls := st.api_calls + 1 })

/-- `travel_minutes` (src/pages/2_Planning.py lines 93-117): the stateless
variant; the framework-level 24h memoization (`st.cache_data`) is outside the
function body and not modelled. -/
def travel_minutes (resp : Option MatrixResp) (origin destination : String) :
    Int :=
  if origin = "" ∨ destination = "" then 9999
  else
    match resp with
    | none => 9999
    | some r =>
      if r.status ≠ "OK" then 9999
      else
        match r.elem with
        | none => 9999
        | some el =>
          if el.status ≠ "OK" then 9999
          else
            round_div60_half_even
              ((el.duration_in_traffic.orElse fun _ => el.duration).getD 0)

/-! ## C3 and C10: behaviour of the travel-time oracle -/

/-- **C3, counterexample.** The claim says the oracle returns the traffic-aware
duration, falling back to the typical one.  With the sidebar option
`use_traffic` disabled, `travel_min_cached` prefers the *typical* duration: on
a fresh cache, with a response carrying a traffic-aware duration of 3600 s
(60 min) and a typical duration of 1800 s (30 min), it returns 30, not the
traffic-aware 60. -/
theorem C3_travel_oracle_counterexample :
    (travel_min_cached false 30 1000
        (some ⟨"OK", some ⟨"OK", some 3600, some 1800⟩⟩)
        ⟨[], 0, 0⟩ "A" "B").1 = 30 ∧
      round_div60_half_even 3600 = 60 ∧ (30 : Int) ≠ 60 := by
  decide

/-- **C3, amended.**  For every origin/destination pair the travel-time oracle
(`travel_min_cached` in app.py, `travel_minutes` in 2_Planning.py) never raises
an exception (both embeddings are total functions and the cases below are
exhaustive): on a cache hit within the retention window it returns the cached
integer minutes and touches nothing but the hit counter; on a miss with a
successful external query it returns the preferred duration — traffic-aware
falling back to typical when the traffic option is on (its default; always, in
`travel_minutes`), typical falling back to traffic-aware when it is off —
converted to rounded minutes, and persists that entry; on an external failure
or a non-OK response status it returns the sentinel 9999 and persists
nothing. -/
theorem C3_travel_oracle (u : Bool) (cd now : Int) (resp : Option MatrixResp)
    (st : OracleState) (o d : String) :
    (∀ mn, o ≠ "" → d ≠ "" →
        cacheLookup st.cache (cacheKey o d u) (now - cd * 86400) = some mn →
        travel_min_cached u cd now resp st o d =
          (mn, { st with cache_hits := st.cache_hits + 1 })) ∧
    (∀ r el, o ≠ "" → d ≠ "" →
        cacheLookup st.cache (cacheKey o d u) (now - cd * 86400) = none →
        resp = some r → r.elem = some el → el.status = "OK" →
        travel_min_cached u cd now resp st o d =
          (round_div60_half_even
              ((if u then el.duration_in_traffic.orElse fun _ => el.duration
                else el.duration.orElse fun _ => el.duration_in_traffic).getD 0),
            { st with
                cache := cacheInsert st.cache (cacheKey o d u)
                  (round_div60_half_even
                    ((if u then el.duration_in_traffic.orElse fun _ => el.duration
                      else el.duration.orElse fun _ => el.duration_in_traffic).getD 0))
                  now,
                api_calls := st.api_calls + 1 })) ∧
    (o ≠ "" → d ≠ "" →
        cacheLookup st.cache (cacheKey o d u) (now - cd * 86400) = none →
        (resp = none ∨ ∃ r, resp = some r ∧
          (r.elem = none ∨ ∃ el, r.elem = some el ∧ el.status ≠ "OK")) →
        travel_min_cached u cd now resp st o d = (9999, st)) ∧
    (∀ r el, o ≠ "" → d ≠ "" →
        resp = some r → r.status = "OK" → r.elem = some el → el.status = "OK" →
        travel_minutes resp o d =
          round_div60_half_even
            ((el.duration_in_traffic.orElse fun _ => el.duration).getD 0)) ∧
    (o ≠ "" → d ≠ "" →
        (resp = none ∨ ∃ r, resp = some r ∧
          (r.status ≠ "OK" ∨ r.elem = none ∨
            ∃ el, r.elem = some el ∧ el.status ≠ "OK")) →
        travel_minutes resp o d = 9999) := by
  refine ⟨?_, ?_, ?_, ?_, ?_⟩
  · intro mn ho hd hhit
    simp [travel_min_cached, ho, hd, hhit]
  · intro r el ho hd hmiss hr hel hst
    subst hr
    simp [travel_min_cached, ho, hd, hmiss, hel, hst]
  · intro ho hd hmiss hfail
    rcases hfail with rfl | ⟨r, rfl, hcase⟩
    · simp [travel_min_cached, ho, hd, hmiss]
    · rcases hcase with hel | ⟨el, hel, hst⟩
      · simp [travel_min_cached, ho, hd, hmiss, hel]
      · simp [travel_min_cached, ho, hd, hmiss, hel, hst]
  · intro r el ho hd hr hrs hel hst
    subst hr
    simp [travel_minutes, ho, hd, hrs, hel, hst]
  · intro ho hd hfail
    rcases hfail with rfl | ⟨r, rfl, hcase⟩
    · simp [travel_minutes, ho, hd]
    · rcases hcase with hrs | hel | ⟨el, hel, hst⟩
      · simp [travel_minutes, ho, hd, hrs]
      · simp [travel_minutes, ho, hd, hel]
      · simp [travel_minutes, ho, hd, hel, hst]

/-- Witness for C3 (amended): a concrete miss followed by a successful query in
traffic mode persists and returns 25 minutes (1500 s). -/
theorem C3_travel_oracle_witness :
    travel_min_cached true 30 1000
        (some ⟨"OK", some ⟨"OK", some 1500, none⟩⟩) ⟨[], 3, 4⟩ "A" "B" =
      (25, ⟨[(cacheKey "A" "B" true, 25, 1000)], 4, 4⟩) := by
  have h := (C3_travel_oracle true 30 1000
    (some ⟨"OK", some ⟨"OK", some 1500, none⟩⟩) ⟨[], 3, 4⟩ "A" "B").2.1
    ⟨"OK", some ⟨"OK", some 1500, none⟩⟩ ⟨"OK", some 1500, none⟩
    (by decide) (by decide) (by decide) rfl rfl rfl
  simpa [cacheInsert, round_div60_half_even] using h

/-- **C10.**  For every call of the travel-time oracle in which the origin or
the destination is the empty string, the function returns the sentinel 9999
immediately: the persistent cache is neither read nor written, no external API
call is issued (the result and state are the same for every possible query
outcome `resp`, which is universally quantified), and neither the cache-hit
counter nor the API-call counter is incremented (the state is returned
unchanged). -/
theorem C10_empty_address_sentinel (u : Bool) (cd now : Int)
    (resp resp' : Option MatrixResp) (st : OracleState) (o d : String)
    (h : o = "" ∨ d = "") :
    travel_min_cached u cd now resp st o d = (9999, st) ∧
      travel_minutes resp' o d = 9999 := by
  constructor
  · simp [travel_min_cached, h]
  · simp [travel_minutes, h]

/-- Witness for C10: empty origin, concrete everything else. -/
theorem C10_empty_address_sentinel_witness :
    travel_min_cached true 30 1000 (some ⟨"OK", some ⟨"OK", some 1500, none⟩⟩)
        ⟨[], 3, 4⟩ "" "B" = (9999, ⟨[], 3, 4⟩) ∧
      travel_minutes (some ⟨"OK", some ⟨"OK", some 1500, none⟩⟩) "" "B" = 9999 :=
  C10_empty_address_sentinel true 30 1000
    (some ⟨"OK", some ⟨"OK", some 1500, none⟩⟩)
    (some ⟨"OK", some ⟨"OK", some 1500, none⟩⟩) ⟨[], 3, 4⟩ "" "B" (Or.inl rfl)

/-! ## The job loaders

`render_page_2`'s spreadsheet ingestion (src/app.py lines 923-1028) and
`load_jobs_from_excel` (src/pages/2_Planning.py lines 123-165).  A spreadsheet
row is a record of optional cells; `none` models both a `NaN` cell and an
entirely absent column wherever the two are treated identically by the source
(`fillna`, `df.get`, skipping an absent address part).  Only the on-site /
SRT hour columns need explicit presence flags, because their fallback is
column-level in app.py.  Numeric cells are rationals (`pandas` floats). -/

/-- Strip ASCII whitespace from both ends (Python `str.strip()`). -/
def pyStrip (s : String) : String :=
  String.mk (((s.data.dropWhile pyIsSpace).reverse.dropWhile pyIsSpace).reverse)

/-- Python `str.strip(chars)`: strip any of the given characters from both
ends (used as `.strip(" |")`). -/
def pyStripSet (cs : List Char) (s : String) : String :=
  String.mk
    (((s.data.dropWhile (· ∈ cs)).reverse.dropWhile (· ∈ cs)).reverse)

/-- A regex word character (`\w`), for the `\b` boundaries of the postal
pattern. -/
def isWordChar (c : Char) : Bool :=
  c.isAlphanum ∨ c = '_'

def isUpperLetter (c : Char) : Bool := 'A' ≤ c ∧ c ≤ 'Z'

/-- Try to match `([A-Z]\d[A-Z])\s?(\d[A-Z]\d)\b` at the head of `l`, `prev`
being the character just before (for the leading `\b`); returns the six
captured characters. -/
def tryPostalHere (prev : Option Char) (l : List Char) : Option (List Char) :=
  let boundaryBefore := match prev with
    | none => true
    | some c => ! isWordChar c
  match l with
  | a :: b :: c :: rest =>
    if boundaryBefore && isUpperLetter a && b.isDigit && isUpperLetter c then
      match rest with
      | x :: d :: e :: f :: rest2 =>
        if pyIsSpace x && d.isDigit && isUpperLetter e && f.isDigit &&
            (rest2.isEmpty || ! isWordChar (rest2.headD ' ')) then
          some [a, b, c, d, e, f]
        else if x.isDigit && isUpperLetter d && e.isDigit &&
            ! isWordChar f then
          some [a, b, c, x, d, e]
        else none
      | x :: d :: e :: rest2 =>
        if x.isDigit && isUpperLetter d && e.isDigit && rest2.isEmpty then
          some [a, b, c, x, d, e]
        else none
      | _ => none
    else none
  | _ => none

/-- Leftmost match of the Canadian postal pattern (Python `re.search`). -/
def searchPostal (prev : Option Char) : List Char → Option (List Char)
  | [] => none
  | c :: cs =>
    match tryPostalHere prev (c :: cs) with
    | some g => some g
    | none => searchPostal (some c) cs

/-- `extract_postal` (src/app.py) / `extract_postal_from_text`
(src/pages/2_Planning.py): first `[A-Z]\d[A-Z]\s?\d[A-Z]\d` of the upper-cased
string, with the optional space removed. -/
def extract_postal (s : String) : String :=
  match searchPostal none (s.data.map Char.toUpper) with
  | some g => String.mk g
  | none => ""

/-- `fsa` (src/app.py): first three characters of the extracted postal. -/
def fsaOf (postal : String) : String :=
  let p := extract_postal postal
  if 3 ≤ p.length then String.mk (p.data.take 3) else ""

/-- `clean_id` (src/app.py): `NaN ↦ ""`, strip, and `"347762.0" ↦ "347762"`
(an all-digit prefix followed by a dot and one or more zeros). -/
def isIntDotZeros (l : List Char) : Bool :=
  let ds := l.takeWhile Char.isDigit
  let rest := l.drop ds.length
  ! ds.isEmpty &&
    match rest with
    | '.' :: zs => ! zs.isEmpty && zs.all (· == '0')
    | _ => false

def clean_id (x : Option String) : String :=
  match x with
  | none => ""
  | some s =>
    let t := pyStrip s
    if isIntDotZeros t.data then String.mk (t.data.takeWhile Char.isDigit)
    else t

/-- `pandas`/`numpy` `.round()` applied to the exact fraction `n / d`
(`0 < d`): round half to even.  `f` is the floor of the fraction and `r` its
(nonnegative) numerator remainder. -/
def roundHalfEvenFrac (n : Int) (d : Nat) : Int :=
  let di : Int := d
  let f := n.fdiv di
  let r := n - f * di
  if 2 * r < di then f
  else if 2 * r > di then f + 1
  else if f.emod 2 = 0 then f else f + 1

/-- `(hours * 60).round()` of both loaders, computed on the exact fraction
`(hours.num * 60) / hours.den` — the same rational value as `hours * 60`. -/
def hoursToMinutes (h : ℚ) : Int :=
  roundHalfEvenFrac (h.num * 60) h.den

/-- One spreadsheet row of the `Export` sheet, as the two loaders see it. -/
structure RawCells where
  order_cell : Option String
  cust_cell : Option String
  fa_cell : Option String
  customer_name_cell : Option String
  addr1 : Option String
  addr2 : Option String
  addr3 : Option String
  city : Option String
  prov : Option String
  post : Option String
  desc : Option String
  upcoming : Option String
  ons : Option ℚ
  srt_hrs : Option ℚ
  techn : Option Int
deriving Repr, DecidableEq

/-- `build_address` (src/app.py) = `build_full_address`
(src/pages/2_Planning.py): the present, non-blank address parts joined by
`", "`. -/
def build_address (r : RawCells) : String :=
  let parts := [r.addr1, r.addr2, r.addr3, r.city, r.prov, r.post].filterMap
    (fun o => match o with
      | none => none
      | some s => if pyStrip s = "" then none else some (pyStrip s))
  String.intercalate ", " parts

/-- A job record produced by app.py's loader (the input rows of the monthly
scheduler). -/
structure Job where
  job_id : String
  cust : String
  address : String
  description : String
  job_minutes : Int
  techs_needed : Int
  postal : String
  fsa : String
deriving Repr, DecidableEq

/-- One row of app.py's loader before filtering (lines 990-1024): the job
derived from one spreadsheet row, with the column-level on-site/SRT fallback
(`hours = ons if COL_ONS else srt`), `fillna(0)`, and
`job_minutes = (hours * 60).round()`. -/
def mkJobApp (hasOns : Bool) (r : RawCells) : Job :=
  let hours : ℚ := if hasOns then r.ons.getD 0 else r.srt_hrs.getD 0
  let postal := extract_postal (r.post.getD "")
  { job_id := clean_id r.order_cell
    cust := clean_id r.cust_cell
    address := build_address r
    description :=
      pyStripSet [' ', '|'] (r.desc.getD "" ++ " | " ++ r.upcoming.getD "")
    job_minutes := hoursToMinutes hours
    techs_needed := r.techn.getD 1
    postal := postal
    fsa := fsaOf postal }

/-- `drop_duplicates(subset=[key], keep="first")`, with the set of already-seen
keys as accumulator. -/
def dedupFirstBy (key : α → String) : List α → List String → List α
  | [], _ => []
  | x :: xs, seen =>
    if key x ∈ seen then dedupFirstBy key xs seen
    else x :: dedupFirstBy key xs (key x :: seen)

/-- Lines 990-1027 of app.py: one job per row, then
`jobs[(len(address) > 8) & (job_minutes > 0)]`. -/
def appFilteredJobs (hasOns : Bool) (rows : List RawCells) : List Job :=
  (rows.map (mkJobApp hasOns)).filter
    (fun j => 8 < j.address.length ∧ 0 < j.job_minutes)

/-- app.py's job loader, lines 956-1028: fails (`st.stop()`) without an
order column or without both hour columns; otherwise builds a job per row,
keeps rows with an address longer than 8 characters and positive minutes, and
deduplicates by job id keeping the first occurrence. -/
def load_jobs_app (hasOrder hasOns hasSrt : Bool) (rows : List RawCells) :
    Option (List Job) :=
  if ¬ hasOrder then none
  else if ¬ hasOns ∧ ¬ hasSrt then none
  else some (dedupFirstBy Job.job_id (appFilteredJobs hasOns rows) [])

/-- `normalize_postal_code` (src/pages/2_Planning.py): strip, upper-case,
drop spaces, keep `[A-Z0-9]`, truncate to 6. -/
def normalize_postal_code (o : Option String) : String :=
  match o with
  | none => ""
  | some s =>
    let t := ((pyStrip s).data.map Char.toUpper).filter (· ≠ ' ')
    String.mk ((t.filter fun c => isUpperLetter c ∨ c.isDigit).take 6)

/-- `zone_from_postal` (src/pages/2_Planning.py lines 54-65). -/
def zone_from_postal (postal : String) : String :=
  let p := normalize_postal_code (some postal)
  if p = "" then "OTHER"
  else
    let f := (p.data.take 3).map id
    match f with
    | 'H' :: _ => "MTL_LAVAL"
    | 'J' :: '3' :: _ => "RIVE_SUD"
    | 'J' :: '4' :: _ => "RIVE_SUD"
    | 'J' :: '5' :: _ => "RIVE_NORD"
    | 'J' :: '6' :: _ => "RIVE_NORD"
    | 'J' :: '7' :: _ => "RIVE_NORD"
    | _ => "OTHER"

/-- A job record produced by 2_Planning.py's loader. -/
structure PJob where
  job_id : String
  fa_job_id : Option String
  customer_name : Option String
  description : String
  upcoming_services : String
  address : String
  city : Option String
  postal : Option String
  zone : String
  duration_min : Int
  techs_needed : Int
  description_full : String
deriving Repr, DecidableEq

/-- One row of `load_jobs_from_excel` before filtering: the per-row
`onsite.fillna(srt)` fallback; `none` duration models `NaN` (dropped later). -/
def mkJobPlanning (hasZipCol : Bool) (r : RawCells) : Option Int × PJob :=
  let duration := (r.ons.orElse fun _ => r.srt_hrs).map
    fun h => hoursToMinutes h
  let full_address := build_address r
  let postal_norm :=
    if hasZipCol then normalize_postal_code r.post
    else extract_postal full_address
  let descr := r.desc.getD ""
  let up := r.upcoming.getD ""
  (duration,
    { job_id := r.order_cell.getD ""
      fa_job_id := r.fa_cell
      customer_name := r.customer_name_cell
      description := descr
      upcoming_services := up
      address := full_address
      city := r.city
      postal := r.post
      zone := zone_from_postal postal_norm
      duration_min := duration.getD 0
      techs_needed := (r.techn.getD 1)
      description_full := pyStripSet [' ', '|'] (descr ++ " | " ++ up) })

/-- `load_jobs_from_excel` (src/pages/2_Planning.py lines 123-165): drops rows
with a missing job id or a missing/non-positive duration (the built address is
always a string, so its `dropna` clause never fires and no address-length
filter exists), then deduplicates by job id keeping the first occurrence. -/
def planningFilteredJobs (hasZipCol : Bool) (rows : List RawCells) :
    List PJob :=
  rows.filterMap (fun r =>
    match r.order_cell, (mkJobPlanning hasZipCol r).1 with
    | some _, some dm =>
      if 0 < dm then some (mkJobPlanning hasZipCol r).2 else none
    | _, _ => none)

def load_jobs_planning (hasZipCol : Bool) (rows : List RawCells) : List PJob :=
  dedupFirstBy PJob.job_id (planningFilteredJobs hasZipCol rows) []

/-! ## Deduplication lemmas -/

theorem dedupFirstBy_subset (key : α → String) :
    ∀ (l : List α) (seen : List String) (y : α),
      y ∈ dedupFirstBy key l seen → y ∈ l := by
  intro l
  induction l with
  | nil => intro seen y h; simp [dedupFirstBy] at h
  | cons x xs ih =>
    intro seen y h
    by_cases hx : key x ∈ seen
    · simp only [dedupFirstBy, if_pos hx] at h
      exact List.mem_cons_of_mem _ (ih _ _ h)
    · simp only [dedupFirstBy, if_neg hx] at h
      rcases List.mem_cons.mp h with rfl | h
      · exact List.mem_cons_self _ _
      · exact List.mem_cons_of_mem _ (ih _ _ h)

/-- Every survivor of `drop_duplicates(keep="first")` is the *first* element
with its key, and its key was not seen before. -/
theorem dedupFirstBy_find? (key : α → String) :
    ∀ (l : List α) (seen : List String) (y : α),
      y ∈ dedupFirstBy key l seen →
        key y ∉ seen ∧ l.find? (fun x => key x == key y) = some y := by
  intro l
  induction l with
  | nil => intro seen y h; simp [dedupFirstBy] at h
  | cons x xs ih =>
    intro seen y h
    by_cases hx : key x ∈ seen
    · simp only [dedupFirstBy, if_pos hx] at h
      obtain ⟨hnot, hfind⟩ := ih _ _ h
      have hne : ¬ ((fun z => key z == key y) x = true) := by
        intro hbe
        exact hnot ((eq_of_beq hbe) ▸ hx)
      refine ⟨hnot, ?_⟩
      have hstep : List.find? (fun z => key z == key y) (x :: xs) =
          List.find? (fun z => key z == key y) xs :=
        List.find?_cons_of_neg xs hne
      rw [hstep]
      exact hfind
    · simp only [dedupFirstBy, if_neg hx] at h
      rcases List.mem_cons.mp h with rfl | h
      · refine ⟨hx, ?_⟩
        have hstep : List.find? (fun z => key z == key y) (y :: xs) = some y :=
          List.find?_cons_of_pos xs (by simp)
        exact hstep
      · obtain ⟨hnot, hfind⟩ := ih _ _ h
        have hyx : key y ≠ key x := by
          intro he
          exact hnot (he ▸ List.mem_cons_self _ _)
        have hne : ¬ ((fun z => key z == key y) x = true) := by
          intro hbe
          exact hyx ((eq_of_beq hbe)).symm
        refine ⟨fun hs => hnot (List.mem_cons_of_mem _ hs), ?_⟩
        have hstep : List.find? (fun z => key z == key y) (x :: xs) =
            List.find? (fun z => key z == key y) xs :=
          List.find?_cons_of_neg xs hne
        rw [hstep]
        exact hfind

theorem dedupFirstBy_nodup (key : α → String) :
    ∀ (l : List α) (seen : List String),
      ((dedupFirstBy key l seen).map key).Nodup := by
  intro l
  induction l with
  | nil => intro seen; simp [dedupFirstBy]
  | cons x xs ih =>
    intro seen
    by_cases hx : key x ∈ seen
    · simp only [dedupFirstBy, if_pos hx]; exact ih _
    · simp only [dedupFirstBy, if_neg hx, List.map_cons, List.nodup_cons]
      refine ⟨?_, ih _⟩
      intro hmem
      obtain ⟨y, hy, hky⟩ := List.mem_map.mp hmem
      have := (dedupFirstBy_find? key xs (key x :: seen) y hy).1
      exact this (hky ▸ List.mem_cons_self _ _)

/-! ## C8: the job loaders -/

/-- **C8, counterexample.**  The claim requires every output record's address
to be at least 9 characters long.  2_Planning.py's `load_jobs_from_excel` has
no such filter: a row with a job id, a one-hour duration and no address parts
at all survives with an empty address. -/
theorem C8_job_loader_counterexample :
    (load_jobs_planning false
        [⟨some "J1", none, none, none, none, none, none, none, none, none,
          none, none, some 1, none, none⟩]).map PJob.address = [""] ∧
      ¬ 9 ≤ ("" : String).length := by
  constructor
  · decide
  · decide

/-- **C8, amended.**  For every input spreadsheet table: app.py's loader
outputs only records whose duration is positive and whose address is at least
9 characters long (all other rows are discarded), derives each duration from
the on-site-hours column falling back (column-wise) to the SRT-hours column,
multiplied by 60 and rounded to the nearest integer minute (half to even), and
deduplicates the output by job id keeping the first occurrence.
2_Planning.py's loader enforces the positive-duration filter, the per-row
on-site/SRT fallback and the same deduplication, but does **not** filter by
address length. -/
theorem C8_job_loader (hasOrder hasOns hasSrt hasZipCol : Bool)
    (rows : List RawCells) (out : List Job)
    (happ : load_jobs_app hasOrder hasOns hasSrt rows = some out) :
    ((out.map Job.job_id).Nodup ∧
      ∀ j ∈ out, 0 < j.job_minutes ∧ 9 ≤ j.address.length ∧
        (appFilteredJobs hasOns rows).find? (fun x => x.job_id == j.job_id) =
          some j ∧
        ∃ r ∈ rows, j = mkJobApp hasOns r ∧
          j.job_minutes = hoursToMinutes
            (if hasOns then r.ons.getD 0 else r.srt_hrs.getD 0)) ∧
    (((load_jobs_planning hasZipCol rows).map PJob.job_id).Nodup ∧
      ∀ p ∈ load_jobs_planning hasZipCol rows, 0 < p.duration_min ∧
        (planningFilteredJobs hasZipCol rows).find?
            (fun x => x.job_id == p.job_id) = some p ∧
        ∃ r ∈ rows, r.order_cell.isSome ∧ p = (mkJobPlanning hasZipCol r).2 ∧
          p.duration_min = hoursToMinutes
            ((r.ons.orElse fun _ => r.srt_hrs).getD 0)) := by
  have hout : out = dedupFirstBy Job.job_id (appFilteredJobs hasOns rows) [] := by
    unfold load_jobs_app at happ
    split at happ
    · exact Option.noConfusion happ
    · split at happ
      · exact Option.noConfusion happ
      · exact (Option.some_inj.mp happ).symm
  refine ⟨⟨?_, ?_⟩, ?_, ?_⟩
  · rw [hout]; exact dedupFirstBy_nodup _ _ _
  · intro j hj
    rw [hout] at hj
    have hmem : j ∈ appFilteredJobs hasOns rows := dedupFirstBy_subset _ _ _ _ hj
    have hfind := (dedupFirstBy_find? _ _ _ _ hj).2
    obtain ⟨hmem', hpred⟩ := List.mem_filter.mp hmem
    obtain ⟨r, hr, hjr⟩ := List.mem_map.mp hmem'
    have hlen : 8 < j.address.length ∧ 0 < j.job_minutes := by
      simpa using hpred
    refine ⟨hlen.2, by omega, hfind, r, hr, hjr.symm, ?_⟩
    rw [← hjr]
    rfl
  · exact dedupFirstBy_nodup _ _ _
  · intro p hp
    have hmem : p ∈ planningFilteredJobs hasZipCol rows :=
      dedupFirstBy_subset _ _ _ _ hp
    have hfind := (dedupFirstBy_find? _ _ _ _ hp).2
    obtain ⟨r, hr, hpr⟩ := List.mem_filterMap.mp hmem
    cases hoc : r.order_cell with
    | none => rw [hoc] at hpr; exact Option.noConfusion hpr
    | some oid =>
      cases hdm : (mkJobPlanning hasZipCol r).1 with
      | none => rw [hoc, hdm] at hpr; exact Option.noConfusion hpr
      | some dm =>
        rw [hoc, hdm] at hpr
        have hpr2 : (if 0 < dm then some (mkJobPlanning hasZipCol r).2
            else none) = some p := hpr
        by_cases hpos : 0 < dm
        · rw [if_pos hpos] at hpr2
          have hp2 : p = (mkJobPlanning hasZipCol r).2 :=
            (Option.some_inj.mp hpr2).symm
          have hfield : (mkJobPlanning hasZipCol r).2.duration_min =
              ((mkJobPlanning hasZipCol r).1).getD 0 := rfl
          have hdur : p.duration_min = dm := by
            rw [hp2, hfield, hdm]
            rfl
          have hd1 : (mkJobPlanning hasZipCol r).1 =
              (r.ons.orElse fun _ => r.srt_hrs).map
                (fun h => hoursToMinutes h) := rfl
          rw [hd1] at hdm
          refine ⟨by rw [hdur]; exact hpos, hfind, r, hr,
            by rw [hoc]; rfl, hp2, ?_⟩
          cases hor : (r.ons.orElse fun _ => r.srt_hrs) with
          | none => rw [hor] at hdm; exact Option.noConfusion hdm
          | some h0 =>
            rw [hor] at hdm
            have hdm2 : hoursToMinutes h0 = dm := by
              simpa using hdm
            rw [hdur, ← hdm2]
            rfl
        · rw [if_neg hpos] at hpr2
          exact Option.noConfusion hpr2

/-- Witness for C8 (amended): one valid row, one row with a short address, one
duplicate id — app.py's loader keeps exactly the first valid record. -/
theorem C8_job_loader_witness :
    ∃ out, load_jobs_app true true false
        [⟨some "A1", none, none, none, some "123 Long Street", none, none,
          some "Laval", some "QC", none, none, none, some 2, none, some 1⟩,
         ⟨some "A1", none, none, none, some "123 Long Street", none, none,
          some "Laval", some "QC", none, none, none, some 3, none, some 1⟩] =
        some out ∧
      ((out.map Job.job_id).Nodup ∧ ∀ j ∈ out, 0 < j.job_minutes) := by
  refine ⟨_, rfl, ?_⟩
  have h := C8_job_loader true true false false
    [⟨some "A1", none, none, none, some "123 Long Street", none, none,
      some "Laval", some "QC", none, none, none, some 2, none, some 1⟩,
     ⟨some "A1", none, none, none, some "123 Long Street", none, none,
      some "Laval", some "QC", none, none, none, some 3, none, some 1⟩]
    _ rfl
  exact ⟨h.1.1, fun j hj => (h.1.2 j hj).1⟩

/-! ## The monthly scheduler

`schedule_month_with_duo` (src/app.py lines 1356-1921).  The scheduler's
external collaborators are parameters of `Cfg`:

* `travel` is `travel_min_cached` (a pure oracle during one scheduling run; its
  int results are nonnegative — cached values and `int(round(sec/60))` of API
  durations — hence `Nat`);
* `jobPool` is `get_job_pool_for_tech` composed with the in-loop FSA-centroid
  sort (both built on geocoded centroids and floating-point haversine
  distances; theorems that need it assume its output is a subset of its
  input);
* `rankTechs` is `rank_techs_for_job tech_names · postal_map techs_near_job`
  (same remark; theorems assume its output is a duplicate-free sublist of the
  roster).

`day_hours` is a UI float; the scheduler only ever uses
`int(round(day_hours * 60))`, which is the `dayMin` parameter.  Python dicts
keyed by technician name are total functions updated pointwise
(`used`, `cur_loc`, `jobs_count`, `lock_tech`) when no emptiness test is
needed, and association lists with at-most-one entry per key
(`carryover_by_tech`, `split_label_state`) where the source tests emptiness
or deletes keys. -/

/-- One `planned_rows` dict. -/
structure Row where
  date : String
  technicien : String
  sequence : Int
  job_id : String
  cust : String
  duo : String
  ot : String
  debut : String
  fin : String
  adresse : String
  travel_min : Int
  job_min : Int
  buffer_min : Int
  techs_needed : Int
  description : String
deriving Repr, DecidableEq

/-- A `carryover_by_tech[t]` dict. -/
structure SplitState where
  base_job_id : String
  cust : String
  address : String
  description : String
  techs_needed : Int
  total_parts : Int
  part_idx_next : Int
  remaining_job_min : Int
deriving Repr, DecidableEq

/-- The per-day mutable maps `used`, `cur_loc`, `jobs_count`, `lock_tech`. -/
structure DayState where
  used : String → Int
  curLoc : String → String
  jobsCount : String → Int
  lock : String → Bool

/-- The cross-day mutable state of a scheduling run. -/
structure MonthState where
  planned : List Row
  labels : List (String × Int × List Nat)
  carry : List (String × SplitState)
  duoJobs : List Job
  soloJobs : List Job

/-- The scheduler's parameters and external collaborators. -/
structure Cfg where
  travel : String → String → Nat
  jobPool : List Job → String → List Job
  rankTechs : String → List String
  duoPool : Nat
  homeMap : String → String
  techNames : List String
  dayMin : Int
  lunchMin : Int
  bufferJob : Int
  maxJobsPerDay : Int
  allowDuo : Bool

/-- `available = int(round(day_hours * 60)) - int(lunch_min)`; also the
`daily_onsite_cap`. -/
def Cfg.available (c : Cfg) : Int := c.dayMin - c.lunchMin

/-- `OT_ACTIVE_CAP = 14*60 - lunch_min`, clamped up to `available`. -/
def Cfg.otCap (c : Cfg) : Int :=
  let v := 14 * 60 - c.lunchMin
  if v < c.available then c.available else v

/-- `MIN_ONSITE_CHUNK_MIN = 180` (3 h). -/
def MIN_ONSITE_CHUNK_MIN : Int := 180

/-- Pointwise dict update. -/
def fupd (f : String → β) (k : String) (v : β) : String → β :=
  fun x => if x = k then v else f x

/-- Association-list read / write / delete, at most one entry per key. -/
def alookup (l : List (String × β)) (k : String) : Option β :=
  (l.find? (fun e => e.1 == k)).map (fun e => e.2)

def aset (l : List (String × β)) (k : String) (v : β) : List (String × β) :=
  (k, v) :: l.filter (fun e => ! (e.1 == k))

def aerase (l : List (String × β)) (k : String) : List (String × β) :=
  l.filter (fun e => ! (e.1 == k))

/-- `f"{base} (PART {i}/{total})"`. -/
def partLabel (base : String) (i total : Int) : String :=
  base ++ " (PART " ++ toString i ++ "/" ++ toString total ++ ")"

/-- `int(math.ceil(job_min_total / 2.0))`. -/
def ceilHalf (n : Int) : Int := -((-n).fdiv 2)

/-- Replace the `job_id` of the row at index `i` (out-of-range: no-op). -/
def setRowId (rows : List Row) (i : Nat) (nid : String) : List Row :=
  match rows.get? i with
  | some r => rows.set i { r with job_id := nid }
  | none => rows

/-- The relabelling loop of `_register_and_relabel_split_row`:
`for i, ridx in enumerate(stt["row_idxs"], start=1): rows[ridx].job_id = f"{base} (PART {i}/{total})"`.
The source re-derives `base` from each row's current id by stripping the
trailing `(PART …/…)` suffix; every registered row was created with id
`partLabel base _ _` for this entry's key `base` (itself whitespace-stripped
by `clean_id`), on which the strip-and-`.strip()` is the identity, so the
entry key is used directly. -/
def relabelAll (base : String) (total : Int) : List Nat → Int → List Row → List Row
  | [], _, rows => rows
  | ridx :: rest, i, rows =>
    relabelAll base total rest (i + 1) (setRowId rows ridx (partLabel base i total))

/-- `_register_and_relabel_split_row` (src/app.py lines 1437-1450). -/
def registerAndRelabel (labels : List (String × Int × List Nat))
    (planned : List Row) (base : String) (newRowIdx : Nat) (partNum : Int) :
    List (String × Int × List Nat) × List Row :=
  let st0 := (alookup labels base).getD (partNum, [])
  let total := if partNum > st0.1 then partNum else st0.1
  let idxs := st0.2 ++ [newRowIdx]
  let labels := aset labels base (total, idxs)
  (labels, relabelAll base total idxs 1 planned)

/-- `_book_split_part_for_tech` (src/app.py lines 1452-1516).  Returns the
updated day state, rows, label state and split state (the source mutates the
dict held in `carryover_by_tech[t]` in place). -/
def bookSplitPart (cfg : Cfg) (day t : String) (ds : DayState)
    (planned : List Row) (labels : List (String × Int × List Nat))
    (ss : SplitState) :
    DayState × List Row × List (String × Int × List Nat) × SplitState :=
  let addr := ss.address
  let remaining_min := ss.remaining_job_min
  let part_idx := ss.part_idx_next
  let tmin : Int := cfg.travel (ds.curLoc t) addr
  let tback : Int := cfg.travel addr (cfg.homeMap t)
  let max_onsite_today :=
    cfg.available - ds.used t - tmin - cfg.bufferJob - tback
  if max_onsite_today ≤ 0 then (ds, planned, labels, ss)
  else
    let onsite_today :=
      choose_onsite_no_crumbs remaining_min max_onsite_today MIN_ONSITE_CHUNK_MIN
    if onsite_today ≤ 0 then (ds, planned, labels, ss)
    else
      let jc := ds.jobsCount t + 1
      let start_m := ds.used t + tmin
      let end_m := start_m + onsite_today + cfg.bufferJob
      let row : Row :=
        { date := day, technicien := t, sequence := jc
          job_id := partLabel ss.base_job_id part_idx (max 1 ss.total_parts)
          cust := ss.cust, duo := "", ot := ""
          debut := mm_to_hhmm start_m, fin := mm_to_hhmm end_m
          adresse := addr, travel_min := tmin, job_min := onsite_today
          buffer_min := cfg.bufferJob, techs_needed := ss.techs_needed
          description := ss.description }
      let planned := planned ++ [row]
      let rowIdx := planned.length - 1
      let rr := registerAndRelabel labels planned ss.base_job_id rowIdx part_idx
      let labels := rr.1
      let planned := rr.2
      let ds :=
        { ds with used := fupd ds.used t end_m
                  curLoc := fupd ds.curLoc t addr
                  jobsCount := fupd ds.jobsCount t jc }
      let remaining_min := remaining_min - onsite_today
      let ss := { ss with remaining_job_min := remaining_min
                          part_idx_next := part_idx + 1 }
      let ds := { ds with lock := fupd ds.lock t (remaining_min > 0) }
      (ds, planned, labels, ss)

/-! ### Duo pass (src/app.py lines 1540-1636) -/

/-- Unordered pairs in the source's `for i … for k in range(i+1, …)` order. -/
def upairs : List α → List (α × α)
  | [] => []
  | x :: xs => xs.map (fun y => (x, y)) ++ upairs xs

/-- Python tuple comparison `score < best[0]` on `(start_m, max(t1_tr, t2_tr))`. -/
def scoreLt (a b : Int × Int) : Prop :=
  a.1 < b.1 ∨ (a.1 = b.1 ∧ a.2 < b.2)

instance (a b : Int × Int) : Decidable (scoreLt a b) := by
  unfold scoreLt; infer_instance

/-- The data the duo search keeps for its current best candidate. -/
structure DuoBest where
  score : Int × Int
  job : Job
  t1 : String
  t2 : String
  start_m : Int
  end_m : Int
  t1_tr : Int
  t2_tr : Int
  isOT : Bool
  job_min_each : Int

/-- Evaluate one technician pair on one duo job (the body of the source's
double loop over `near_techs`), updating the running best. -/
def duoTryPair (cfg : Cfg) (ds : DayState) (job : Job)
    (best : Option DuoBest) (pr : String × String) : Option DuoBest :=
  let t1 := pr.1
  let t2 := pr.2
  if ds.lock t1 || ds.lock t2 then best
  else if cfg.maxJobsPerDay ≤ ds.jobsCount t1 ∨
      cfg.maxJobsPerDay ≤ ds.jobsCount t2 then best
  else
    let job_min_each := ceilHalf job.job_minutes
    let need_block := job_min_each + cfg.bufferJob
    let proceed : Option Bool :=
      if job_min_each > cfg.available then
        if job_min_each - cfg.available < 180 then
          if ds.jobsCount t1 ≠ 0 ∨ ds.jobsCount t2 ≠ 0 then none
          else some true
        else none
      else some false
    match proceed with
    | none => best
    | some duo_is_overtime =>
      let t1_tr : Int := cfg.travel (ds.curLoc t1) job.address
      let t2_tr : Int := cfg.travel (ds.curLoc t2) job.address
      let start_m := max (ds.used t1 + t1_tr) (ds.used t2 + t2_tr)
      let end_m := start_m + need_block
      let t1_back : Int := cfg.travel job.address (cfg.homeMap t1)
      let t2_back : Int := cfg.travel job.address (cfg.homeMap t2)
      if end_m + t1_back ≤ cfg.available ∧ end_m + t2_back ≤ cfg.available then
        let score := (start_m, max t1_tr t2_tr)
        match best with
        | none =>
          some ⟨score, job, t1, t2, start_m, end_m, t1_tr, t2_tr,
            duo_is_overtime, job_min_each⟩
        | some b =>
          if scoreLt score b.score then
            some ⟨score, job, t1, t2, start_m, end_m, t1_tr, t2_tr,
              duo_is_overtime, job_min_each⟩
          else best
      else best

/-- The duo candidate sample: jobs with a known FSA when any exist, truncated
to the `duo_pool` slider (the `fsa` column always exists in `render_page_2`'s
job frame). -/
def duoSample (cfg : Cfg) (duoJobs : List Job) : List Job :=
  let known := duoJobs.filter (fun j => 0 < j.fsa.length)
  let pool := if 0 < known.length then known else duoJobs
  pool.take cfg.duoPool

/-- Search the sample for the best feasible pair/job combination. -/
def duoFindBest (cfg : Cfg) (ds : DayState) (duoJobs : List Job) :
    Option DuoBest :=
  (duoSample cfg duoJobs).foldl
    (fun best job =>
      (upairs (cfg.rankTechs job.fsa)).foldl (duoTryPair cfg ds job) best)
    none

/-- Book the best duo candidate: two rows (`t1` then `t2`), both clocks set to
the common `end_m`, both locked when the booking used the overtime exception,
and every duo job with the booked id removed. -/
def duoBook (cfg : Cfg) (day : String) (b : DuoBest)
    (ds : DayState) (planned : List Row) (duoJobs : List Job) :
    DayState × List Row × List Job :=
  let mkRow (t : String) (trv : Int) (seqn : Int) : Row :=
    { date := day, technicien := t, sequence := seqn
      job_id := b.job.job_id, cust := b.job.cust
      duo := "⚠️ DUO", ot := ""
      debut := mm_to_hhmm b.start_m, fin := mm_to_hhmm b.end_m
      adresse := b.job.address, travel_min := trv
      job_min := b.job_min_each, buffer_min := cfg.bufferJob
      techs_needed := b.job.techs_needed, description := b.job.description }
  let jc1 := ds.jobsCount b.t1 + 1
  let ds := { ds with jobsCount := fupd ds.jobsCount b.t1 jc1
                      used := fupd ds.used b.t1 b.end_m
                      curLoc := fupd ds.curLoc b.t1 b.job.address }
  let planned := planned ++ [mkRow b.t1 b.t1_tr jc1]
  let jc2 := ds.jobsCount b.t2 + 1
  let ds := { ds with jobsCount := fupd ds.jobsCount b.t2 jc2
                      used := fupd ds.used b.t2 b.end_m
                      curLoc := fupd ds.curLoc b.t2 b.job.address }
  let planned := planned ++ [mkRow b.t2 b.t2_tr jc2]
  let ds :=
    if b.isOT then
      { ds with lock := fupd (fupd ds.lock b.t1 true) b.t2 true }
    else ds
  (ds, planned, duoJobs.filter (fun j => ! (j.job_id == b.job.job_id)))

/-- The duo `while True` loop; each booking removes a duo job, so
`duoJobs.length + 1` fuel runs it to its source exit. -/
def duoLoop (cfg : Cfg) (day : String) :
    Nat → DayState → List Row → List Job → DayState × List Row × List Job
  | 0, ds, planned, duoJobs => (ds, planned, duoJobs)
  | fuel + 1, ds, planned, duoJobs =>
    if duoJobs.isEmpty then (ds, planned, duoJobs)
    else
      match duoFindBest cfg ds duoJobs with
      | none => (ds, planned, duoJobs)
      | some b =>
        let bk := duoBook cfg day b ds planned duoJobs
        duoLoop cfg day fuel bk.1 bk.2.1 bk.2.2

/-! ### Solo pass (src/app.py lines 1638-1886) -/

/-- Best normal solo job for technician `t`: smallest travel time among sample
jobs with positive need that fit the remaining normal budget. -/
def soloBestNormal (cfg : Cfg) (ds : DayState) (t : String)
    (sample : List Job) : Option (Job × Int) :=
  sample.foldl
    (fun best job =>
      let tmin : Int := cfg.travel (ds.curLoc t) job.address
      let tback : Int := cfg.travel job.address (cfg.homeMap t)
      let need := tmin + job.job_minutes + cfg.bufferJob + tback
      if need ≤ 0 then best
      else if ds.used t + need ≤ cfg.available then
        match best with
        | none => some (job, tmin)
        | some b => if tmin < b.2 then some (job, tmin) else best
      else best)
    none

/-- Best overtime candidate: smallest travel time among sample jobs whose whole
need fits `OT_ACTIVE_CAP`. -/
def soloBestOT (cfg : Cfg) (ds : DayState) (t : String)
    (sample : List Job) : Option (Job × Int) :=
  sample.foldl
    (fun best job =>
      let tmin : Int := cfg.travel (ds.curLoc t) job.address
      let tback : Int := cfg.travel job.address (cfg.homeMap t)
      let need := tmin + job.job_minutes + cfg.bufferJob + tback
      if need ≤ cfg.otCap then
        match best with
        | none => some (job, tmin)
        | some b => if tmin < b.2 then some (job, tmin) else best
      else best)
    none

/-- Best long job to start a multi-day split (or book whole under the
overtime exception): on-site alone exceeds the daily cap, no active carryover
for `t`, room for a non-crumb first chunk. -/
def soloBestLong (cfg : Cfg) (ds : DayState) (t : String)
    (carry : List (String × SplitState)) (sample : List Job) :
    Option (Job × Int × Bool) :=
  sample.foldl
    (fun best job =>
      let jm := job.job_minutes
      if jm ≤ cfg.available then best
      else if (alookup carry t).isSome then best
      else
        let is_overtime_candidate :=
          ds.jobsCount t = 0 ∧ jm - cfg.available < 180
        let tmin : Int := cfg.travel (ds.curLoc t) job.address
        let tback : Int := cfg.travel job.address (cfg.homeMap t)
        let max_onsite_today :=
          cfg.available - ds.used t - tmin - cfg.bufferJob - tback
        if max_onsite_today ≤ 0 then best
        else if 0 < ds.jobsCount t ∧ max_onsite_today < MIN_ONSITE_CHUNK_MIN then
          best
        else if choose_onsite_no_crumbs jm max_onsite_today
            MIN_ONSITE_CHUNK_MIN ≤ 0 then best
        else if is_overtime_candidate ∧ max_onsite_today < jm then best
        else
          match best with
          | none => some (job, tmin, decide is_overtime_candidate)
          | some b =>
            if tmin < b.2.1 then some (job, tmin, decide is_overtime_candidate)
            else best)
    none

/-- Book a plain solo row (shared shape of the normal and OT bookings). -/
def soloBookRow (cfg : Cfg) (day t : String) (job : Job) (tmin : Int)
    (otFlag : String) (ds : DayState) (planned : List Row) :
    DayState × List Row :=
  let jc := ds.jobsCount t + 1
  let start_m := ds.used t + tmin
  let end_m := start_m + job.job_minutes + cfg.bufferJob
  let row : Row :=
    { date := day, technicien := t, sequence := jc
      job_id := job.job_id, cust := job.cust, duo := "", ot := otFlag
      debut := mm_to_hhmm start_m, fin := mm_to_hhmm end_m
      adresse := job.address, travel_min := tmin, job_min := job.job_minutes
      buffer_min := cfg.bufferJob, techs_needed := job.techs_needed
      description := job.description }
  ({ ds with jobsCount := fupd ds.jobsCount t jc
             used := fupd ds.used t end_m
             curLoc := fupd ds.curLoc t job.address },
    planned ++ [row])

/-- The split-or-overtime tail of the solo body (lines 1775-1886), entered when
neither a normal nor an OT booking was made for `t`. -/
def soloSplitAttempt (cfg : Cfg) (day t : String) (ds : DayState)
    (planned : List Row) (labels : List (String × Int × List Nat))
    (carry : List (String × SplitState)) (soloJobs : List Job)
    (sample : List Job) :
    DayState × List Row × List (String × Int × List Nat) ×
      List (String × SplitState) × List Job × Bool :=
  match soloBestLong cfg ds t carry sample with
  | none => (ds, planned, labels, carry, soloJobs, false)
  | some (job, _tmin, isOT) =>
    if isOT then
      -- overtime exception: do the FULL job today and lock the tech (no split);
      -- the row is written with an empty `ot` field (line 1838)
      let tmin : Int := cfg.travel (ds.curLoc t) job.address
      let bk := soloBookRow cfg day t job tmin "" ds planned
      let ds := bk.1
      let planned := bk.2
      let soloJobs := soloJobs.filter (fun j => ! (j.job_id == job.job_id))
      let ds := { ds with lock := fupd ds.lock t true }
      (ds, planned, labels, carry, soloJobs, true)
    else
      let total_parts_guess := compute_total_parts job.job_minutes cfg.available
      let ss : SplitState :=
        { base_job_id := job.job_id, cust := job.cust, address := job.address
          description := job.description, techs_needed := job.techs_needed
          total_parts := total_parts_guess, part_idx_next := 1
          remaining_job_min := job.job_minutes }
      let carry := aset carry t ss
      let soloJobs := soloJobs.filter (fun j => ! (j.job_id == job.job_id))
      let bp := bookSplitPart cfg day t ds planned labels ss
      let ds := bp.1
      let planned := bp.2.1
      let labels := bp.2.2.1
      let ss := bp.2.2.2
      let carry := aset carry t ss
      let carry := if ss.remaining_job_min ≤ 0 then aerase carry t else carry
      (ds, planned, labels, carry, soloJobs, true)

/-- One technician's turn inside the solo `for t in tech_names` body. -/
def soloTechStep (cfg : Cfg) (day t : String) (ds : DayState)
    (planned : List Row) (labels : List (String × Int × List Nat))
    (carry : List (String × SplitState)) (soloJobs : List Job) :
    DayState × List Row × List (String × Int × List Nat) ×
      List (String × SplitState) × List Job × Bool :=
  if ds.lock t then (ds, planned, labels, carry, soloJobs, false)
  else if cfg.maxJobsPerDay ≤ ds.jobsCount t then
    (ds, planned, labels, carry, soloJobs, false)
  else
    let sample := cfg.jobPool soloJobs t
    match soloBestNormal cfg ds t sample with
    | some (job, tmin) =>
      let bk := soloBookRow cfg day t job tmin "" ds planned
      let soloJobs := soloJobs.filter (fun j => ! (j.job_id == job.job_id))
      (bk.1, bk.2, labels, carry, soloJobs, true)
    | none =>
      if ds.jobsCount t = 0 then
        match soloBestOT cfg ds t sample with
        | some (job, tmin) =>
          let bk := soloBookRow cfg day t job tmin "🟥 OT" ds planned
          let soloJobs := soloJobs.filter (fun j => ! (j.job_id == job.job_id))
          let ds := { bk.1 with lock := fupd bk.1.lock t true }
          (ds, bk.2, labels, carry, soloJobs, true)
        | none =>
          soloSplitAttempt cfg day t ds planned labels carry soloJobs sample
      else
        soloSplitAttempt cfg day t ds planned labels carry soloJobs sample

/-- The `for t in tech_names` sweep; breaks out as soon as `solo_jobs` is
empty, and ors together the `made_progress` flags. -/
def soloSweep (cfg : Cfg) (day : String) :
    List String →
    DayState × List Row × List (String × Int × List Nat) ×
      List (String × SplitState) × List Job × Bool →
    DayState × List Row × List (String × Int × List Nat) ×
      List (String × SplitState) × List Job × Bool
  | [], st => st
  | t :: ts, (ds, planned, labels, carry, soloJobs, progress) =>
    if soloJobs.isEmpty then (ds, planned, labels, carry, soloJobs, progress)
    else
      let st := soloTechStep cfg day t ds planned labels carry soloJobs
      soloSweep cfg day ts (st.1, st.2.1, st.2.2.1, st.2.2.2.1, st.2.2.2.2.1,
        progress || st.2.2.2.2.2)

/-- The `while made_progress` loop; every productive sweep removes at least one
solo job, so `soloJobs.length + 1` fuel reaches the source's exit. -/
def soloLoop (cfg : Cfg) (day : String) :
    Nat →
    DayState × List Row × List (String × Int × List Nat) ×
      List (String × SplitState) × List Job →
    DayState × List Row × List (String × Int × List Nat) ×
      List (String × SplitState) × List Job
  | 0, st => st
  | fuel + 1, (ds, planned, labels, carry, soloJobs) =>
    if soloJobs.isEmpty then (ds, planned, labels, carry, soloJobs)
    else
      let sw := soloSweep cfg day cfg.techNames
        (ds, planned, labels, carry, soloJobs, false)
      if sw.2.2.2.2.2 then
        soloLoop cfg day fuel (sw.1, sw.2.1, sw.2.2.1, sw.2.2.2.1, sw.2.2.2.2.1)
      else (sw.1, sw.2.1, sw.2.2.1, sw.2.2.2.1, sw.2.2.2.2.1)

/-! ### Day driver and month loop (src/app.py lines 1518-1921) -/

/-- The carryover continuation at the start of each day (lines 1525-1538):
book the next part of each technician's active split, and drop the carryover
once its remaining minutes reach zero. -/
def carrySweep (cfg : Cfg) (day : String) :
    List String →
    DayState × List Row × List (String × Int × List Nat) ×
      List (String × SplitState) →
    DayState × List Row × List (String × Int × List Nat) ×
      List (String × SplitState)
  | [], st => st
  | t :: ts, (ds, planned, labels, carry) =>
    match alookup carry t with
    | none => carrySweep cfg day ts (ds, planned, labels, carry)
    | some ss =>
      let bp := bookSplitPart cfg day t ds planned labels ss
      let carry := aset carry t bp.2.2.2
      let carry := if bp.2.2.2.remaining_job_min ≤ 0 then aerase carry t
        else carry
      carrySweep cfg day ts (bp.1, bp.2.1, bp.2.2.1, carry)

/-- The synthetic `RETURN_HOME` rows (lines 1888-1912). -/
def returnHomeSweep (cfg : Cfg) (day : String) :
    List String → DayState × List Row → DayState × List Row
  | [], st => st
  | t :: ts, (ds, planned) =>
    if 0 < ds.jobsCount t then
      let tback : Int := cfg.travel (ds.curLoc t) (cfg.homeMap t)
      let row : Row :=
        { date := day, technicien := t, sequence := ds.jobsCount t + 1
          job_id := "RETURN_HOME", cust := "", duo := "", ot := ""
          debut := mm_to_hhmm (ds.used t)
          fin := mm_to_hhmm (ds.used t + tback)
          adresse := cfg.homeMap t, travel_min := tback, job_min := 0
          buffer_min := 0, techs_needed := 1
          description := "🏠 Retour domicile (estimé)" }
      let ds := { ds with used := fupd ds.used t (ds.used t + tback)
                          curLoc := fupd ds.curLoc t (cfg.homeMap t) }
      returnHomeSweep cfg day ts (ds, planned ++ [row])
    else returnHomeSweep cfg day ts (ds, planned)

/-- One business day of the scheduler (the body of
`for di, day in enumerate(month_days)`). -/
def runDay (cfg : Cfg) (ms : MonthState) (day : String) : MonthState :=
  let ds : DayState :=
    { used := fun _ => 0, curLoc := cfg.homeMap
      jobsCount := fun _ => 0, lock := fun _ => false }
  let cs := carrySweep cfg day cfg.techNames (ds, ms.planned, ms.labels, ms.carry)
  let dl :=
    if cfg.allowDuo ∧ ¬ ms.duoJobs.isEmpty ∧ 2 ≤ cfg.techNames.length then
      duoLoop cfg day (ms.duoJobs.length + 1) cs.1 cs.2.1 ms.duoJobs
    else (cs.1, cs.2.1, ms.duoJobs)
  let sl :=
    if ¬ ms.soloJobs.isEmpty then
      soloLoop cfg day (ms.soloJobs.length + 1)
        (dl.1, dl.2.1, cs.2.2.1, cs.2.2.2, ms.soloJobs)
    else (dl.1, dl.2.1, cs.2.2.1, cs.2.2.2, ms.soloJobs)
  let rh := returnHomeSweep cfg day cfg.techNames (sl.1, sl.2.1)
  { planned := rh.2, labels := sl.2.2.1, carry := sl.2.2.2.1
    duoJobs := dl.2.2, soloJobs := sl.2.2.2.2 }

/-- The month-level fold over business days, starting from the duo/solo pools
(lines 1423-1427): duo = `techs_needed == 2` (empty when duo booking is
disabled), solo = `techs_needed <= 1`. -/
def monthFold (cfg : Cfg) (jobs_in : List Job) (month_days : List String) :
    MonthState :=
  let duoJobs :=
    if cfg.allowDuo then jobs_in.filter (fun j => j.techs_needed == 2) else []
  let soloJobs := jobs_in.filter (fun j => j.techs_needed ≤ 1)
  month_days.foldl (runDay cfg)
    { planned := [], labels := [], carry := [], duoJobs := duoJobs
      soloJobs := soloJobs }

/-- `hard_jobs = remaining_all[techs_needed > 2]` — never touched again. -/
def hardJobs (jobs_in : List Job) : List Job :=
  jobs_in.filter (fun j => 2 < j.techs_needed)

/-- The dict returned by `schedule_month_with_duo`. -/
structure SchedResult where
  success : Bool
  rows : List Row
  remaining : List Job
deriving Repr, DecidableEq

/-- `schedule_month_with_duo` (src/app.py lines 1356-1921). -/
def schedule_month_with_duo (cfg : Cfg) (jobs_in : List Job)
    (month_days : List String) : SchedResult :=
  if cfg.available ≤ 0 then { success := false, rows := [], remaining := jobs_in }
  else
    let ms := monthFold cfg jobs_in month_days
    let remaining := ms.duoJobs ++ ms.soloJobs ++ hardJobs jobs_in
    { success := remaining.isEmpty && ms.carry.isEmpty
      rows := ms.planned, remaining := remaining }

/-! ## Concrete demonstration data shared by witnesses and counterexamples -/

/-- A two-technician roster with constant 30-minute travel times, no buffer,
no lunch, an 8-hour day and the identity prefilters. -/
def demoCfg : Cfg :=
  { travel := fun _ _ => 30
    jobPool := fun rem _ => rem
    rankTechs := fun _ => ["T1", "T2"]
    duoPool := 80
    homeMap := fun _ => "HOME"
    techNames := ["T1", "T2"]
    dayMin := 480
    lunchMin := 0
    bufferJob := 0
    maxJobsPerDay := 10
    allowDuo := true }

def demoJob (id : String) (minutes techs : Int) : Job :=
  { job_id := id, cust := "", address := "addr-" ++ id, description := ""
    job_minutes := minutes, techs_needed := techs, postal := "", fsa := "H3Z" }

/-! ## C4: the success flag and the remainder -/

/-- **C4, counterexample.**  With a non-positive daily budget (the defensive
branch at line 1370) and an empty job list, the scheduler returns
`success = false` although the remainder is empty and no carryover is active —
the claimed "if and only if" fails in that corner. -/
theorem C4_success_iff_counterexample :
    (schedule_month_with_duo { demoCfg with dayMin := 0 } [] []).success = false ∧
    (schedule_month_with_duo { demoCfg with dayMin := 0 } [] []).remaining = [] ∧
    (monthFold { demoCfg with dayMin := 0 } [] []).carry = [] := by
  refine ⟨rfl, rfl, rfl⟩

/-- **C4, amended.**  For every run of the monthly scheduler whose daily
budget `day_min - lunch_min` is positive (the UI guarantees 240−120 ≥ 120),
the returned success flag is true if and only if the job remainder (the
concatenation of unscheduled duo, solo, and more-than-two-technician jobs) is
empty and no carryover split is still active; the result carries the full
list of visit rows produced so far together with that remainder, and no
exception is raised for infeasibility (the embedding is a total function; for
a non-positive budget the scheduler instead returns `success = false`, no
rows, and the entire input as remainder). -/
theorem C4_success_iff (cfg : Cfg) (jobs_in : List Job)
    (month_days : List String) (hav : 0 < cfg.available) :
    ((schedule_month_with_duo cfg jobs_in month_days).success = true ↔
      ((schedule_month_with_duo cfg jobs_in month_days).remaining = [] ∧
        (monthFold cfg jobs_in month_days).carry = [])) ∧
    (schedule_month_with_duo cfg jobs_in month_days).rows =
      (monthFold cfg jobs_in month_days).planned ∧
    (schedule_month_with_duo cfg jobs_in month_days).remaining =
      (monthFold cfg jobs_in month_days).duoJobs ++
        ((monthFold cfg jobs_in month_days).soloJobs ++ hardJobs jobs_in) := by
  have hne : ¬ cfg.available ≤ 0 := not_le.mpr hav
  unfold schedule_month_with_duo
  rw [if_neg hne]
  refine ⟨?_, by simp, by simp⟩
  simp [Bool.and_eq_true, List.isEmpty_iff]

/-- Witness for C4 (amended) on a solvable one-job run. -/
theorem C4_success_iff_witness :
    ((schedule_month_with_duo demoCfg [demoJob "B" 240 1] ["d1"]).success = true ↔
      ((schedule_month_with_duo demoCfg [demoJob "B" 240 1] ["d1"]).remaining = [] ∧
        (monthFold demoCfg [demoJob "B" 240 1] ["d1"]).carry = [])) ∧
    (schedule_month_with_duo demoCfg [demoJob "B" 240 1] ["d1"]).rows =
      (monthFold demoCfg [demoJob "B" 240 1] ["d1"]).planned ∧
    (schedule_month_with_duo demoCfg [demoJob "B" 240 1] ["d1"]).remaining =
      (monthFold demoCfg [demoJob "B" 240 1] ["d1"]).duoJobs ++
        ((monthFold demoCfg [demoJob "B" 240 1] ["d1"]).soloJobs ++
          hardJobs [demoJob "B" 240 1]) :=
  C4_success_iff demoCfg [demoJob "B" 240 1] ["d1"] (by decide)

/-! ## C9: the duo overtime exception is dead code -/

/-- **C9.**  The claimed input: a two-technician job whose per-technician half
(500 min) exceeds the normal daily budget (480 min) by 20 minutes (< 3 h) and
fits the extended active-time ceiling (780 min), offered on an otherwise empty
day to a fresh pair.  The spec says the pair is booked on that single job up
to the extended ceiling; the code books nothing — the pair-feasibility check
at line 1594 still compares against `available` rather than `OT_ACTIVE_CAP`,
so `duo_is_overtime` (lines 1576-1583, 1632-1634) can never lead to a
booking: the scheduler returns no rows and leaves the job in the remainder. -/
theorem C9_duo_overtime_never_booked :
    (schedule_month_with_duo { demoCfg with dayMin := 540, lunchMin := 60 }
        [demoJob "G" 1000 2] ["d1"]).rows = [] ∧
    (schedule_month_with_duo { demoCfg with dayMin := 540, lunchMin := 60 }
        [demoJob "G" 1000 2] ["d1"]).remaining = [demoJob "G" 1000 2] ∧
    (schedule_month_with_duo { demoCfg with dayMin := 540, lunchMin := 60 }
        [demoJob "G" 1000 2] ["d1"]).success = false ∧
    ceilHalf (demoJob "G" 1000 2).job_minutes = 500 ∧
    Cfg.available { demoCfg with dayMin := 540, lunchMin := 60 } = 480 ∧
    (500 : Int) - 480 < 180 ∧
    (500 : Int) ≤ Cfg.otCap { demoCfg with dayMin := 540, lunchMin := 60 } := by
  refine ⟨rfl, rfl, rfl, rfl, rfl, by decide, by decide⟩

/-! ## Observables of a scheduling run

The claims speak about, for a technician `t` and a date `d`, the visit rows of
that technician/day excluding the synthetic return-home row, their
`travel + job + buffer` total, and the rows carrying a given job id. -/

/-- The non-return visit rows of one technician on one date. -/
def dayRows (rows : List Row) (d t : String) : List Row :=
  rows.filter (fun r =>
    r.date == d && r.technicien == t && ! (r.job_id == "RETURN_HOME"))

/-- `travel_min + job_min + buffer_min` of one row. -/
def rowCost (r : Row) : Int := r.travel_min + r.job_min + r.buffer_min

/-- The claimed per-technician/day total. -/
def rowSum (rows : List Row) (d t : String) : Int :=
  ((dayRows rows d t).map rowCost).sum

/-- The rows carrying a given job id. -/
def idRows (rows : List Row) (s : String) : List Row :=
  rows.filter (fun r => r.job_id == s)

/-! ### Facts about the `(PART i/N)` labels -/

theorem partLabel_data (b : String) (i n : Int) :
    (partLabel b i n).data =
      b.data ++ " (PART ".data ++ (toString i).data ++ "/".data ++
        (toString n).data ++ ")".data := by
  simp [partLabel, String.data_append]

theorem space_mem_partLabel (b : String) (i n : Int) :
    ' ' ∈ (partLabel b i n).data := by
  rw [partLabel_data]
  have h1 : ' ' ∈ " (PART ".data := by decide
  exact List.mem_append_left _ (List.mem_append_left _ (List.mem_append_left _
    (List.mem_append_left _ (List.mem_append_right _ h1))))

/-- A split label is never the synthetic return-home id. -/
theorem partLabel_ne_return (b : String) (i n : Int) :
    partLabel b i n ≠ "RETURN_HOME" := by
  intro h
  have hsp := space_mem_partLabel b i n
  rw [h] at hsp
  revert hsp
  decide

/-- A split label is at least 9 characters longer than its base; in
particular it is at least 9 characters long. -/
theorem partLabel_length (b : String) (i n : Int) :
    9 ≤ (partLabel b i n).length := by
  have h : (partLabel b i n).length = (partLabel b i n).data.length := rfl
  rw [h, partLabel_data]
  simp only [List.length_append]
  have h1 : ([' ', '(', 'P', 'A', 'R', 'T', ' '] : List Char).length = 7 := rfl
  have h2 : (['/'] : List Char).length = 1 := rfl
  have h3 : ([')'] : List Char).length = 1 := rfl
  omega

/-- Any string shorter than 9 characters is distinct from every split label
(used to discharge the `partLabel`-avoidance hypotheses at concrete ids). -/
theorem ne_partLabel_of_short (s : String) (hs : s.length < 9) :
    ∀ b i n, s ≠ partLabel b i n := by
  intro b i n h
  have := partLabel_length b i n
  rw [← h] at this
  omega

/-! ### Provenance of the greedy searches

Each best-candidate search is a fold that either keeps its accumulator or
replaces it by a candidate built from the current element; consequently a
`some` result always comes from some element of the searched list. -/

theorem foldl_option_cases {α β : Type _} {R : α → β → Prop}
    {f : Option β → α → Option β}
    (hf : ∀ acc x b, f acc x = some b → acc = some b ∨ R x b) :
    ∀ (l : List α) (acc : Option β) (b : β),
      l.foldl f acc = some b → acc = some b ∨ ∃ x ∈ l, R x b := by
  intro l
  induction l with
  | nil => intro acc b h; exact Or.inl h
  | cons x xs ih =>
    intro acc b h
    rcases ih (f acc x) b h with h1 | ⟨y, hy, hR⟩
    · rcases hf acc x b h1 with h2 | hR
      · exact Or.inl h2
      · exact Or.inr ⟨x, List.mem_cons_self _ _, hR⟩
    · exact Or.inr ⟨y, List.mem_cons_of_mem _ hy, hR⟩

theorem mem_upairs {α : Type _} :
    ∀ (l : List α) (x y : α), (x, y) ∈ upairs l → x ∈ l ∧ y ∈ l := by
  intro l
  induction l with
  | nil => intro x y h; simp [upairs] at h
  | cons a as ih =>
    intro x y h
    rcases List.mem_append.mp h with h1 | h1
    · obtain ⟨z, hz, hzeq⟩ := List.mem_map.mp h1
      cases hzeq
      exact ⟨List.mem_cons_self _ _, List.mem_cons_of_mem _ hz⟩
    · obtain ⟨hx, hy⟩ := ih x y h1
      exact ⟨List.mem_cons_of_mem _ hx, List.mem_cons_of_mem _ hy⟩

theorem mem_upairs_ne {α : Type _} :
    ∀ (l : List α), l.Nodup → ∀ x y : α, (x, y) ∈ upairs l → x ≠ y := by
  intro l
  induction l with
  | nil => intro _ x y h; simp [upairs] at h
  | cons a as ih =>
    intro hnd x y h
    rcases List.mem_append.mp h with h1 | h1
    · obtain ⟨z, hz, hzeq⟩ := List.mem_map.mp h1
      cases hzeq
      intro he
      exact (List.nodup_cons.mp hnd).1 (he ▸ hz)
    · exact ih (List.nodup_cons.mp hnd).2 x y h1

theorem mem_duoSample (cfg : Cfg) (l : List Job) (x : Job)
    (h : x ∈ duoSample cfg l) : x ∈ l := by
  unfold duoSample at h
  have h1 := List.mem_of_mem_take h
  by_cases hk : 0 < (l.filter (fun j => 0 < j.fsa.length)).length
  · rw [if_pos hk] at h1
    exact List.mem_of_mem_filter h1
  · rw [if_neg hk] at h1
    exact h1

/-- Everything `duoTryPair` records about a candidate it creates. -/
def DuoCand (cfg : Cfg) (ds : DayState) (job : Job) (pr : String × String)
    (b : DuoBest) : Prop :=
  b.job = job ∧ b.t1 = pr.1 ∧ b.t2 = pr.2 ∧
  b.job_min_each = ceilHalf job.job_minutes ∧
  ds.lock b.t1 = false ∧ ds.lock b.t2 = false ∧
  b.t1_tr = (cfg.travel (ds.curLoc b.t1) job.address : Int) ∧
  b.t2_tr = (cfg.travel (ds.curLoc b.t2) job.address : Int) ∧
  b.start_m = max (ds.used b.t1 + b.t1_tr) (ds.used b.t2 + b.t2_tr) ∧
  b.end_m = b.start_m + (b.job_min_each + cfg.bufferJob) ∧
  b.end_m + (cfg.travel job.address (cfg.homeMap b.t1) : Int) ≤ cfg.available ∧
  b.end_m + (cfg.travel job.address (cfg.homeMap b.t2) : Int) ≤ cfg.available

theorem duoTryPair_cases (cfg : Cfg) (ds : DayState) (job : Job)
    (best : Option DuoBest) (pr : String × String) (b : DuoBest)
    (h : duoTryPair cfg ds job best pr = some b) :
    best = some b ∨ DuoCand cfg ds job pr b := by
  unfold duoTryPair at h
  dsimp only at h
  split at h
  · exact Or.inl h
  · next hlock =>
    have hl12 : ds.lock pr.1 = false ∧ ds.lock pr.2 = false := by
      constructor <;> [skip; skip] <;>
        simp [Bool.or_eq_true, not_or, Bool.not_eq_true] at hlock <;>
        [exact hlock.1; exact hlock.2]
    split at h
    · exact Or.inl h
    · split at h
      · exact Or.inl h
      · next duo_ot hpo =>
        split at h
        · next hfeas =>
          split at h
          · cases h
            exact Or.inr ⟨rfl, rfl, rfl, rfl, hl12.1, hl12.2, rfl, rfl, rfl,
              rfl, hfeas.1, hfeas.2⟩
          · split at h
            · cases h
              exact Or.inr ⟨rfl, rfl, rfl, rfl, hl12.1, hl12.2, rfl, rfl, rfl,
                rfl, hfeas.1, hfeas.2⟩
            · exact Or.inl h
        · exact Or.inl h

theorem duoFindBest_cases (cfg : Cfg) (ds : DayState) (duoJobs : List Job)
    (b : DuoBest) (h : duoFindBest cfg ds duoJobs = some b) :
    ∃ job ∈ duoSample cfg duoJobs,
      ∃ pr ∈ upairs (cfg.rankTechs job.fsa), DuoCand cfg ds job pr b := by
  unfold duoFindBest at h
  have hmain := @foldl_option_cases _ _
    (fun job bb => ∃ pr ∈ upairs (cfg.rankTechs job.fsa),
      DuoCand cfg ds job pr bb) _
    (fun acc job bb hfold =>
      @foldl_option_cases _ _
        (fun pr bb2 => DuoCand cfg ds job pr bb2) _
        (fun acc2 pr bb2 hstep => duoTryPair_cases cfg ds job acc2 pr bb2 hstep)
        (upairs (cfg.rankTechs job.fsa)) acc bb hfold)
    (duoSample cfg duoJobs) none b h
  rcases hmain with h1 | hgood
  · exact Option.noConfusion h1
  · exact hgood

/-- What `soloBestNormal` guarantees about its result. -/
theorem soloBestNormal_cases (cfg : Cfg) (ds : DayState) (t : String)
    (sample : List Job) (p : Job × Int)
    (h : soloBestNormal cfg ds t sample = some p) :
    p.1 ∈ sample ∧ p.2 = (cfg.travel (ds.curLoc t) p.1.address : Int) ∧
    0 < p.2 + p.1.job_minutes + cfg.bufferJob +
        (cfg.travel p.1.address (cfg.homeMap t) : Int) ∧
    ds.used t + (p.2 + p.1.job_minutes + cfg.bufferJob +
        (cfg.travel p.1.address (cfg.homeMap t) : Int)) ≤ cfg.available := by
  unfold soloBestNormal at h
  have hmain := @foldl_option_cases _ _
    (fun job pp =>
      pp.1 = job ∧ pp.2 = (cfg.travel (ds.curLoc t) job.address : Int) ∧
      0 < pp.2 + job.job_minutes + cfg.bufferJob +
          (cfg.travel job.address (cfg.homeMap t) : Int) ∧
      ds.used t + (pp.2 + job.job_minutes + cfg.bufferJob +
          (cfg.travel job.address (cfg.homeMap t) : Int)) ≤ cfg.available) _
    (fun acc job pp hstep => by
      dsimp only at hstep
      split at hstep
      · exact Or.inl hstep
      · next hneed =>
        split at hstep
        · next hfit =>
          split at hstep
          · cases hstep
            exact Or.inr ⟨rfl, rfl, by omega, by omega⟩
          · split at hstep
            · cases hstep
              exact Or.inr ⟨rfl, rfl, by omega, by omega⟩
            · exact Or.inl hstep
        · exact Or.inl hstep)
    sample none p h
  rcases hmain with h1 | ⟨x, hx, rfl, hrest⟩
  · exact Option.noConfusion h1
  · exact ⟨hx, hrest⟩

/-- What `soloBestOT` guarantees about its result. -/
theorem soloBestOT_cases (cfg : Cfg) (ds : DayState) (t : String)
    (sample : List Job) (p : Job × Int)
    (h : soloBestOT cfg ds t sample = some p) :
    p.1 ∈ sample ∧ p.2 = (cfg.travel (ds.curLoc t) p.1.address : Int) ∧
    p.2 + p.1.job_minutes + cfg.bufferJob +
        (cfg.travel p.1.address (cfg.homeMap t) : Int) ≤ cfg.otCap := by
  unfold soloBestOT at h
  have hmain := @foldl_option_cases _ _
    (fun job pp =>
      pp.1 = job ∧ pp.2 = (cfg.travel (ds.curLoc t) job.address : Int) ∧
      pp.2 + job.job_minutes + cfg.bufferJob +
          (cfg.travel job.address (cfg.homeMap t) : Int) ≤ cfg.otCap) _
    (fun acc job pp hstep => by
      dsimp only at hstep
      split at hstep
      · next hfit =>
        split at hstep
        · cases hstep
          exact Or.inr ⟨rfl, rfl, by omega⟩
        · split at hstep
          · cases hstep
            exact Or.inr ⟨rfl, rfl, by omega⟩
          · exact Or.inl hstep
      · exact Or.inl hstep)
    sample none p h
  rcases hmain with h1 | ⟨x, hx, rfl, hrest⟩
  · exact Option.noConfusion h1
  · exact ⟨hx, hrest⟩

/-- What `soloBestLong` guarantees about its result. -/
theorem soloBestLong_cases (cfg : Cfg) (ds : DayState) (t : String)
    (carry : List (String × SplitState)) (sample : List Job)
    (q : Job × Int × Bool) (h : soloBestLong cfg ds t carry sample = some q) :
    q.1 ∈ sample ∧ cfg.available < q.1.job_minutes ∧
    alookup carry t = none ∧
    q.2.1 = (cfg.travel (ds.curLoc t) q.1.address : Int) ∧
    (0 < cfg.available - ds.used t - q.2.1 - cfg.bufferJob -
      (cfg.travel q.1.address (cfg.homeMap t) : Int)) ∧
    0 < choose_onsite_no_crumbs q.1.job_minutes
        (cfg.available - ds.used t - q.2.1 - cfg.bufferJob -
          (cfg.travel q.1.address (cfg.homeMap t) : Int)) MIN_ONSITE_CHUNK_MIN ∧
    (q.2.2 = true → ds.jobsCount t = 0 ∧
      q.1.job_minutes ≤ cfg.available - ds.used t - q.2.1 - cfg.bufferJob -
        (cfg.travel q.1.address (cfg.homeMap t) : Int)) := by
  unfold soloBestLong at h
  have hmain := @foldl_option_cases _ _
    (fun job qq =>
      qq.1 = job ∧ cfg.available < job.job_minutes ∧
      alookup carry t = none ∧
      qq.2.1 = (cfg.travel (ds.curLoc t) job.address : Int) ∧
      (0 < cfg.available - ds.used t - qq.2.1 - cfg.bufferJob -
        (cfg.travel job.address (cfg.homeMap t) : Int)) ∧
      0 < choose_onsite_no_crumbs job.job_minutes
          (cfg.available - ds.used t - qq.2.1 - cfg.bufferJob -
            (cfg.travel job.address (cfg.homeMap t) : Int)) MIN_ONSITE_CHUNK_MIN ∧
      (qq.2.2 = true → ds.jobsCount t = 0 ∧
        job.job_minutes ≤ cfg.available - ds.used t - qq.2.1 - cfg.bufferJob -
          (cfg.travel job.address (cfg.homeMap t) : Int))) _
    (fun acc job qq hstep => by
      dsimp only at hstep
      split at hstep
      · exact Or.inl hstep
      · next hbig =>
        split at hstep
        · exact Or.inl hstep
        · next hcarry =>
          split at hstep
          · exact Or.inl hstep
          · next hroom =>
            split at hstep
            · exact Or.inl hstep
            · next hcrumb =>
              split at hstep
              · exact Or.inl hstep
              · next hchunk =>
                split at hstep
                · exact Or.inl hstep
                · next hotskip =>
                  have hcarry0 : alookup carry t = none := by
                    cases hc : alookup carry t with
                    | none => rfl
                    | some v => rw [hc] at hcarry; exact absurd rfl hcarry
                  split at hstep
                  · cases hstep
                    refine Or.inr ?_
                    refine ⟨rfl, by omega, hcarry0, rfl, ?_, ?_, ?_⟩
                    · show 0 < cfg.available - ds.used t -
                        (cfg.travel (ds.curLoc t) job.address : Int) -
                        cfg.bufferJob -
                        (cfg.travel job.address (cfg.homeMap t) : Int)
                      omega
                    · show 0 < choose_onsite_no_crumbs job.job_minutes
                        (cfg.available - ds.used t -
                          (cfg.travel (ds.curLoc t) job.address : Int) -
                          cfg.bufferJob -
                          (cfg.travel job.address (cfg.homeMap t) : Int))
                        MIN_ONSITE_CHUNK_MIN
                      omega
                    · intro hot
                      have hd : ds.jobsCount t = 0 ∧
                          job.job_minutes - cfg.available < 180 :=
                        of_decide_eq_true hot
                      refine ⟨hd.1, ?_⟩
                      show job.job_minutes ≤ cfg.available - ds.used t -
                        (cfg.travel (ds.curLoc t) job.address : Int) -
                        cfg.bufferJob -
                        (cfg.travel job.address (cfg.homeMap t) : Int)
                      omega
                  · split at hstep
                    · cases hstep
                      refine Or.inr ?_
                      refine ⟨rfl, by omega, hcarry0, rfl, ?_, ?_, ?_⟩
                      · show 0 < cfg.available - ds.used t -
                          (cfg.travel (ds.curLoc t) job.address : Int) -
                          cfg.bufferJob -
                          (cfg.travel job.address (cfg.homeMap t) : Int)
                        omega
                      · show 0 < choose_onsite_no_crumbs job.job_minutes
                          (cfg.available - ds.used t -
                            (cfg.travel (ds.curLoc t) job.address : Int) -
                            cfg.bufferJob -
                            (cfg.travel job.address (cfg.homeMap t) : Int))
                          MIN_ONSITE_CHUNK_MIN
                        omega
                      · intro hot
                        have hd : ds.jobsCount t = 0 ∧
                            job.job_minutes - cfg.available < 180 :=
                          of_decide_eq_true hot
                        refine ⟨hd.1, ?_⟩
                        show job.job_minutes ≤ cfg.available - ds.used t -
                          (cfg.travel (ds.curLoc t) job.address : Int) -
                          cfg.bufferJob -
                          (cfg.travel job.address (cfg.homeMap t) : Int)
                        omega
                    · exact Or.inl hstep)
    sample none q h
  rcases hmain with h1 | ⟨x, hx, rfl, hrest⟩
  · exact Option.noConfusion h1
  · exact ⟨hx, hrest⟩

/-! ### Row equivalence under relabelling

`_register_and_relabel_split_row` rewrites the `job_id` of previously appended
split rows (and nothing else); every id it writes, and every id it overwrites,
is a `(PART …/…)` label.  All per-day and per-id observables of the claims are
invariant under such rewrites. -/

/-- Two rows equal except that a `(PART …/…)` label may have been replaced by
another one. -/
def RowEquiv (r r' : Row) : Prop :=
  r'.date = r.date ∧ r'.technicien = r.technicien ∧ r'.sequence = r.sequence ∧
  r'.cust = r.cust ∧ r'.duo = r.duo ∧ r'.ot = r.ot ∧ r'.debut = r.debut ∧
  r'.fin = r.fin ∧ r'.adresse = r.adresse ∧ r'.travel_min = r.travel_min ∧
  r'.job_min = r.job_min ∧ r'.buffer_min = r.buffer_min ∧
  r'.techs_needed = r.techs_needed ∧ r'.description = r.description ∧
  (r'.job_id = r.job_id ∨
    ((∃ b i n, r.job_id = partLabel b i n) ∧
      (∃ b i n, r'.job_id = partLabel b i n)))

theorem rowEquiv_refl (r : Row) : RowEquiv r r := by
  refine ⟨rfl, rfl, rfl, rfl, rfl, rfl, rfl, rfl, rfl, rfl, rfl, rfl, rfl, rfl,
    Or.inl rfl⟩

theorem rowEquiv_trans {r1 r2 r3 : Row} (h1 : RowEquiv r1 r2)
    (h2 : RowEquiv r2 r3) : RowEquiv r1 r3 := by
  obtain ⟨a1, a2, a3, a4, a5, a6, a7, a8, a9, a10, a11, a12, a13, a14, aid⟩ := h1
  obtain ⟨b1, b2, b3, b4, b5, b6, b7, b8, b9, b10, b11, b12, b13, b14, bid⟩ := h2
  refine ⟨b1.trans a1, b2.trans a2, b3.trans a3, b4.trans a4, b5.trans a5,
    b6.trans a6, b7.trans a7, b8.trans a8, b9.trans a9, b10.trans a10,
    b11.trans a11, b12.trans a12, b13.trans a13, b14.trans a14, ?_⟩
  rcases aid with aeq | ⟨ap, ap'⟩
  · rcases bid with beq | ⟨bp, bp'⟩
    · exact Or.inl (beq.trans aeq)
    · exact Or.inr ⟨aeq ▸ bp, bp'⟩
  · rcases bid with beq | ⟨bp, bp'⟩
    · exact Or.inr ⟨ap, beq ▸ ap'⟩
    · exact Or.inr ⟨ap, bp'⟩

/-- Whole-list version. -/
def RowsEquiv (rows rows' : List Row) : Prop :=
  List.Forall₂ RowEquiv rows rows'

theorem rowsEquiv_refl (rows : List Row) : RowsEquiv rows rows := by
  induction rows with
  | nil => exact List.Forall₂.nil
  | cons r rs ih => exact List.Forall₂.cons (rowEquiv_refl r) ih

theorem rowsEquiv_trans {l1 l2 l3 : List Row} (h1 : RowsEquiv l1 l2)
    (h2 : RowsEquiv l2 l3) : RowsEquiv l1 l3 := by
  induction h1 generalizing l3 with
  | nil => cases h2; exact List.Forall₂.nil
  | cons hr hl ih =>
    cases h2 with
    | cons hr2 hl2 => exact List.Forall₂.cons (rowEquiv_trans hr hr2) (ih hl2)

theorem rowsEquiv_append {l1 l2 l1' l2' : List Row} (h1 : RowsEquiv l1 l1')
    (h2 : RowsEquiv l2 l2') : RowsEquiv (l1 ++ l2) (l1' ++ l2') := by
  induction h1 with
  | nil => exact h2
  | cons hr hl ih => exact List.Forall₂.cons hr ih

theorem rowsEquiv_length {l l' : List Row} (h : RowsEquiv l l') :
    l.length = l'.length := List.Forall₂.length_eq h

/-- Equivalent rows have the same id-is-return status. -/
theorem rowEquiv_return {r r' : Row} (h : RowEquiv r r') :
    (r'.job_id == "RETURN_HOME") = (r.job_id == "RETURN_HOME") := by
  rcases h.2.2.2.2.2.2.2.2.2.2.2.2.2.2 with heq | ⟨⟨b, i, n, hp⟩, ⟨b', i', n', hp'⟩⟩
  · rw [heq]
  · rw [hp, hp']
    have h1 := partLabel_ne_return b i n
    have h2 := partLabel_ne_return b' i' n'
    simp [h1, h2]

/-- The day-group filter status is preserved. -/
theorem rowEquiv_dayPred {r r' : Row} (h : RowEquiv r r') (d t : String) :
    (r'.date == d && r'.technicien == t && ! (r'.job_id == "RETURN_HOME")) =
      (r.date == d && r.technicien == t && ! (r.job_id == "RETURN_HOME")) := by
  rw [h.1, h.2.1, rowEquiv_return h]

theorem dayRows_equiv {rows rows' : List Row} (h : RowsEquiv rows rows')
    (d t : String) : RowsEquiv (dayRows rows d t) (dayRows rows' d t) := by
  induction h with
  | nil => exact List.Forall₂.nil
  | cons hr hl ih =>
    unfold dayRows at ih ⊢
    rw [List.filter_cons, List.filter_cons, rowEquiv_dayPred hr]
    split
    · exact List.Forall₂.cons hr ih
    · exact ih

theorem rowsEquiv_cost_sum {l l' : List Row} (h : List.Forall₂ RowEquiv l l') :
    (l'.map rowCost).sum = (l.map rowCost).sum := by
  induction h with
  | nil => rfl
  | cons hr hl ih =>
    rename_i r r' l1 l2
    simp only [List.map_cons, List.sum_cons, ih]
    have hc : rowCost r' = rowCost r := by
      unfold rowCost
      rw [hr.2.2.2.2.2.2.2.2.2.1, hr.2.2.2.2.2.2.2.2.2.2.1,
        hr.2.2.2.2.2.2.2.2.2.2.2.1]
    rw [hc]

theorem rowsEquiv_mem {l l' : List Row} (h : List.Forall₂ RowEquiv l l')
    {r' : Row} (hm : r' ∈ l') : ∃ r ∈ l, RowEquiv r r' := by
  induction h with
  | nil => cases hm
  | cons hr hl ih =>
    rcases List.mem_cons.mp hm with rfl | hm2
    · exact ⟨_, List.mem_cons_self _ _, hr⟩
    · obtain ⟨r, hr2, he⟩ := ih hm2
      exact ⟨r, List.mem_cons_of_mem _ hr2, he⟩

theorem rowSum_equiv {rows rows' : List Row} (h : RowsEquiv rows rows')
    (d t : String) : rowSum rows' d t = rowSum rows d t :=
  rowsEquiv_cost_sum (dayRows_equiv h d t)

theorem dayRows_length_equiv {rows rows' : List Row} (h : RowsEquiv rows rows')
    (d t : String) : (dayRows rows' d t).length = (dayRows rows d t).length :=
  (rowsEquiv_length (dayRows_equiv h d t)).symm

theorem dayRows_mem_equiv {rows rows' : List Row} (h : RowsEquiv rows rows')
    (d t : String) {r' : Row} (hm : r' ∈ dayRows rows' d t) :
    ∃ r ∈ dayRows rows d t, RowEquiv r r' :=
  rowsEquiv_mem (dayRows_equiv h d t) hm

/-- For an id that is not a `(PART …/…)` label, the rows carrying it are
untouched by relabelling. -/
theorem idRows_equiv {rows rows' : List Row} (h : RowsEquiv rows rows')
    (s : String) (hs : ∀ b i n, s ≠ partLabel b i n) :
    idRows rows' s = idRows rows s := by
  induction h with
  | nil => rfl
  | cons hr hl ih =>
    rename_i r r' l l'
    unfold idRows at ih ⊢
    rw [List.filter_cons, List.filter_cons, ih]
    obtain ⟨a1, a2, a3, a4, a5, a6, a7, a8, a9, a10, a11, a12, a13, a14, aid⟩ := hr
    rcases aid with heq | ⟨⟨b, i, n, hp⟩, ⟨b', i', n', hp'⟩⟩
    · have hsame : (r'.job_id == s) = (r.job_id == s) := by rw [heq]
      rw [hsame]
      split
      · next hin =>
        have hid : r'.job_id = r.job_id := heq
        have : r' = r := by
          cases r; cases r'
          simp only at a1 a2 a3 a4 a5 a6 a7 a8 a9 a10 a11 a12 a13 a14 hid
          simp [a1, a2, a3, a4, a5, a6, a7, a8, a9, a10, a11, a12, a13, a14, hid]
        rw [this]
      · rfl
    · have h1 : (r.job_id == s) = false := by
        apply beq_eq_false_iff_ne.mpr
        rw [hp]
        exact fun he => hs b i n he.symm
      have h2 : (r'.job_id == s) = false := by
        apply beq_eq_false_iff_ne.mpr
        rw [hp']
        exact fun he => hs b' i' n' he.symm
      rw [h1, h2]
      simp

/-! ### The label state invariant -/

/-- Every index recorded in `split_label_state` points at an existing split
row: not OT-flagged and carrying a `(PART …/…)` id. -/
def LabelsInv (planned : List Row)
    (labels : List (String × Int × List Nat)) : Prop :=
  ∀ e ∈ labels, ∀ k ∈ e.2.2, ∃ r, planned.get? k = some r ∧ r.ot = "" ∧
    ∃ b i n, r.job_id = partLabel b i n

theorem setRowId_get?_ne (rows : List Row) (i : Nat) (nid : String)
    (k : Nat) (h : k ≠ i) : (setRowId rows i nid).get? k = rows.get? k := by
  unfold setRowId
  cases hg : rows.get? i with
  | none => rfl
  | some r => exact List.get?_set_ne _ rows (fun he => h he.symm)

theorem setRowId_get?_eq (rows : List Row) (i : Nat) (nid : String)
    (r : Row) (h : rows.get? i = some r) :
    (setRowId rows i nid).get? i = some { r with job_id := nid } := by
  unfold setRowId
  rw [h]
  rw [List.get?_set_eq, h]
  rfl

theorem setRowId_equiv (rows : List Row) (i : Nat) (nid : String)
    (hnid : ∃ b k n, nid = partLabel b k n)
    (hold : ∀ r, rows.get? i = some r → ∃ b k n, r.job_id = partLabel b k n) :
    RowsEquiv rows (setRowId rows i nid) := by
  induction rows generalizing i with
  | nil => exact List.Forall₂.nil
  | cons r rs ih =>
    cases i with
    | zero =>
      show RowsEquiv (r :: rs) (setRowId (r :: rs) 0 nid)
      have hget : (r :: rs).get? 0 = some r := rfl
      unfold setRowId
      rw [hget]
      refine List.Forall₂.cons ?_ (rowsEquiv_refl rs)
      exact ⟨rfl, rfl, rfl, rfl, rfl, rfl, rfl, rfl, rfl, rfl, rfl, rfl, rfl,
        rfl, Or.inr ⟨hold r hget, hnid⟩⟩
    | succ n =>
      have hstep : setRowId (r :: rs) (n + 1) nid = r :: setRowId rs n nid := by
        unfold setRowId
        rw [List.get?_cons_succ]
        cases hg : rs.get? n with
        | none => rfl
        | some r0 => rfl
      rw [hstep]
      exact List.Forall₂.cons (rowEquiv_refl r) (ih n (fun r0 h0 => hold r0 h0))

theorem relabelAll_equiv (base : String) (total : Int) :
    ∀ (idxs : List Nat) (i : Int) (rows : List Row),
      (∀ k ∈ idxs, ∀ r, rows.get? k = some r →
        ∃ b j n, r.job_id = partLabel b j n) →
      RowsEquiv rows (relabelAll base total idxs i rows) := by
  intro idxs
  induction idxs with
  | nil => intro i rows _; exact rowsEquiv_refl rows
  | cons k0 rest ih =>
    intro i rows hidxs
    unfold relabelAll
    have h1 : RowsEquiv rows (setRowId rows k0 (partLabel base i total)) :=
      setRowId_equiv rows k0 _ ⟨base, i, total, rfl⟩
        (hidxs k0 (List.mem_cons_self _ _))
    refine rowsEquiv_trans h1 (ih (i + 1) _ ?_)
    intro k hk r hr
    by_cases hkk : k = k0
    · subst hkk
      cases hg : rows.get? k with
      | none =>
        rw [show setRowId rows k (partLabel base i total) = rows by
          unfold setRowId; rw [hg]] at hr
        rw [hg] at hr
        exact Option.noConfusion hr
      | some r0 =>
        rw [setRowId_get?_eq rows k _ r0 hg] at hr
        cases hr
        exact ⟨base, i, total, rfl⟩
    · rw [setRowId_get?_ne rows k0 _ k hkk] at hr
      exact hidxs k (List.mem_cons_of_mem _ hk) r hr

/-- Each position after relabelling: either untouched, or overwritten with a
fresh `(PART …/…)` label on the original row. -/
theorem relabelAll_get? (base : String) (total : Int) :
    ∀ (idxs : List Nat) (i : Int) (rows : List Row) (k : Nat),
      (relabelAll base total idxs i rows).get? k = rows.get? k ∨
      ∃ r0 j, rows.get? k = some r0 ∧
        (relabelAll base total idxs i rows).get? k =
          some { r0 with job_id := partLabel base j total } := by
  intro idxs
  induction idxs with
  | nil => intro i rows k; exact Or.inl rfl
  | cons k0 rest ih =>
    intro i rows k
    unfold relabelAll
    rcases ih (i + 1) (setRowId rows k0 (partLabel base i total)) k with
      hsame | ⟨r0, j, hr0, hres⟩
    · rw [hsame]
      by_cases hkk : k = k0
      · subst hkk
        cases hg : rows.get? k with
        | none =>
          left
          rw [show setRowId rows k (partLabel base i total) = rows by
            unfold setRowId; rw [hg]]
          exact hg
        | some r1 =>
          right
          exact ⟨r1, i, rfl, setRowId_get?_eq rows k _ r1 hg⟩
      · left
        exact setRowId_get?_ne rows k0 _ k hkk
    · by_cases hkk : k = k0
      · subst hkk
        cases hg : rows.get? k with
        | none =>
          rw [show setRowId rows k (partLabel base i total) = rows by
            unfold setRowId; rw [hg]] at hr0
          rw [hg] at hr0
          exact Option.noConfusion hr0
        | some r1 =>
          right
          rw [setRowId_get?_eq rows k _ r1 hg] at hr0
          cases hr0
          exact ⟨r1, j, rfl, hres⟩
      · right
        rw [setRowId_get?_ne rows k0 _ k hkk] at hr0
        exact ⟨r0, j, hr0, hres⟩

/-- `_register_and_relabel_split_row` keeps the rows equivalent and the label
invariant intact, provided the freshly registered index points at a split
row. -/
theorem registerAndRelabel_spec (labels : List (String × Int × List Nat))
    (planned : List Row) (base : String) (newIdx : Nat) (partNum : Int)
    (hlab : LabelsInv planned labels)
    (hnew : ∃ r, planned.get? newIdx = some r ∧ r.ot = "" ∧
      ∃ b j n, r.job_id = partLabel b j n) :
    RowsEquiv planned (registerAndRelabel labels planned base newIdx partNum).2 ∧
    LabelsInv (registerAndRelabel labels planned base newIdx partNum).2
      (registerAndRelabel labels planned base newIdx partNum).1 := by
  obtain ⟨rnew, hget, hotnew, hidnew⟩ := hnew
  unfold registerAndRelabel
  dsimp only
  set st0 := (alookup labels base).getD (partNum, []) with hst0
  have hidxs_inv : ∀ k ∈ st0.2, ∃ r, planned.get? k = some r ∧ r.ot = "" ∧
      ∃ b j n, r.job_id = partLabel b j n := by
    intro k hk
    cases hl : alookup labels base with
    | none => rw [hst0, hl] at hk; cases hk
    | some v =>
      have hmem : (base, v) ∈ labels := by
        unfold alookup at hl
        cases hf : labels.find? (fun e => e.1 == base) with
        | none => rw [hf] at hl; exact Option.noConfusion hl
        | some e =>
          rw [hf] at hl
          have he1 : e.1 = base := by
            have := List.find?_some hf
            exact eq_of_beq this
          have he2 : e.2 = v := by
            simpa using hl
          have := List.mem_of_find?_eq_some hf
          rw [← he1, ← he2]
          exact this
      rw [hst0, hl] at hk
      exact hlab (base, v) hmem k hk
  have hall : ∀ k ∈ st0.2 ++ [newIdx], ∀ r, planned.get? k = some r →
      ∃ b j n, r.job_id = partLabel b j n := by
    intro k hk r hr
    rcases List.mem_append.mp hk with hk1 | hk2
    · obtain ⟨r0, hr0, _, hp⟩ := hidxs_inv k hk1
      rw [hr0] at hr
      cases hr
      exact hp
    · have : k = newIdx := by simpa using hk2
      subst this
      rw [hget] at hr
      cases hr
      exact hidnew
  have hequiv := relabelAll_equiv base
    (if partNum > st0.1 then partNum else st0.1) (st0.2 ++ [newIdx]) 1 planned
    hall
  refine ⟨hequiv, ?_⟩
  intro e he k hk
  have hot_pres : ∀ k0, ∀ r0, planned.get? k0 = some r0 →
      (∃ r1, (relabelAll base (if partNum > st0.1 then partNum else st0.1)
          (st0.2 ++ [newIdx]) 1 planned).get? k0 = some r1 ∧ r1.ot = r0.ot ∧
        (r1.job_id = r0.job_id ∨ ∃ b j n, r1.job_id = partLabel b j n)) := by
    intro k0 r0 hr0
    rcases relabelAll_get? base (if partNum > st0.1 then partNum else st0.1)
        (st0.2 ++ [newIdx]) 1 planned k0 with hsame | ⟨r1, j, hr1, hres⟩
    · exact ⟨r0, hsame.trans hr0, rfl, Or.inl rfl⟩
    · rw [hr0] at hr1
      cases hr1
      exact ⟨_, hres, rfl, Or.inr ⟨base, j, _, rfl⟩⟩
  rcases List.mem_cons.mp he with rfl | he2
  · -- the freshly written entry for `base`
    rcases List.mem_append.mp hk with hk1 | hk2
    · obtain ⟨r0, hr0, hot0, hp0⟩ := hidxs_inv k hk1
      obtain ⟨r1, hres, hot1, hid1⟩ := hot_pres k r0 hr0
      refine ⟨r1, hres, hot1.trans hot0, ?_⟩
      rcases hid1 with heq | hp1
      · rw [heq]; exact hp0
      · exact hp1
    · have : k = newIdx := by simpa using hk2
      subst this
      obtain ⟨r1, hres, hot1, hid1⟩ := hot_pres k rnew hget
      refine ⟨r1, hres, hot1.trans hotnew, ?_⟩
      rcases hid1 with heq | hp1
      · rw [heq]; exact hidnew
      · exact hp1
  · -- a surviving old entry
    have he3 : e ∈ labels := List.mem_of_mem_filter he2
    obtain ⟨r0, hr0, hot0, hp0⟩ := hlab e he3 k hk
    obtain ⟨r1, hres, hot1, hid1⟩ := hot_pres k r0 hr0
    refine ⟨r1, hres, hot1.trans hot0, ?_⟩
    rcases hid1 with heq | hp1
    · rw [heq]; exact hp0
    · exact hp1

/-! ### Effects of one split-part booking -/

theorem labelsInv_append {planned : List Row}
    {labels : List (String × Int × List Nat)} (hlab : LabelsInv planned labels)
    (l : List Row) : LabelsInv (planned ++ l) labels := by
  intro e he k hk
  obtain ⟨r, hr, hrest⟩ := hlab e he k hk
  obtain ⟨hlt, -⟩ := List.get?_eq_some.mp hr
  exact ⟨r, by rw [List.get?_append hlt]; exact hr, hrest⟩

/-- A positive no-crumbs chunk never exceeds the room available today. -/
theorem choose_onsite_pos_le (r m c : Int)
    (h : 0 < choose_onsite_no_crumbs r m c) :
    choose_onsite_no_crumbs r m c ≤ m := by
  simp only [choose_onsite_no_crumbs] at h ⊢
  split_ifs at h ⊢ <;> omega

theorem registerAndRelabel_push (labels : List (String × Int × List Nat))
    (planned : List Row) (base : String) (row : Row) (partNum : Int)
    (hlab : LabelsInv planned labels) (hot : row.ot = "")
    (hid : ∃ b j n, row.job_id = partLabel b j n) :
    RowsEquiv (planned ++ [row])
      (registerAndRelabel labels (planned ++ [row]) base
        ((planned ++ [row]).length - 1) partNum).2 ∧
    LabelsInv
      (registerAndRelabel labels (planned ++ [row]) base
        ((planned ++ [row]).length - 1) partNum).2
      (registerAndRelabel labels (planned ++ [row]) base
        ((planned ++ [row]).length - 1) partNum).1 := by
  apply registerAndRelabel_spec _ _ _ _ _ (labelsInv_append hlab _)
  refine ⟨row, ?_, hot, hid⟩
  have hlen : (planned ++ [row]).length - 1 = planned.length := by simp
  rw [hlen]
  exact List.get?_concat_length planned _

/-- `_book_split_part_for_tech` either does nothing, or books exactly one
non-OT split row for `t` on `day` within the normal budget, advancing `t`'s
clock by that row's cost, and keeps the label invariant. -/
theorem bookSplitPart_spec (cfg : Cfg) (day t : String) (ds : DayState)
    (planned : List Row) (labels : List (String × Int × List Nat))
    (ss : SplitState) (hlab : LabelsInv planned labels) :
    bookSplitPart cfg day t ds planned labels ss = (ds, planned, labels, ss) ∨
    ∃ (onsite : Int) (row : Row),
      0 < onsite ∧
      ds.used t + (cfg.travel (ds.curLoc t) ss.address : Int) + onsite +
          cfg.bufferJob + (cfg.travel ss.address (cfg.homeMap t) : Int) ≤
        cfg.available ∧
      row.date = day ∧ row.technicien = t ∧ row.ot = "" ∧ row.duo = "" ∧
      (∃ b i n, row.job_id = partLabel b i n) ∧
      row.sequence = ds.jobsCount t + 1 ∧
      rowCost row = (cfg.travel (ds.curLoc t) ss.address : Int) + onsite +
        cfg.bufferJob ∧
      RowsEquiv (planned ++ [row])
        (bookSplitPart cfg day t ds planned labels ss).2.1 ∧
      LabelsInv (bookSplitPart cfg day t ds planned labels ss).2.1
        (bookSplitPart cfg day t ds planned labels ss).2.2.1 ∧
      (bookSplitPart cfg day t ds planned labels ss).1.used =
        fupd ds.used t (ds.used t +
          (cfg.travel (ds.curLoc t) ss.address : Int) + onsite +
          cfg.bufferJob) ∧
      (bookSplitPart cfg day t ds planned labels ss).1.jobsCount =
        fupd ds.jobsCount t (ds.jobsCount t + 1) ∧
      (bookSplitPart cfg day t ds planned labels ss).1.curLoc =
        fupd ds.curLoc t ss.address ∧
      (bookSplitPart cfg day t ds planned labels ss).1.lock =
        fupd ds.lock t (decide (ss.remaining_job_min - onsite > 0)) ∧
      (bookSplitPart cfg day t ds planned labels ss).2.2.2 =
        { ss with remaining_job_min := ss.remaining_job_min - onsite
                  part_idx_next := ss.part_idx_next + 1 } := by
  by_cases h1 : cfg.available - ds.used t -
      (cfg.travel (ds.curLoc t) ss.address : Int) - cfg.bufferJob -
      (cfg.travel ss.address (cfg.homeMap t) : Int) ≤ 0
  · left
    unfold bookSplitPart
    dsimp only
    rw [if_pos h1]
  · by_cases h2 : choose_onsite_no_crumbs ss.remaining_job_min
        (cfg.available - ds.used t -
          (cfg.travel (ds.curLoc t) ss.address : Int) - cfg.bufferJob -
          (cfg.travel ss.address (cfg.homeMap t) : Int))
        MIN_ONSITE_CHUNK_MIN ≤ 0
    · left
      unfold bookSplitPart
      dsimp only
      rw [if_neg h1, if_pos h2]
    · have hpos : 0 < choose_onsite_no_crumbs ss.remaining_job_min
          (cfg.available - ds.used t -
            (cfg.travel (ds.curLoc t) ss.address : Int) - cfg.bufferJob -
            (cfg.travel ss.address (cfg.homeMap t) : Int))
          MIN_ONSITE_CHUNK_MIN := by omega
      have hle := choose_onsite_pos_le _ _ _ hpos
      right
      unfold bookSplitPart
      dsimp only
      rw [if_neg h1, if_neg h2]
      refine ⟨choose_onsite_no_crumbs ss.remaining_job_min (cfg.available - ds.used t - (cfg.travel (ds.curLoc t) ss.address : Int) - cfg.bufferJob - (cfg.travel ss.address (cfg.homeMap t) : Int)) MIN_ONSITE_CHUNK_MIN, { date := day, technicien := t, sequence := ds.jobsCount t + 1, job_id := partLabel ss.base_job_id ss.part_idx_next (max 1 ss.total_parts), cust := ss.cust, duo := "", ot := "", debut := mm_to_hhmm (ds.used t + (cfg.travel (ds.curLoc t) ss.address : Int)), fin := mm_to_hhmm (ds.used t + (cfg.travel (ds.curLoc t) ss.address : Int) + choose_onsite_no_crumbs ss.remaining_job_min (cfg.available - ds.used t - (cfg.travel (ds.curLoc t) ss.address : Int) - cfg.bufferJob - (cfg.travel ss.address (cfg.homeMap t) : Int)) MIN_ONSITE_CHUNK_MIN + cfg.bufferJob), adresse := ss.address, travel_min := (cfg.travel (ds.curLoc t) ss.address : Int), job_min := choose_onsite_no_crumbs ss.remaining_job_min (cfg.available - ds.used t - (cfg.travel (ds.curLoc t) ss.address : Int) - cfg.bufferJob - (cfg.travel ss.address (cfg.homeMap t) : Int)) MIN_ONSITE_CHUNK_MIN, buffer_min := cfg.bufferJob, techs_needed := ss.techs_needed, description := ss.description }, hpos, by omega, rfl, rfl, rfl, rfl, ⟨ss.base_job_id, ss.part_idx_next, max 1 ss.total_parts, rfl⟩, rfl, rfl, ?_, ?_, rfl, rfl, rfl, rfl, rfl⟩
      · exact (registerAndRelabel_push labels planned ss.base_job_id _
          ss.part_idx_next hlab rfl
          ⟨ss.base_job_id, ss.part_idx_next, max 1 ss.total_parts, rfl⟩).1
      · exact (registerAndRelabel_push labels planned ss.base_job_id _
          ss.part_idx_next hlab rfl
          ⟨ss.base_job_id, ss.part_idx_next, max 1 ss.total_parts, rfl⟩).2

/-! ### Effects of the remaining booking steps -/

theorem fupd_same (f : String → β) (k : String) (v : β) : fupd f k v k = v := by
  simp [fupd]

theorem fupd_other (f : String → β) (k : String) (v : β) (x : String)
    (h : x ≠ k) : fupd f k v x = f x := by
  simp [fupd, h]

theorem soloBookRow_spec (cfg : Cfg) (day t : String) (job : Job) (tmin : Int)
    (otFlag : String) (ds : DayState) (planned : List Row) :
    (soloBookRow cfg day t job tmin otFlag ds planned).2 =
      planned ++ [{ date := day, technicien := t, sequence := ds.jobsCount t + 1, job_id := job.job_id, cust := job.cust, duo := "", ot := otFlag, debut := mm_to_hhmm (ds.used t + tmin), fin := mm_to_hhmm (ds.used t + tmin + job.job_minutes + cfg.bufferJob), adresse := job.address, travel_min := tmin, job_min := job.job_minutes, buffer_min := cfg.bufferJob, techs_needed := job.techs_needed, description := job.description }] ∧
    (soloBookRow cfg day t job tmin otFlag ds planned).1.used =
      fupd ds.used t (ds.used t + tmin + job.job_minutes + cfg.bufferJob) ∧
    (soloBookRow cfg day t job tmin otFlag ds planned).1.jobsCount =
      fupd ds.jobsCount t (ds.jobsCount t + 1) ∧
    (soloBookRow cfg day t job tmin otFlag ds planned).1.curLoc =
      fupd ds.curLoc t job.address ∧
    (soloBookRow cfg day t job tmin otFlag ds planned).1.lock = ds.lock :=
  ⟨rfl, rfl, rfl, rfl, rfl⟩

theorem duoBook_spec (cfg : Cfg) (day : String) (b : DuoBest) (ds : DayState)
    (planned : List Row) (duoJobs : List Job) :
    (duoBook cfg day b ds planned duoJobs).2.1 =
      (planned ++ [{ date := day, technicien := b.t1, sequence := ds.jobsCount b.t1 + 1, job_id := b.job.job_id, cust := b.job.cust, duo := "⚠️ DUO", ot := "", debut := mm_to_hhmm b.start_m, fin := mm_to_hhmm b.end_m, adresse := b.job.address, travel_min := b.t1_tr, job_min := b.job_min_each, buffer_min := cfg.bufferJob, techs_needed := b.job.techs_needed, description := b.job.description }]) ++
      [{ date := day, technicien := b.t2, sequence := fupd ds.jobsCount b.t1 (ds.jobsCount b.t1 + 1) b.t2 + 1, job_id := b.job.job_id, cust := b.job.cust, duo := "⚠️ DUO", ot := "", debut := mm_to_hhmm b.start_m, fin := mm_to_hhmm b.end_m, adresse := b.job.address, travel_min := b.t2_tr, job_min := b.job_min_each, buffer_min := cfg.bufferJob, techs_needed := b.job.techs_needed, description := b.job.description }] ∧
    (duoBook cfg day b ds planned duoJobs).1.used =
      fupd (fupd ds.used b.t1 b.end_m) b.t2 b.end_m ∧
    (duoBook cfg day b ds planned duoJobs).1.jobsCount =
      fupd (fupd ds.jobsCount b.t1 (ds.jobsCount b.t1 + 1)) b.t2
        (fupd ds.jobsCount b.t1 (ds.jobsCount b.t1 + 1) b.t2 + 1) ∧
    (duoBook cfg day b ds planned duoJobs).1.curLoc =
      fupd (fupd ds.curLoc b.t1 b.job.address) b.t2 b.job.address ∧
    (duoBook cfg day b ds planned duoJobs).1.lock =
      (if b.isOT then fupd (fupd ds.lock b.t1 true) b.t2 true else ds.lock) ∧
    (duoBook cfg day b ds planned duoJobs).2.2 =
      duoJobs.filter (fun j => ! (j.job_id == b.job.job_id)) := by
  obtain ⟨score, job, t1, t2, start_m, end_m, t1_tr, t2_tr, isOT, jme⟩ := b
  cases isOT <;> exact ⟨rfl, rfl, rfl, rfl, rfl, rfl⟩

theorem returnHomeSweep_shift (cfg : Cfg) (day : String) :
    ∀ (ts : List String) (ds : DayState) (p q : List Row),
      (returnHomeSweep cfg day ts (ds, p ++ q)).2 =
        p ++ (returnHomeSweep cfg day ts (ds, q)).2 := by
  intro ts
  induction ts with
  | nil => intro ds p q; rfl
  | cons t ts ih =>
    intro ds p q
    unfold returnHomeSweep
    dsimp only
    split
    · rw [List.append_assoc]
      exact ih _ _ _
    · exact ih _ _ _

theorem returnHomeSweep_mem (cfg : Cfg) (day : String) :
    ∀ (ts : List String) (ds : DayState) (planned : List Row) (r : Row),
      r ∈ (returnHomeSweep cfg day ts (ds, planned)).2 →
      r ∈ planned ∨ (r.job_id = "RETURN_HOME" ∧ r.ot = "") := by
  intro ts
  induction ts with
  | nil => intro ds planned r hr; exact Or.inl hr
  | cons t ts ih =>
    intro ds planned r hr
    rw [show returnHomeSweep cfg day (t :: ts) (ds, planned) =
        (if 0 < ds.jobsCount t then _ else _) from rfl] at hr
    revert hr
    split
    · intro hr
      rcases ih _ _ _ hr with hmem | hret
      · rcases List.mem_append.mp hmem with h1 | h2
        · exact Or.inl h1
        · rcases List.mem_singleton.mp h2 with rfl
          exact Or.inr ⟨rfl, rfl⟩
      · exact Or.inr hret
    · intro hr
      exact ih _ _ _ hr

/-! ### The id-avoidance invariant (for C5)

For a fixed id `s` that is neither the synthetic `RETURN_HOME` id nor shaped
like a split label, no pass of the scheduler can create a row carrying `s`
unless a pooled job carries it. -/

/-- No planned row carries the id `s`. -/
def AvoidsId (s : String) (rows : List Row) : Prop :=
  ∀ r ∈ rows, r.job_id ≠ s

/-- No job of the pool carries the id `s`. -/
def PoolAvoids (s : String) (l : List Job) : Prop :=
  ∀ j ∈ l, j.job_id ≠ s

theorem poolAvoids_filter {s : String} {l : List Job} (h : PoolAvoids s l)
    (p : Job → Bool) : PoolAvoids s (l.filter p) :=
  fun j hj => h j (List.mem_of_mem_filter hj)

/-- Relabelling a split row cannot introduce a non-label id. -/
theorem avoidsId_equiv {s : String} (hpart : ∀ b i n, s ≠ partLabel b i n)
    {rows rows' : List Row} (h : RowsEquiv rows rows')
    (ha : AvoidsId s rows) : AvoidsId s rows' := by
  intro r' hr' heq
  obtain ⟨r, hr, he⟩ := rowsEquiv_mem h hr'
  obtain ⟨-, -, -, -, -, -, -, -, -, -, -, -, -, -, hid⟩ := he
  rcases hid with hid | ⟨-, ⟨b, i, n, hp⟩⟩
  · exact ha r hr (by rw [← hid]; exact heq)
  · rw [heq] at hp
    exact hpart b i n hp

theorem avoidsId_append {s : String} {rows : List Row} (ha : AvoidsId s rows)
    {row : Row} (hid : row.job_id ≠ s) : AvoidsId s (rows ++ [row]) := by
  intro r hr
  rcases List.mem_append.mp hr with h1 | h2
  · exact ha r h1
  · rcases List.mem_singleton.mp h2 with rfl
    exact hid

/-- Booking a split part keeps the id-avoidance and label invariants. -/
theorem bookSplitPart_avoid (cfg : Cfg) (day t : String) (ds : DayState)
    (planned : List Row) (labels : List (String × Int × List Nat))
    (ss : SplitState) (s : String) (hpart : ∀ b i n, s ≠ partLabel b i n)
    (hlab : LabelsInv planned labels) (ha : AvoidsId s planned) :
    AvoidsId s (bookSplitPart cfg day t ds planned labels ss).2.1 ∧
    LabelsInv (bookSplitPart cfg day t ds planned labels ss).2.1
      (bookSplitPart cfg day t ds planned labels ss).2.2.1 := by
  rcases bookSplitPart_spec cfg day t ds planned labels ss hlab with hno |
    ⟨onsite, row, -, -, -, -, -, -, hid, -, -, hequiv, hlabi, -, -, -, -, -⟩
  · rw [hno]
    exact ⟨ha, hlab⟩
  · refine ⟨avoidsId_equiv hpart hequiv ?_, hlabi⟩
    obtain ⟨b, i, n, hp⟩ := hid
    exact avoidsId_append ha (by rw [hp]; exact (hpart b i n).symm)

/-- The carryover pass keeps the id-avoidance and label invariants. -/
theorem carrySweep_avoid (cfg : Cfg) (day s : String)
    (hpart : ∀ b i n, s ≠ partLabel b i n) :
    ∀ (ts : List String) (ds : DayState) (planned : List Row)
      (labels : List (String × Int × List Nat))
      (carry : List (String × SplitState)),
      LabelsInv planned labels → AvoidsId s planned →
      AvoidsId s (carrySweep cfg day ts (ds, planned, labels, carry)).2.1 ∧
      LabelsInv (carrySweep cfg day ts (ds, planned, labels, carry)).2.1
        (carrySweep cfg day ts (ds, planned, labels, carry)).2.2.1 := by
  intro ts
  induction ts with
  | nil => intro ds planned labels carry hlab ha; exact ⟨ha, hlab⟩
  | cons t ts ih =>
    intro ds planned labels carry hlab ha
    have hred : carrySweep cfg day (t :: ts) (ds, planned, labels, carry) =
        match alookup carry t with
        | none => carrySweep cfg day ts (ds, planned, labels, carry)
        | some ss =>
          carrySweep cfg day ts
            ((bookSplitPart cfg day t ds planned labels ss).1,
             (bookSplitPart cfg day t ds planned labels ss).2.1,
             (bookSplitPart cfg day t ds planned labels ss).2.2.1,
             if (bookSplitPart cfg day t ds planned labels ss).2.2.2.remaining_job_min ≤ 0
             then aerase (aset carry t
               (bookSplitPart cfg day t ds planned labels ss).2.2.2) t
             else aset carry t
               (bookSplitPart cfg day t ds planned labels ss).2.2.2) := rfl
    rw [hred]
    cases halk : alookup carry t with
    | none => exact ih ds planned labels carry hlab ha
    | some ss =>
      dsimp only
      obtain ⟨ha2, hlab2⟩ :=
        bookSplitPart_avoid cfg day t ds planned labels ss s hpart hlab ha
      exact ih _ _ _ _ hlab2 ha2

/-- The duo pass keeps the id-avoidance and label invariants, and only ever
shrinks the duo pool. -/
theorem duoLoop_avoid (cfg : Cfg) (day s : String)
    (hpart : ∀ b i n, s ≠ partLabel b i n)
    (labels : List (String × Int × List Nat)) :
    ∀ (fuel : Nat) (ds : DayState) (planned : List Row) (duoJobs : List Job),
      AvoidsId s planned → PoolAvoids s duoJobs → LabelsInv planned labels →
      AvoidsId s (duoLoop cfg day fuel ds planned duoJobs).2.1 ∧
      PoolAvoids s (duoLoop cfg day fuel ds planned duoJobs).2.2 ∧
      LabelsInv (duoLoop cfg day fuel ds planned duoJobs).2.1 labels := by
  intro fuel
  induction fuel with
  | zero => intro ds planned duoJobs h1 h2 h3; exact ⟨h1, h2, h3⟩
  | succ fuel ih =>
    intro ds planned duoJobs h1 h2 h3
    have hred : duoLoop cfg day (fuel + 1) ds planned duoJobs =
        if duoJobs.isEmpty then (ds, planned, duoJobs)
        else
          match duoFindBest cfg ds duoJobs with
          | none => (ds, planned, duoJobs)
          | some b =>
            duoLoop cfg day fuel (duoBook cfg day b ds planned duoJobs).1
              (duoBook cfg day b ds planned duoJobs).2.1
              (duoBook cfg day b ds planned duoJobs).2.2 := rfl
    rw [hred]
    split
    · exact ⟨h1, h2, h3⟩
    · cases hfb : duoFindBest cfg ds duoJobs with
      | none => exact ⟨h1, h2, h3⟩
      | some b =>
        dsimp only
        obtain ⟨job, hjs, pr, hpr, hcand⟩ := duoFindBest_cases cfg ds duoJobs b hfb
        have hjid : job.job_id ≠ s := h2 job (mem_duoSample cfg duoJobs job hjs)
        obtain ⟨hrows, -, -, -, -, hfilt⟩ := duoBook_spec cfg day b ds planned duoJobs
        refine ih _ _ _ ?_ ?_ ?_
        · rw [hrows]
          refine avoidsId_append (avoidsId_append h1 ?_) ?_
          · show b.job.job_id ≠ s
            rw [hcand.1]; exact hjid
          · show b.job.job_id ≠ s
            rw [hcand.1]; exact hjid
        · rw [hfilt]
          exact poolAvoids_filter h2 _
        · rw [hrows]
          exact labelsInv_append (labelsInv_append h3 _) _

/-- The split-or-overtime tail of the solo body keeps the invariants. -/
theorem soloSplitAttempt_avoid (cfg : Cfg) (day t : String) (ds : DayState)
    (planned : List Row) (labels : List (String × Int × List Nat))
    (carry : List (String × SplitState)) (soloJobs sample : List Job)
    (s : String) (hpart : ∀ b i n, s ≠ partLabel b i n)
    (hlab : LabelsInv planned labels) (ha : AvoidsId s planned)
    (hsolo : PoolAvoids s soloJobs) (hsamp : PoolAvoids s sample) :
    AvoidsId s
      (soloSplitAttempt cfg day t ds planned labels carry soloJobs sample).2.1 ∧
    LabelsInv
      (soloSplitAttempt cfg day t ds planned labels carry soloJobs sample).2.1
      (soloSplitAttempt cfg day t ds planned labels carry soloJobs
        sample).2.2.1 ∧
    PoolAvoids s
      (soloSplitAttempt cfg day t ds planned labels carry soloJobs
        sample).2.2.2.2.1 := by
  unfold soloSplitAttempt
  cases hbl : soloBestLong cfg ds t carry sample with
  | none => exact ⟨ha, hlab, hsolo⟩
  | some q =>
    obtain ⟨job, tmin, isOT⟩ := q
    have hjid : job.job_id ≠ s :=
      hsamp job (soloBestLong_cases cfg ds t carry sample _ hbl).1
    cases isOT with
    | true =>
      dsimp only
      refine ⟨?_, ?_, poolAvoids_filter hsolo _⟩
      · rw [(soloBookRow_spec cfg day t job
          (cfg.travel (ds.curLoc t) job.address : Int) "" ds planned).1]
        exact avoidsId_append ha hjid
      · rw [(soloBookRow_spec cfg day t job
          (cfg.travel (ds.curLoc t) job.address : Int) "" ds planned).1]
        exact labelsInv_append hlab _
    | false =>
      dsimp only
      obtain ⟨ha2, hlab2⟩ := bookSplitPart_avoid cfg day t ds planned labels
        { base_job_id := job.job_id, cust := job.cust, address := job.address,
          description := job.description, techs_needed := job.techs_needed,
          total_parts := compute_total_parts job.job_minutes cfg.available,
          part_idx_next := 1, remaining_job_min := job.job_minutes }
        s hpart hlab ha
      exact ⟨ha2, hlab2, poolAvoids_filter hsolo _⟩

/-- One technician's solo turn keeps the invariants. -/
theorem soloTechStep_avoid (cfg : Cfg) (day t : String) (ds : DayState)
    (planned : List Row) (labels : List (String × Int × List Nat))
    (carry : List (String × SplitState)) (soloJobs : List Job)
    (s : String) (hpart : ∀ b i n, s ≠ partLabel b i n)
    (hpool : ∀ rem tt, ∀ x ∈ cfg.jobPool rem tt, x ∈ rem)
    (hlab : LabelsInv planned labels) (ha : AvoidsId s planned)
    (hsolo : PoolAvoids s soloJobs) :
    AvoidsId s (soloTechStep cfg day t ds planned labels carry soloJobs).2.1 ∧
    LabelsInv (soloTechStep cfg day t ds planned labels carry soloJobs).2.1
      (soloTechStep cfg day t ds planned labels carry soloJobs).2.2.1 ∧
    PoolAvoids s
      (soloTechStep cfg day t ds planned labels carry soloJobs).2.2.2.2.1 := by
  have hsamp : PoolAvoids s (cfg.jobPool soloJobs t) :=
    fun j hj => hsolo j (hpool soloJobs t j hj)
  unfold soloTechStep
  split
  · exact ⟨ha, hlab, hsolo⟩
  · split
    · exact ⟨ha, hlab, hsolo⟩
    · dsimp only
      cases hbn : soloBestNormal cfg ds t (cfg.jobPool soloJobs t) with
      | some p =>
        obtain ⟨job, tmin⟩ := p
        dsimp only
        have hjid : job.job_id ≠ s :=
          hsamp job (soloBestNormal_cases cfg ds t _ _ hbn).1
        refine ⟨?_, ?_, poolAvoids_filter hsolo _⟩
        · rw [(soloBookRow_spec cfg day t job tmin "" ds planned).1]
          exact avoidsId_append ha hjid
        · rw [(soloBookRow_spec cfg day t job tmin "" ds planned).1]
          exact labelsInv_append hlab _
      | none =>
        dsimp only
        split
        · cases hbo : soloBestOT cfg ds t (cfg.jobPool soloJobs t) with
          | some p =>
            obtain ⟨job, tmin⟩ := p
            dsimp only
            have hjid : job.job_id ≠ s :=
              hsamp job (soloBestOT_cases cfg ds t _ _ hbo).1
            refine ⟨?_, ?_, poolAvoids_filter hsolo _⟩
            · rw [(soloBookRow_spec cfg day t job tmin "🟥 OT" ds planned).1]
              exact avoidsId_append ha hjid
            · rw [(soloBookRow_spec cfg day t job tmin "🟥 OT" ds planned).1]
              exact labelsInv_append hlab _
          | none =>
            exact soloSplitAttempt_avoid cfg day t ds planned labels carry
              soloJobs _ s hpart hlab ha hsolo hsamp
        · exact soloSplitAttempt_avoid cfg day t ds planned labels carry
            soloJobs _ s hpart hlab ha hsolo hsamp

/-- The solo sweep over the roster keeps the invariants. -/
theorem soloSweep_avoid (cfg : Cfg) (day s : String)
    (hpart : ∀ b i n, s ≠ partLabel b i n)
    (hpool : ∀ rem tt, ∀ x ∈ cfg.jobPool rem tt, x ∈ rem) :
    ∀ (ts : List String) (ds : DayState) (planned : List Row)
      (labels : List (String × Int × List Nat))
      (carry : List (String × SplitState)) (soloJobs : List Job)
      (progress : Bool),
      LabelsInv planned labels → AvoidsId s planned → PoolAvoids s soloJobs →
      AvoidsId s (soloSweep cfg day ts
        (ds, planned, labels, carry, soloJobs, progress)).2.1 ∧
      LabelsInv (soloSweep cfg day ts
          (ds, planned, labels, carry, soloJobs, progress)).2.1
        (soloSweep cfg day ts
          (ds, planned, labels, carry, soloJobs, progress)).2.2.1 ∧
      PoolAvoids s (soloSweep cfg day ts
        (ds, planned, labels, carry, soloJobs, progress)).2.2.2.2.1 := by
  intro ts
  induction ts with
  | nil => intro ds planned labels carry soloJobs progress h1 h2 h3; exact ⟨h2, h1, h3⟩
  | cons t ts ih =>
    intro ds planned labels carry soloJobs progress h1 h2 h3
    have hred : soloSweep cfg day (t :: ts)
        (ds, planned, labels, carry, soloJobs, progress) =
        if soloJobs.isEmpty then (ds, planned, labels, carry, soloJobs, progress)
        else
          soloSweep cfg day ts
            ((soloTechStep cfg day t ds planned labels carry soloJobs).1,
             (soloTechStep cfg day t ds planned labels carry soloJobs).2.1,
             (soloTechStep cfg day t ds planned labels carry soloJobs).2.2.1,
             (soloTechStep cfg day t ds planned labels carry soloJobs).2.2.2.1,
             (soloTechStep cfg day t ds planned labels carry
               soloJobs).2.2.2.2.1,
             progress || (soloTechStep cfg day t ds planned labels carry
               soloJobs).2.2.2.2.2) := rfl
    rw [hred]
    split
    · exact ⟨h2, h1, h3⟩
    · obtain ⟨ha2, hlab2, hsolo2⟩ := soloTechStep_avoid cfg day t ds planned
        labels carry soloJobs s hpart hpool h1 h2 h3
      exact ih _ _ _ _ _ _ hlab2 ha2 hsolo2

/-- The solo progress loop keeps the invariants. -/
theorem soloLoop_avoid (cfg : Cfg) (day s : String)
    (hpart : ∀ b i n, s ≠ partLabel b i n)
    (hpool : ∀ rem tt, ∀ x ∈ cfg.jobPool rem tt, x ∈ rem) :
    ∀ (fuel : Nat) (ds : DayState) (planned : List Row)
      (labels : List (String × Int × List Nat))
      (carry : List (String × SplitState)) (soloJobs : List Job),
      LabelsInv planned labels → AvoidsId s planned → PoolAvoids s soloJobs →
      AvoidsId s (soloLoop cfg day fuel
        (ds, planned, labels, carry, soloJobs)).2.1 ∧
      LabelsInv (soloLoop cfg day fuel
          (ds, planned, labels, carry, soloJobs)).2.1
        (soloLoop cfg day fuel (ds, planned, labels, carry, soloJobs)).2.2.1 ∧
      PoolAvoids s (soloLoop cfg day fuel
        (ds, planned, labels, carry, soloJobs)).2.2.2.2 := by
  intro fuel
  induction fuel with
  | zero => intro ds planned labels carry soloJobs h1 h2 h3; exact ⟨h2, h1, h3⟩
  | succ fuel ih =>
    intro ds planned labels carry soloJobs h1 h2 h3
    have hred : soloLoop cfg day (fuel + 1)
        (ds, planned, labels, carry, soloJobs) =
        if soloJobs.isEmpty then (ds, planned, labels, carry, soloJobs)
        else
          if (soloSweep cfg day cfg.techNames
              (ds, planned, labels, carry, soloJobs, false)).2.2.2.2.2 then
            soloLoop cfg day fuel
              ((soloSweep cfg day cfg.techNames
                 (ds, planned, labels, carry, soloJobs, false)).1,
               (soloSweep cfg day cfg.techNames
                 (ds, planned, labels, carry, soloJobs, false)).2.1,
               (soloSweep cfg day cfg.techNames
                 (ds, planned, labels, carry, soloJobs, false)).2.2.1,
               (soloSweep cfg day cfg.techNames
                 (ds, planned, labels, carry, soloJobs, false)).2.2.2.1,
               (soloSweep cfg day cfg.techNames
                 (ds, planned, labels, carry, soloJobs, false)).2.2.2.2.1)
          else
            ((soloSweep cfg day cfg.techNames
               (ds, planned, labels, carry, soloJobs, false)).1,
             (soloSweep cfg day cfg.techNames
               (ds, planned, labels, carry, soloJobs, false)).2.1,
             (soloSweep cfg day cfg.techNames
               (ds, planned, labels, carry, soloJobs, false)).2.2.1,
             (soloSweep cfg day cfg.techNames
               (ds, planned, labels, carry, soloJobs, false)).2.2.2.1,
             (soloSweep cfg day cfg.techNames
               (ds, planned, labels, carry, soloJobs, false)).2.2.2.2.1) := rfl
    rw [hred]
    obtain ⟨ha2, hlab2, hsolo2⟩ := soloSweep_avoid cfg day s hpart hpool
      cfg.techNames ds planned labels carry soloJobs false h1 h2 h3
    split
    · exact ⟨h2, h1, h3⟩
    · split
      · exact ih _ _ _ _ _ hlab2 ha2 hsolo2
      · exact ⟨ha2, hlab2, hsolo2⟩

/-- The return-home pass cannot introduce a forbidden id. -/
theorem returnHome_avoid (cfg : Cfg) (day s : String)
    (hret : s ≠ "RETURN_HOME") (ds : DayState) (rows : List Row)
    (h : AvoidsId s rows) :
    AvoidsId s (returnHomeSweep cfg day cfg.techNames (ds, rows)).2 := by
  intro r hr
  rcases returnHomeSweep_mem cfg day cfg.techNames ds rows r hr with hm | ⟨hid, -⟩
  · exact h r hm
  · rw [hid]
    exact fun he => hret he.symm

/-- The return-home pass keeps the label invariant. -/
theorem returnHome_labels (cfg : Cfg) (day : String) (ds : DayState)
    (rows : List Row) (labels : List (String × Int × List Nat))
    (h : LabelsInv rows labels) :
    LabelsInv (returnHomeSweep cfg day cfg.techNames (ds, rows)).2 labels := by
  have hs := returnHomeSweep_shift cfg day cfg.techNames ds rows []
  rw [List.append_nil] at hs
  rw [hs]
  exact labelsInv_append h _

/-- A full scheduled day keeps the id-avoidance and label invariants. -/
theorem runDay_avoid (cfg : Cfg) (day s : String)
    (hret : s ≠ "RETURN_HOME") (hpart : ∀ b i n, s ≠ partLabel b i n)
    (hpool : ∀ rem tt, ∀ x ∈ cfg.jobPool rem tt, x ∈ rem)
    (ms : MonthState) (ha : AvoidsId s ms.planned)
    (hduo : PoolAvoids s ms.duoJobs) (hsolo : PoolAvoids s ms.soloJobs)
    (hlab : LabelsInv ms.planned ms.labels) :
    AvoidsId s (runDay cfg ms day).planned ∧
    PoolAvoids s (runDay cfg ms day).duoJobs ∧
    PoolAvoids s (runDay cfg ms day).soloJobs ∧
    LabelsInv (runDay cfg ms day).planned (runDay cfg ms day).labels := by
  obtain ⟨hacs, hlabcs⟩ := carrySweep_avoid cfg day s hpart cfg.techNames
    { used := fun _ => 0, curLoc := cfg.homeMap, jobsCount := fun _ => 0, lock := fun _ => false } ms.planned ms.labels ms.carry hlab ha
  unfold runDay
  dsimp only
  split
  · -- solo pass active
    split
    · -- duo pass also active
      obtain ⟨hadl, hduodl, hlabdl⟩ := duoLoop_avoid cfg day s hpart
        (carrySweep cfg day cfg.techNames ({ used := fun _ => 0, curLoc := cfg.homeMap, jobsCount := fun _ => 0, lock := fun _ => false }, ms.planned, ms.labels, ms.carry)).2.2.1 (ms.duoJobs.length + 1) (carrySweep cfg day cfg.techNames ({ used := fun _ => 0, curLoc := cfg.homeMap, jobsCount := fun _ => 0, lock := fun _ => false }, ms.planned, ms.labels, ms.carry)).1 (carrySweep cfg day cfg.techNames ({ used := fun _ => 0, curLoc := cfg.homeMap, jobsCount := fun _ => 0, lock := fun _ => false }, ms.planned, ms.labels, ms.carry)).2.1 ms.duoJobs
        hacs hduo hlabcs
      obtain ⟨hasl, hlabsl, hsolosl⟩ := soloLoop_avoid cfg day s hpart hpool
        (ms.soloJobs.length + 1) (duoLoop cfg day (ms.duoJobs.length + 1) (carrySweep cfg day cfg.techNames ({ used := fun _ => 0, curLoc := cfg.homeMap, jobsCount := fun _ => 0, lock := fun _ => false }, ms.planned, ms.labels, ms.carry)).1 (carrySweep cfg day cfg.techNames ({ used := fun _ => 0, curLoc := cfg.homeMap, jobsCount := fun _ => 0, lock := fun _ => false }, ms.planned, ms.labels, ms.carry)).2.1 ms.duoJobs).1 (duoLoop cfg day (ms.duoJobs.length + 1) (carrySweep cfg day cfg.techNames ({ used := fun _ => 0, curLoc := cfg.homeMap, jobsCount := fun _ => 0, lock := fun _ => false }, ms.planned, ms.labels, ms.carry)).1 (carrySweep cfg day cfg.techNames ({ used := fun _ => 0, curLoc := cfg.homeMap, jobsCount := fun _ => 0, lock := fun _ => false }, ms.planned, ms.labels, ms.carry)).2.1 ms.duoJobs).2.1 (carrySweep cfg day cfg.techNames ({ used := fun _ => 0, curLoc := cfg.homeMap, jobsCount := fun _ => 0, lock := fun _ => false }, ms.planned, ms.labels, ms.carry)).2.2.1 (carrySweep cfg day cfg.techNames ({ used := fun _ => 0, curLoc := cfg.homeMap, jobsCount := fun _ => 0, lock := fun _ => false }, ms.planned, ms.labels, ms.carry)).2.2.2
        ms.soloJobs hlabdl hadl hsolo
      exact ⟨returnHome_avoid cfg day s hret _ _ hasl, hduodl, hsolosl,
        returnHome_labels cfg day _ _ _ hlabsl⟩
    · -- duo pass skipped
      obtain ⟨hasl, hlabsl, hsolosl⟩ := soloLoop_avoid cfg day s hpart hpool
        (ms.soloJobs.length + 1) (carrySweep cfg day cfg.techNames ({ used := fun _ => 0, curLoc := cfg.homeMap, jobsCount := fun _ => 0, lock := fun _ => false }, ms.planned, ms.labels, ms.carry)).1 (carrySweep cfg day cfg.techNames ({ used := fun _ => 0, curLoc := cfg.homeMap, jobsCount := fun _ => 0, lock := fun _ => false }, ms.planned, ms.labels, ms.carry)).2.1 (carrySweep cfg day cfg.techNames ({ used := fun _ => 0, curLoc := cfg.homeMap, jobsCount := fun _ => 0, lock := fun _ => false }, ms.planned, ms.labels, ms.carry)).2.2.1 (carrySweep cfg day cfg.techNames ({ used := fun _ => 0, curLoc := cfg.homeMap, jobsCount := fun _ => 0, lock := fun _ => false }, ms.planned, ms.labels, ms.carry)).2.2.2
        ms.soloJobs hlabcs hacs hsolo
      exact ⟨returnHome_avoid cfg day s hret _ _ hasl, hduo, hsolosl,
        returnHome_labels cfg day _ _ _ hlabsl⟩
  · -- solo pass skipped
    split
    · -- duo pass active
      obtain ⟨hadl, hduodl, hlabdl⟩ := duoLoop_avoid cfg day s hpart
        (carrySweep cfg day cfg.techNames ({ used := fun _ => 0, curLoc := cfg.homeMap, jobsCount := fun _ => 0, lock := fun _ => false }, ms.planned, ms.labels, ms.carry)).2.2.1 (ms.duoJobs.length + 1) (carrySweep cfg day cfg.techNames ({ used := fun _ => 0, curLoc := cfg.homeMap, jobsCount := fun _ => 0, lock := fun _ => false }, ms.planned, ms.labels, ms.carry)).1 (carrySweep cfg day cfg.techNames ({ used := fun _ => 0, curLoc := cfg.homeMap, jobsCount := fun _ => 0, lock := fun _ => false }, ms.planned, ms.labels, ms.carry)).2.1 ms.duoJobs
        hacs hduo hlabcs
      exact ⟨returnHome_avoid cfg day s hret _ _ hadl, hduodl, hsolo,
        returnHome_labels cfg day _ _ _ hlabdl⟩
    · -- both skipped
      exact ⟨returnHome_avoid cfg day s hret _ _ hacs, hduo, hsolo,
        returnHome_labels cfg day _ _ _ hlabcs⟩

/-- The month fold keeps the id-avoidance invariant. -/
theorem foldDays_avoid (cfg : Cfg) (s : String)
    (hret : s ≠ "RETURN_HOME") (hpart : ∀ b i n, s ≠ partLabel b i n)
    (hpool : ∀ rem tt, ∀ x ∈ cfg.jobPool rem tt, x ∈ rem) :
    ∀ (days : List String) (ms : MonthState),
      AvoidsId s ms.planned → PoolAvoids s ms.duoJobs →
      PoolAvoids s ms.soloJobs → LabelsInv ms.planned ms.labels →
      AvoidsId s (days.foldl (runDay cfg) ms).planned ∧
      PoolAvoids s (days.foldl (runDay cfg) ms).duoJobs ∧
      PoolAvoids s (days.foldl (runDay cfg) ms).soloJobs ∧
      LabelsInv (days.foldl (runDay cfg) ms).planned
        (days.foldl (runDay cfg) ms).labels := by
  intro days
  induction days with
  | nil => intro ms h1 h2 h3 h4; exact ⟨h1, h2, h3, h4⟩
  | cons d days ih =>
    intro ms h1 h2 h3 h4
    obtain ⟨g1, g2, g3, g4⟩ := runDay_avoid cfg d s hret hpart hpool ms h1 h2 h3 h4
    exact ih (runDay cfg ms d) g1 g2 g3 g4

/-! ## C5: jobs needing more than two technicians -/

/-- **C5.**  A job whose `techs_needed` is strictly greater than 2 is never
assigned to any technician on any day by the monthly scheduler — no visit row
ever carries its job id (under the id sanity conditions the app's loader
guarantees: job ids unique, and not colliding with the synthetic
`RETURN_HOME` id or a `(PART i/N)` split label) — and the job always appears
in the returned remainder. -/
theorem C5_hard_jobs_never_scheduled (cfg : Cfg) (jobs_in : List Job)
    (month_days : List String) (h : Job)
    (hmem : h ∈ jobs_in) (hhard : 2 < h.techs_needed)
    (hnodup : (jobs_in.map Job.job_id).Nodup)
    (hret : h.job_id ≠ "RETURN_HOME")
    (hpart : ∀ b i n, h.job_id ≠ partLabel b i n)
    (hpool : ∀ rem tt, ∀ x ∈ cfg.jobPool rem tt, x ∈ rem) :
    (∀ r ∈ (schedule_month_with_duo cfg jobs_in month_days).rows,
      r.job_id ≠ h.job_id) ∧
    h ∈ (schedule_month_with_duo cfg jobs_in month_days).remaining := by
  have hinj := List.inj_on_of_nodup_map hnodup
  have hduo0 : PoolAvoids h.job_id
      (if cfg.allowDuo then jobs_in.filter (fun j => j.techs_needed == 2)
       else []) := by
    intro j hj heq
    by_cases had : cfg.allowDuo = true
    · rw [if_pos had] at hj
      have hjl := List.mem_of_mem_filter hj
      have hj2 : (j.techs_needed == 2) = true := (List.mem_filter.mp hj).2
      have hje : j = h := hinj hjl hmem heq
      rw [hje] at hj2
      have : h.techs_needed = 2 := by simpa using hj2
      omega
    · rw [if_neg had] at hj
      cases hj
  have hsolo0 : PoolAvoids h.job_id
      (jobs_in.filter (fun j => j.techs_needed ≤ 1)) := by
    intro j hj heq
    have hjl := List.mem_of_mem_filter hj
    have hj2 := (List.mem_filter.mp hj).2
    have hje : j = h := hinj hjl hmem heq
    rw [hje] at hj2
    have : h.techs_needed ≤ 1 := of_decide_eq_true hj2
    omega
  have hhardmem : h ∈ hardJobs jobs_in :=
    List.mem_filter.mpr ⟨hmem, decide_eq_true hhard⟩
  unfold schedule_month_with_duo
  by_cases hav : cfg.available ≤ 0
  · rw [if_pos hav]
    exact ⟨fun r hr => absurd hr (List.not_mem_nil r), hmem⟩
  · rw [if_neg hav]
    dsimp only
    have hfold := foldDays_avoid cfg h.job_id hret hpart hpool month_days
      { planned := [], labels := [], carry := [],
        duoJobs := if cfg.allowDuo then
          jobs_in.filter (fun j => j.techs_needed == 2) else [],
        soloJobs := jobs_in.filter (fun j => j.techs_needed ≤ 1) }
      (fun r hr => absurd hr (List.not_mem_nil r)) hduo0 hsolo0
      (fun e he => absurd he (List.not_mem_nil e))
    exact ⟨hfold.1, List.mem_append.mpr (Or.inr hhardmem)⟩

/-- Witness for C5 at a concrete three-technician job. -/
theorem C5_hard_jobs_never_scheduled_witness :
    (∀ r ∈ (schedule_month_with_duo demoCfg [demoJob "H" 60 3] ["D1"]).rows,
      r.job_id ≠ (demoJob "H" 60 3).job_id) ∧
    demoJob "H" 60 3 ∈
      (schedule_month_with_duo demoCfg [demoJob "H" 60 3] ["D1"]).remaining :=
  C5_hard_jobs_never_scheduled demoCfg [demoJob "H" 60 3] ["D1"]
    (demoJob "H" 60 3) (List.mem_cons_self _ _) (by decide) (by decide)
    (by decide) (ne_partLabel_of_short _ (by decide))
    (fun rem tt x hx => hx)

/-! ### The per-technician/day budget invariant (for C1 and C7) -/

theorem rowEquiv_ot {r r' : Row} (h : RowEquiv r r') : r'.ot = r.ot :=
  h.2.2.2.2.2.1

theorem rowEquiv_seq {r r' : Row} (h : RowEquiv r r') :
    r'.sequence = r.sequence :=
  h.2.2.1

theorem dayRows_append (rows rows2 : List Row) (d t : String) :
    dayRows (rows ++ rows2) d t = dayRows rows d t ++ dayRows rows2 d t :=
  List.filter_append _ _

theorem dayRows_single_self (row : Row) (d t : String) (h1 : row.date = d)
    (h2 : row.technicien = t) (h3 : row.job_id ≠ "RETURN_HOME") :
    dayRows [row] d t = [row] := by
  simp [dayRows, h1, h2, h3]

theorem dayRows_single_none (row : Row) (d t : String)
    (h : ¬ (row.date = d ∧ row.technicien = t ∧ row.job_id ≠ "RETURN_HOME")) :
    dayRows [row] d t = [] := by
  by_cases h1 : row.date = d
  · by_cases h2 : row.technicien = t
    · by_cases h3 : row.job_id = "RETURN_HOME"
      · simp [dayRows, h3]
      · exact absurd ⟨h1, h2, h3⟩ h
    · simp [dayRows, h2]
  · simp [dayRows, h1]

theorem rowSum_append (rows rows2 : List Row) (d t : String) :
    rowSum (rows ++ rows2) d t = rowSum rows d t + rowSum rows2 d t := by
  unfold rowSum
  rw [dayRows_append, List.map_append, List.sum_append]

theorem rowSum_single_self (row : Row) (d t : String) (h1 : row.date = d)
    (h2 : row.technicien = t) (h3 : row.job_id ≠ "RETURN_HOME") :
    rowSum [row] d t = rowCost row := by
  unfold rowSum
  rw [dayRows_single_self row d t h1 h2 h3]
  simp

theorem rowSum_single_none (row : Row) (d t : String)
    (h : ¬ (row.date = d ∧ row.technicien = t ∧ row.job_id ≠ "RETURN_HOME")) :
    rowSum [row] d t = 0 := by
  unfold rowSum
  rw [dayRows_single_none row d t h]
  rfl

/-- The final shape of one technician/day group: either every visit is a
normal one and the group total fits the daily budget, or the group is one
OT-flagged first visit fitting the extended ceiling. -/
def GroupFinal (cfg : Cfg) (g : List Row) : Prop :=
  ((∀ r ∈ g, r.ot = "") ∧ (g.map rowCost).sum ≤ cfg.available) ∨
  (g.length = 1 ∧ (∀ r ∈ g, r.ot = "🟥 OT" ∧ r.sequence = 1) ∧
    (g.map rowCost).sum ≤ cfg.otCap)

theorem groupFinal_equiv {cfg : Cfg} {rows rows' : List Row} (d t : String)
    (h : RowsEquiv rows rows') (hg : GroupFinal cfg (dayRows rows d t)) :
    GroupFinal cfg (dayRows rows' d t) := by
  have he := dayRows_equiv h d t
  have hsum := rowsEquiv_cost_sum he
  have hlen := rowsEquiv_length he
  rcases hg with ⟨hot, hs⟩ | ⟨hl, hotq, hs⟩
  · left
    refine ⟨?_, by rw [hsum]; exact hs⟩
    intro r' hr'
    obtain ⟨r, hr, hre⟩ := rowsEquiv_mem he hr'
    rw [rowEquiv_ot hre]
    exact hot r hr
  · right
    refine ⟨by rw [← hlen]; exact hl, ?_, by rw [hsum]; exact hs⟩
    intro r' hr'
    obtain ⟨r, hr, hre⟩ := rowsEquiv_mem he hr'
    rw [rowEquiv_ot hre, rowEquiv_seq hre]
    exact hotq r hr

/-- The running state of a technician still inside the normal budget. -/
def InvA (cfg : Cfg) (day : String) (ds : DayState) (planned : List Row)
    (t : String) : Prop :=
  (∀ r ∈ dayRows planned day t, r.ot = "") ∧
  rowSum planned day t ≤ ds.used t ∧
  rowSum planned day t ≤ cfg.available ∧
  0 ≤ ds.jobsCount t ∧
  (ds.jobsCount t = 0 → dayRows planned day t = [])

/-- The locked state after a single OT booking. -/
def InvB (cfg : Cfg) (day : String) (ds : DayState) (planned : List Row)
    (t : String) : Prop :=
  (dayRows planned day t).length = 1 ∧
  (∀ r ∈ dayRows planned day t, r.ot = "🟥 OT" ∧ r.sequence = 1) ∧
  rowSum planned day t ≤ cfg.otCap ∧
  ds.lock t = true

/-- All groups of days other than the current one are already final. -/
def OthersFinal (cfg : Cfg) (day : String) (planned : List Row) : Prop :=
  ∀ d t, d ≠ day → GroupFinal cfg (dayRows planned d t)

/-- Every planned row is synthetic, dated the current day, or dated outside
the still-unprocessed days. -/
def DatesOk (day : String) (rest : List String) (planned : List Row) : Prop :=
  ∀ r ∈ planned, r.job_id = "RETURN_HOME" ∨ r.date = day ∨
    r.date ∉ day :: rest

theorem invA_equiv {cfg : Cfg} {day : String} {ds : DayState}
    {rows rows' : List Row} (h : RowsEquiv rows rows') (t : String)
    (hA : InvA cfg day ds rows t) : InvA cfg day ds rows' t := by
  obtain ⟨h1, h2, h3, h4, h5⟩ := hA
  refine ⟨?_, by rw [rowSum_equiv h]; exact h2,
    by rw [rowSum_equiv h]; exact h3, h4, ?_⟩
  · intro r' hr'
    obtain ⟨r, hr, hre⟩ := dayRows_mem_equiv h day t hr'
    rw [rowEquiv_ot hre]
    exact h1 r hr
  · intro hc
    have := dayRows_length_equiv h day t
    rw [h5 hc] at this
    exact List.length_eq_zero.mp this

theorem invB_equiv {cfg : Cfg} {day : String} {ds : DayState}
    {rows rows' : List Row} (h : RowsEquiv rows rows') (t : String)
    (hB : InvB cfg day ds rows t) : InvB cfg day ds rows' t := by
  obtain ⟨h1, h2, h3, h4⟩ := hB
  refine ⟨by rw [dayRows_length_equiv h]; exact h1, ?_,
    by rw [rowSum_equiv h]; exact h3, h4⟩
  intro r' hr'
  obtain ⟨r, hr, hre⟩ := dayRows_mem_equiv h day t hr'
  rw [rowEquiv_ot hre, rowEquiv_seq hre]
  exact h2 r hr

theorem othersFinal_equiv {cfg : Cfg} {day : String} {rows rows' : List Row}
    (h : RowsEquiv rows rows') (ho : OthersFinal cfg day rows) :
    OthersFinal cfg day rows' :=
  fun d t hd => groupFinal_equiv d t h (ho d t hd)

theorem datesOk_equiv {day : String} {rest : List String}
    {rows rows' : List Row} (h : RowsEquiv rows rows')
    (hd : DatesOk day rest rows) : DatesOk day rest rows' := by
  intro r' hr'
  obtain ⟨r, hr, hre⟩ := rowsEquiv_mem h hr'
  rcases hd r hr with h1 | h2 | h3
  · left
    have hrr := rowEquiv_return hre
    rw [show (r.job_id == "RETURN_HOME") = true from beq_iff_eq.mpr h1] at hrr
    exact beq_iff_eq.mp hrr
  · right; left; rw [hre.1]; exact h2
  · right; right; rw [hre.1]; exact h3

/-- Appending a normal visit for `t0` keeps it inside the normal budget. -/
theorem invA_step_self (cfg : Cfg) (day : String) (ds ds' : DayState)
    (planned : List Row) (row : Row) (t0 : String)
    (hA : InvA cfg day ds planned t0)
    (hdate : row.date = day) (htech : row.technicien = t0)
    (hnret : row.job_id ≠ "RETURN_HOME") (hot : row.ot = "")
    (hub : ds.used t0 + rowCost row ≤ ds'.used t0)
    (havl : ds.used t0 + rowCost row ≤ cfg.available)
    (hjc : 0 < ds'.jobsCount t0) :
    InvA cfg day ds' (planned ++ [row]) t0 := by
  obtain ⟨h1, h2, h3, h4, h5⟩ := hA
  have hd : dayRows (planned ++ [row]) day t0 = dayRows planned day t0 ++ [row] := by
    rw [dayRows_append, dayRows_single_self row day t0 hdate htech hnret]
  have hsum : rowSum (planned ++ [row]) day t0 = rowSum planned day t0 + rowCost row := by
    rw [rowSum_append, rowSum_single_self row day t0 hdate htech hnret]
  refine ⟨?_, by rw [hsum]; omega, by rw [hsum]; omega, by omega, fun hc => by omega⟩
  intro r hr
  rw [hd] at hr
  rcases List.mem_append.mp hr with hr1 | hr2
  · exact h1 r hr1
  · rcases List.mem_singleton.mp hr2 with rfl
    exact hot

/-- Appending a row that does not enter `t`'s day group keeps it inside the
normal budget. -/
theorem invA_step_skip (cfg : Cfg) (day : String) (ds ds' : DayState)
    (planned : List Row) (row : Row) (t : String)
    (hA : InvA cfg day ds planned t)
    (hnot : ¬ (row.date = day ∧ row.technicien = t ∧
      row.job_id ≠ "RETURN_HOME"))
    (hub : ds.used t ≤ ds'.used t)
    (hjc1 : 0 ≤ ds'.jobsCount t)
    (hjc2 : ds'.jobsCount t = 0 → ds.jobsCount t = 0) :
    InvA cfg day ds' (planned ++ [row]) t := by
  obtain ⟨h1, h2, h3, h4, h5⟩ := hA
  have hd : dayRows (planned ++ [row]) day t = dayRows planned day t := by
    rw [dayRows_append, dayRows_single_none row day t hnot, List.append_nil]
  have hsum : rowSum (planned ++ [row]) day t = rowSum planned day t := by
    unfold rowSum
    rw [hd]
  rw [InvA, hd, hsum]
  exact ⟨h1, by omega, h3, hjc1, fun hc => h5 (hjc2 hc)⟩

/-- Appending a first OT visit for `t0` moves it to the locked OT state. -/
theorem invB_step_self (cfg : Cfg) (day : String) (ds ds' : DayState)
    (planned : List Row) (row : Row) (t0 : String)
    (hA : InvA cfg day ds planned t0) (hjc0 : ds.jobsCount t0 = 0)
    (hdate : row.date = day) (htech : row.technicien = t0)
    (hnret : row.job_id ≠ "RETURN_HOME") (hot : row.ot = "🟥 OT")
    (hseq : row.sequence = 1) (hcost : rowCost row ≤ cfg.otCap)
    (hlock : ds'.lock t0 = true) :
    InvB cfg day ds' (planned ++ [row]) t0 := by
  obtain ⟨h1, h2, h3, h4, h5⟩ := hA
  have hempty := h5 hjc0
  have hd : dayRows (planned ++ [row]) day t0 = [row] := by
    rw [dayRows_append, dayRows_single_self row day t0 hdate htech hnret,
      hempty]
    rfl
  have hsum : rowSum (planned ++ [row]) day t0 = rowCost row := by
    unfold rowSum
    rw [hd]
    simp
  refine ⟨by rw [hd]; rfl, ?_, by rw [hsum]; exact hcost, hlock⟩
  intro r hr
  rw [hd] at hr
  rcases List.mem_singleton.mp hr with rfl
  exact ⟨hot, hseq⟩

/-- Appending a row that does not enter `t`'s day group keeps the locked OT
state. -/
theorem invB_step_skip (cfg : Cfg) (day : String) (ds ds' : DayState)
    (planned : List Row) (row : Row) (t : String)
    (hB : InvB cfg day ds planned t)
    (hnot : ¬ (row.date = day ∧ row.technicien = t ∧
      row.job_id ≠ "RETURN_HOME"))
    (hlock : ds'.lock t = ds.lock t) :
    InvB cfg day ds' (planned ++ [row]) t := by
  obtain ⟨h1, h2, h3, h4⟩ := hB
  have hd : dayRows (planned ++ [row]) day t = dayRows planned day t := by
    rw [dayRows_append, dayRows_single_none row day t hnot, List.append_nil]
  have hsum : rowSum (planned ++ [row]) day t = rowSum planned day t := by
    unfold rowSum
    rw [hd]
  rw [InvB, hd, hsum, hlock]
  exact ⟨h1, h2, h3, h4⟩

/-- Appending a row dated the current day keeps the other days final. -/
theorem othersFinal_append (cfg : Cfg) (day : String) (planned : List Row)
    (row : Row) (h : row.date = day ∨ row.job_id = "RETURN_HOME")
    (ho : OthersFinal cfg day planned) :
    OthersFinal cfg day (planned ++ [row]) := by
  intro d t hd
  have hnone : dayRows [row] d t = [] := by
    rcases h with h1 | h2
    · exact dayRows_single_none row d t (fun hc => hd (by rw [← h1, hc.1]))
    · exact dayRows_single_none row d t (fun hc => hc.2.2 h2)
  have : dayRows (planned ++ [row]) d t = dayRows planned d t := by
    rw [dayRows_append, hnone, List.append_nil]
  rw [GroupFinal, this]
  exact ho d t hd

theorem datesOk_append (day : String) (rest : List String)
    (planned : List Row) (row : Row)
    (h : row.date = day ∨ row.job_id = "RETURN_HOME")
    (hd : DatesOk day rest planned) : DatesOk day rest (planned ++ [row]) := by
  intro r hr
  rcases List.mem_append.mp hr with h1 | h2
  · exact hd r h1
  · rcases List.mem_singleton.mp h2 with rfl
    rcases h with ha | hb
    · exact Or.inr (Or.inl ha)
    · exact Or.inl hb

/-- Every pooled job has positive minutes (what the loaders guarantee). -/
def PoolPos (l : List Job) : Prop := ∀ j ∈ l, 0 < j.job_minutes

theorem poolPos_filter {l : List Job} (h : PoolPos l) (p : Job → Bool) :
    PoolPos (l.filter p) :=
  fun j hj => h j (List.mem_of_mem_filter hj)

/-- `ceil(n / 2)` of a positive total is positive. -/
theorem ceilHalf_pos (n : Int) (h : 0 < n) : 0 < ceilHalf n := by
  unfold ceilHalf
  have h1 := Int.fdiv_add_fmod (-n) 2
  have he : (-n).fmod 2 = (-n) % 2 := Int.fmod_eq_emod _ (by omega)
  have h2 : 0 ≤ (-n) % 2 := Int.emod_nonneg _ (by omega)
  have h3 : (-n) % 2 < 2 := Int.emod_lt_of_pos _ (by omega)
  rw [he] at h1
  omega

/-- One split-part booking preserves the whole day invariant. -/
theorem bookSplitPart_C1 (cfg : Cfg) (day t0 : String) (ds : DayState)
    (planned : List Row) (labels : List (String × Int × List Nat))
    (ss : SplitState) (rest : List String)
    (hlab : LabelsInv planned labels)
    (ho : OthersFinal cfg day planned) (hdk : DatesOk day rest planned)
    (hA0 : InvA cfg day ds planned t0) :
    OthersFinal cfg day (bookSplitPart cfg day t0 ds planned labels ss).2.1 ∧
    DatesOk day rest (bookSplitPart cfg day t0 ds planned labels ss).2.1 ∧
    LabelsInv (bookSplitPart cfg day t0 ds planned labels ss).2.1
      (bookSplitPart cfg day t0 ds planned labels ss).2.2.1 ∧
    InvA cfg day (bookSplitPart cfg day t0 ds planned labels ss).1
      (bookSplitPart cfg day t0 ds planned labels ss).2.1 t0 ∧
    (∀ t, t ≠ t0 → InvA cfg day ds planned t →
      InvA cfg day (bookSplitPart cfg day t0 ds planned labels ss).1
        (bookSplitPart cfg day t0 ds planned labels ss).2.1 t) ∧
    (∀ t, t ≠ t0 → InvB cfg day ds planned t →
      InvB cfg day (bookSplitPart cfg day t0 ds planned labels ss).1
        (bookSplitPart cfg day t0 ds planned labels ss).2.1 t) := by
  rcases bookSplitPart_spec cfg day t0 ds planned labels ss hlab with hno |
    ⟨onsite, row, hpos, hbud, hdate, htech, hot, hduo, hid, hseq, hcost,
      hequiv, hlabi, hused, hjc, hcur, hlock, hss⟩
  · rw [hno]
    exact ⟨ho, hdk, hlab, hA0, fun t _ h => h, fun t _ h => h⟩
  · obtain ⟨b, i, n, hp⟩ := hid
    have hnret : row.job_id ≠ "RETURN_HOME" := by
      rw [hp]; exact partLabel_ne_return b i n
    have hback : (0 : Int) ≤ (cfg.travel ss.address (cfg.homeMap t0) : Int) :=
      Int.natCast_nonneg _
    have hu0 : (bookSplitPart cfg day t0 ds planned labels ss).1.used t0 =
        ds.used t0 + (cfg.travel (ds.curLoc t0) ss.address : Int) + onsite +
          cfg.bufferJob := by
      rw [hused]; exact fupd_same _ _ _
    have hj0 : (bookSplitPart cfg day t0 ds planned labels ss).1.jobsCount t0 =
        ds.jobsCount t0 + 1 := by
      rw [hjc]; exact fupd_same _ _ _
    refine ⟨othersFinal_equiv hequiv (othersFinal_append cfg day planned row
        (Or.inl hdate) ho),
      datesOk_equiv hequiv (datesOk_append day rest planned row
        (Or.inl hdate) hdk),
      hlabi, ?_, ?_, ?_⟩
    · refine invA_equiv hequiv t0
        (invA_step_self cfg day ds _ planned row t0 hA0 hdate htech hnret hot
          ?_ ?_ ?_)
      · rw [hu0, hcost]; omega
      · rw [hcost]; omega
      · rw [hj0]; have := hA0.2.2.2.1; omega
    · intro t ht hA
      refine invA_equiv hequiv t
        (invA_step_skip cfg day ds _ planned row t hA
          (fun hc => ht (hc.2.1.symm.trans htech)) ?_ ?_ ?_)
      · rw [hused, fupd_other _ _ _ _ ht]
      · rw [hjc, fupd_other _ _ _ _ ht]; exact hA.2.2.2.1
      · rw [hjc, fupd_other _ _ _ _ ht]; exact fun hc => hc
    · intro t ht hB
      refine invB_equiv hequiv t
        (invB_step_skip cfg day ds _ planned row t hB
          (fun hc => ht (hc.2.1.symm.trans htech)) ?_)
      rw [hlock, fupd_other _ _ _ _ ht]

/-- The carryover pass preserves the whole day invariant (every technician is
still inside the normal budget when it runs). -/
theorem carrySweep_C1 (cfg : Cfg) (day : String) (rest : List String) :
    ∀ (ts : List String) (ds : DayState) (planned : List Row)
      (labels : List (String × Int × List Nat))
      (carry : List (String × SplitState)),
      LabelsInv planned labels → OthersFinal cfg day planned →
      DatesOk day rest planned → (∀ t, InvA cfg day ds planned t) →
      OthersFinal cfg day (carrySweep cfg day ts (ds, planned, labels, carry)).2.1 ∧
      DatesOk day rest (carrySweep cfg day ts (ds, planned, labels, carry)).2.1 ∧
      LabelsInv (carrySweep cfg day ts (ds, planned, labels, carry)).2.1
        (carrySweep cfg day ts (ds, planned, labels, carry)).2.2.1 ∧
      (∀ t, InvA cfg day (carrySweep cfg day ts (ds, planned, labels, carry)).1
        (carrySweep cfg day ts (ds, planned, labels, carry)).2.1 t) := by
  intro ts
  induction ts with
  | nil => intro ds planned labels carry h1 h2 h3 h4; exact ⟨h2, h3, h1, h4⟩
  | cons t ts ih =>
    intro ds planned labels carry h1 h2 h3 h4
    have hred : carrySweep cfg day (t :: ts) (ds, planned, labels, carry) =
        match alookup carry t with
        | none => carrySweep cfg day ts (ds, planned, labels, carry)
        | some ss =>
          carrySweep cfg day ts
            ((bookSplitPart cfg day t ds planned labels ss).1,
             (bookSplitPart cfg day t ds planned labels ss).2.1,
             (bookSplitPart cfg day t ds planned labels ss).2.2.1,
             if (bookSplitPart cfg day t ds planned labels ss).2.2.2.remaining_job_min ≤ 0
             then aerase (aset carry t
               (bookSplitPart cfg day t ds planned labels ss).2.2.2) t
             else aset carry t
               (bookSplitPart cfg day t ds planned labels ss).2.2.2) := rfl
    rw [hred]
    cases halk : alookup carry t with
    | none => exact ih ds planned labels carry h1 h2 h3 h4
    | some ss =>
      dsimp only
      obtain ⟨g1, g2, g3, g4, g5, -⟩ :=
        bookSplitPart_C1 cfg day t ds planned labels ss rest h1 h2 h3 (h4 t)
      refine ih _ _ _ _ g3 g1 g2 ?_
      intro t2
      by_cases ht2 : t2 = t
      · rw [ht2]; exact g4
      · exact g5 t2 ht2 (h4 t2)

/-- Booking the best duo pair preserves the whole day invariant. -/
theorem duoBook_C1 (cfg : Cfg) (day : String) (b : DuoBest) (ds : DayState)
    (planned : List Row) (duoJobs : List Job) (rest : List String)
    (hbuf : 0 ≤ cfg.bufferJob) (hjm : 0 < b.job.job_minutes)
    (hne : b.t1 ≠ b.t2)
    (hjme : b.job_min_each = ceilHalf b.job.job_minutes)
    (hl1 : ds.lock b.t1 = false) (hl2 : ds.lock b.t2 = false)
    (hstart : b.start_m = max (ds.used b.t1 + b.t1_tr) (ds.used b.t2 + b.t2_tr))
    (hend : b.end_m = b.start_m + (b.job_min_each + cfg.bufferJob))
    (hcap1 : b.end_m + (cfg.travel b.job.address (cfg.homeMap b.t1) : Int) ≤
      cfg.available)
    (hcap2 : b.end_m + (cfg.travel b.job.address (cfg.homeMap b.t2) : Int) ≤
      cfg.available)
    (ht1tr : b.t1_tr = (cfg.travel (ds.curLoc b.t1) b.job.address : Int))
    (ht2tr : b.t2_tr = (cfg.travel (ds.curLoc b.t2) b.job.address : Int))
    (ho : OthersFinal cfg day planned) (hdk : DatesOk day rest planned)
    (hAB : ∀ t, InvA cfg day ds planned t ∨ InvB cfg day ds planned t) :
    OthersFinal cfg day (duoBook cfg day b ds planned duoJobs).2.1 ∧
    DatesOk day rest (duoBook cfg day b ds planned duoJobs).2.1 ∧
    ∀ t, InvA cfg day (duoBook cfg day b ds planned duoJobs).1
        (duoBook cfg day b ds planned duoJobs).2.1 t ∨
      InvB cfg day (duoBook cfg day b ds planned duoJobs).1
        (duoBook cfg day b ds planned duoJobs).2.1 t := by
  obtain ⟨hrows, husedE, hjcE, hcurE, hlockE, -⟩ :=
    duoBook_spec cfg day b ds planned duoJobs
  have hback1 : (0 : Int) ≤ (cfg.travel b.job.address (cfg.homeMap b.t1) : Int) :=
    Int.natCast_nonneg _
  have hback2 : (0 : Int) ≤ (cfg.travel b.job.address (cfg.homeMap b.t2) : Int) :=
    Int.natCast_nonneg _
  have htr1 : (0 : Int) ≤ b.t1_tr := by rw [ht1tr]; exact Int.natCast_nonneg _
  have htr2 : (0 : Int) ≤ b.t2_tr := by rw [ht2tr]; exact Int.natCast_nonneg _
  have hjmepos : 0 < b.job_min_each := by rw [hjme]; exact ceilHalf_pos _ hjm
  have hmax1 : ds.used b.t1 + b.t1_tr ≤ b.start_m := by
    rw [hstart]; exact le_max_left _ _
  have hmax2 : ds.used b.t2 + b.t2_tr ≤ b.start_m := by
    rw [hstart]; exact le_max_right _ _
  have hu1 : (duoBook cfg day b ds planned duoJobs).1.used b.t1 = b.end_m := by
    rw [husedE, fupd_other _ _ _ _ hne, fupd_same]
  have hu2 : (duoBook cfg day b ds planned duoJobs).1.used b.t2 = b.end_m := by
    rw [husedE, fupd_same]
  have hut : ∀ t, t ≠ b.t1 → t ≠ b.t2 →
      (duoBook cfg day b ds planned duoJobs).1.used t = ds.used t := by
    intro t h1 h2
    rw [husedE, fupd_other _ _ _ _ h2, fupd_other _ _ _ _ h1]
  have hjc1 : (duoBook cfg day b ds planned duoJobs).1.jobsCount b.t1 =
      ds.jobsCount b.t1 + 1 := by
    rw [hjcE, fupd_other _ _ _ _ hne, fupd_same]
  have hjc2 : (duoBook cfg day b ds planned duoJobs).1.jobsCount b.t2 =
      ds.jobsCount b.t2 + 1 := by
    rw [hjcE, fupd_same, fupd_other _ _ _ _ (Ne.symm hne)]
  have hjct : ∀ t, t ≠ b.t1 → t ≠ b.t2 →
      (duoBook cfg day b ds planned duoJobs).1.jobsCount t = ds.jobsCount t := by
    intro t h1 h2
    rw [hjcE, fupd_other _ _ _ _ h2, fupd_other _ _ _ _ h1]
  have hlockt : ∀ t, t ≠ b.t1 → t ≠ b.t2 →
      (duoBook cfg day b ds planned duoJobs).1.lock t = ds.lock t := by
    intro t h1 h2
    rw [hlockE]
    split
    · rw [fupd_other _ _ _ _ h2, fupd_other _ _ _ _ h1]
    · rfl
  have hA1 : InvA cfg day ds planned b.t1 := by
    rcases hAB b.t1 with h | h
    · exact h
    · exact absurd (hl1.symm.trans h.2.2.2) Bool.false_ne_true
  have hA2 : InvA cfg day ds planned b.t2 := by
    rcases hAB b.t2 with h | h
    · exact h
    · exact absurd (hl2.symm.trans h.2.2.2) Bool.false_ne_true
  refine ⟨?_, ?_, ?_⟩
  · rw [hrows]
    exact othersFinal_append cfg day _ _ (Or.inl rfl)
      (othersFinal_append cfg day _ _ (Or.inl rfl) ho)
  · rw [hrows]
    exact datesOk_append day rest _ _ (Or.inl rfl)
      (datesOk_append day rest _ _ (Or.inl rfl) hdk)
  · intro t
    rw [hrows]
    by_cases hgid : b.job.job_id = "RETURN_HOME"
    · -- the booked job is named like the synthetic row: both rows stay
      -- outside every day group, only the clocks advance
      by_cases ht1 : t = b.t1
      · subst ht1
        left
        refine invA_step_skip cfg day _ _ _ _ b.t1
          (invA_step_skip cfg day ds ds planned _ b.t1 hA1
            (fun hc => hc.2.2 hgid) le_rfl hA1.2.2.2.1 (fun hc => hc))
          (fun hc => hc.2.2 hgid) ?_ ?_ ?_
        · rw [hu1]; omega
        · rw [hjc1]; have := hA1.2.2.2.1; omega
        · rw [hjc1]; have := hA1.2.2.2.1; intro hc; omega
      · by_cases ht2 : t = b.t2
        · subst ht2
          left
          refine invA_step_skip cfg day _ _ _ _ b.t2
            (invA_step_skip cfg day ds ds planned _ b.t2 hA2
              (fun hc => hc.2.2 hgid) le_rfl hA2.2.2.2.1 (fun hc => hc))
            (fun hc => hc.2.2 hgid) ?_ ?_ ?_
          · rw [hu2]; omega
          · rw [hjc2]; have := hA2.2.2.2.1; omega
          · rw [hjc2]; have := hA2.2.2.2.1; intro hc; omega
        · rcases hAB t with hA | hB
          · left
            exact invA_step_skip cfg day _ _ _ _ t
              (invA_step_skip cfg day ds ds planned _ t hA
                (fun hc => hc.2.2 hgid) le_rfl hA.2.2.2.1 (fun hc => hc))
              (fun hc => hc.2.2 hgid) (by rw [hut t ht1 ht2])
              (by rw [hjct t ht1 ht2]; exact hA.2.2.2.1)
              (by rw [hjct t ht1 ht2]; exact fun hc => hc)
          · right
            exact invB_step_skip cfg day _ _ _ _ t
              (invB_step_skip cfg day ds ds planned _ t hB
                (fun hc => hc.2.2 hgid) rfl)
              (fun hc => hc.2.2 hgid) (hlockt t ht1 ht2)
    · -- normally-named job: the first row is `t1`'s visit, the second `t2`'s
      by_cases ht1 : t = b.t1
      · subst ht1
        left
        refine invA_step_skip cfg day _ _ _ _ b.t1
          (invA_step_self cfg day ds
            (duoBook cfg day b ds planned duoJobs).1 planned _ b.t1 hA1
            rfl rfl hgid rfl ?_ ?_ ?_)
          (fun hc => hne ((hc.2.1 : b.t2 = b.t1)).symm) le_rfl ?_ (fun hc => hc)
        · show ds.used b.t1 + (b.t1_tr + b.job_min_each + cfg.bufferJob) ≤ _
          rw [hu1]; omega
        · show ds.used b.t1 + (b.t1_tr + b.job_min_each + cfg.bufferJob) ≤ _
          omega
        · rw [hjc1]; have := hA1.2.2.2.1; omega
        · rw [hjc1]; have := hA1.2.2.2.1; omega
      · by_cases ht2 : t = b.t2
        · subst ht2
          left
          refine invA_step_self cfg day ds
            (duoBook cfg day b ds planned duoJobs).1 _ _ b.t2
            (invA_step_skip cfg day ds ds planned _ b.t2 hA2
              (fun hc => hne ((hc.2.1 : b.t1 = b.t2))) le_rfl
              hA2.2.2.2.1 (fun hc => hc))
            rfl rfl hgid rfl ?_ ?_ ?_
          · show ds.used b.t2 + (b.t2_tr + b.job_min_each + cfg.bufferJob) ≤ _
            rw [hu2]; omega
          · show ds.used b.t2 + (b.t2_tr + b.job_min_each + cfg.bufferJob) ≤ _
            omega
          · rw [hjc2]; have := hA2.2.2.2.1; omega
        · rcases hAB t with hA | hB
          · left
            exact invA_step_skip cfg day _ _ _ _ t
              (invA_step_skip cfg day ds ds planned _ t hA
                (fun hc => ht1 (hc.2.1 : b.t1 = t).symm) le_rfl hA.2.2.2.1
                (fun hc => hc))
              (fun hc => ht2 (hc.2.1 : b.t2 = t).symm) (by rw [hut t ht1 ht2])
              (by rw [hjct t ht1 ht2]; exact hA.2.2.2.1)
              (by rw [hjct t ht1 ht2]; exact fun hc => hc)
          · right
            exact invB_step_skip cfg day _ _ _ _ t
              (invB_step_skip cfg day ds ds planned _ t hB
                (fun hc => ht1 (hc.2.1 : b.t1 = t).symm) rfl)
              (fun hc => ht2 (hc.2.1 : b.t2 = t).symm) (hlockt t ht1 ht2)

/-- The duo pass preserves the whole day invariant. -/
theorem duoLoop_C1 (cfg : Cfg) (day : String) (rest : List String)
    (hbuf : 0 ≤ cfg.bufferJob) (hrank : ∀ f, (cfg.rankTechs f).Nodup)
    (labels : List (String × Int × List Nat)) :
    ∀ (fuel : Nat) (ds : DayState) (planned : List Row) (duoJobs : List Job),
      LabelsInv planned labels → PoolPos duoJobs →
      OthersFinal cfg day planned → DatesOk day rest planned →
      (∀ t, InvA cfg day ds planned t ∨ InvB cfg day ds planned t) →
      OthersFinal cfg day (duoLoop cfg day fuel ds planned duoJobs).2.1 ∧
      DatesOk day rest (duoLoop cfg day fuel ds planned duoJobs).2.1 ∧
      LabelsInv (duoLoop cfg day fuel ds planned duoJobs).2.1 labels ∧
      PoolPos (duoLoop cfg day fuel ds planned duoJobs).2.2 ∧
      (∀ t, InvA cfg day (duoLoop cfg day fuel ds planned duoJobs).1
          (duoLoop cfg day fuel ds planned duoJobs).2.1 t ∨
        InvB cfg day (duoLoop cfg day fuel ds planned duoJobs).1
          (duoLoop cfg day fuel ds planned duoJobs).2.1 t) := by
  intro fuel
  induction fuel with
  | zero => intro ds planned duoJobs h1 h2 h3 h4 h5; exact ⟨h3, h4, h1, h2, h5⟩
  | succ fuel ih =>
    intro ds planned duoJobs h1 h2 h3 h4 h5
    have hred : duoLoop cfg day (fuel + 1) ds planned duoJobs =
        if duoJobs.isEmpty then (ds, planned, duoJobs)
        else
          match duoFindBest cfg ds duoJobs with
          | none => (ds, planned, duoJobs)
          | some b =>
            duoLoop cfg day fuel (duoBook cfg day b ds planned duoJobs).1
              (duoBook cfg day b ds planned duoJobs).2.1
              (duoBook cfg day b ds planned duoJobs).2.2 := rfl
    rw [hred]
    split
    · exact ⟨h3, h4, h1, h2, h5⟩
    · cases hfb : duoFindBest cfg ds duoJobs with
      | none => exact ⟨h3, h4, h1, h2, h5⟩
      | some b =>
        dsimp only
        obtain ⟨job, hjs, pr, hpr, hcand⟩ :=
          duoFindBest_cases cfg ds duoJobs b hfb
        obtain ⟨hbjob, hbt1, hbt2, hjme, hlk1, hlk2, htr1, htr2, hstart,
          hend, hcap1, hcap2⟩ := hcand
        have hjm : 0 < b.job.job_minutes := by
          rw [hbjob]; exact h2 job (mem_duoSample cfg duoJobs job hjs)
        have hne : b.t1 ≠ b.t2 := by
          rw [hbt1, hbt2]
          exact mem_upairs_ne _ (hrank job.fsa) pr.1 pr.2 (by
            rcases pr with ⟨x, y⟩; exact hpr)
        have hcap1a : b.end_m +
            (cfg.travel b.job.address (cfg.homeMap b.t1) : Int) ≤
            cfg.available := by rw [hbjob]; exact hcap1
        have hcap2a : b.end_m +
            (cfg.travel b.job.address (cfg.homeMap b.t2) : Int) ≤
            cfg.available := by rw [hbjob]; exact hcap2
        obtain ⟨g1, g2, g3⟩ := duoBook_C1 cfg day b ds planned duoJobs rest
          hbuf hjm hne (by rw [hbjob]; exact hjme) hlk1 hlk2 hstart hend
          hcap1a hcap2a (by rw [hbjob]; exact htr1) (by rw [hbjob]; exact htr2)
          h3 h4 h5
        have hlab2 : LabelsInv (duoBook cfg day b ds planned duoJobs).2.1
            labels := by
          rw [(duoBook_spec cfg day b ds planned duoJobs).1]
          exact labelsInv_append (labelsInv_append h1 _) _
        have hpos2 : PoolPos (duoBook cfg day b ds planned duoJobs).2.2 := by
          rw [(duoBook_spec cfg day b ds planned duoJobs).2.2.2.2.2]
          exact poolPos_filter h2 _
        exact ih _ _ _ hlab2 hpos2 g1 g2 g3

/-- The split-or-overtime tail of the solo body preserves the day invariant. -/
theorem soloSplitAttempt_C1 (cfg : Cfg) (day t0 : String) (ds : DayState)
    (planned : List Row) (labels : List (String × Int × List Nat))
    (carry : List (String × SplitState)) (soloJobs sample : List Job)
    (rest : List String)
    (hbuf : 0 ≤ cfg.bufferJob) (hsampos : PoolPos sample)
    (hlab : LabelsInv planned labels)
    (ho : OthersFinal cfg day planned) (hdk : DatesOk day rest planned)
    (hAB : ∀ t, InvA cfg day ds planned t ∨ InvB cfg day ds planned t)
    (hl0 : ds.lock t0 = false) :
    OthersFinal cfg day
      (soloSplitAttempt cfg day t0 ds planned labels carry soloJobs
        sample).2.1 ∧
    DatesOk day rest
      (soloSplitAttempt cfg day t0 ds planned labels carry soloJobs
        sample).2.1 ∧
    LabelsInv
      (soloSplitAttempt cfg day t0 ds planned labels carry soloJobs
        sample).2.1
      (soloSplitAttempt cfg day t0 ds planned labels carry soloJobs
        sample).2.2.1 ∧
    (∀ t, InvA cfg day
        (soloSplitAttempt cfg day t0 ds planned labels carry soloJobs
          sample).1
        (soloSplitAttempt cfg day t0 ds planned labels carry soloJobs
          sample).2.1 t ∨
      InvB cfg day
        (soloSplitAttempt cfg day t0 ds planned labels carry soloJobs
          sample).1
        (soloSplitAttempt cfg day t0 ds planned labels carry soloJobs
          sample).2.1 t) := by
  have hA0 : InvA cfg day ds planned t0 := by
    rcases hAB t0 with h | h
    · exact h
    · exact absurd (hl0.symm.trans h.2.2.2) Bool.false_ne_true
  unfold soloSplitAttempt
  cases hbl : soloBestLong cfg ds t0 carry sample with
  | none => exact ⟨ho, hdk, hlab, hAB⟩
  | some q =>
    obtain ⟨job, tmin, isOT⟩ := q
    obtain ⟨hjs, hbig, -, htmin, hroom, hchunk, hotc⟩ :=
      soloBestLong_cases cfg ds t0 carry sample _ hbl
    dsimp only at htmin hroom hchunk hotc
    have hjm : 0 < job.job_minutes := hsampos job hjs
    have htr : (0 : Int) ≤ (cfg.travel (ds.curLoc t0) job.address : Int) :=
      Int.natCast_nonneg _
    have hback : (0 : Int) ≤ (cfg.travel job.address (cfg.homeMap t0) : Int) :=
      Int.natCast_nonneg _
    cases isOT with
    | true =>
      dsimp only
      obtain ⟨hjc00, hfit⟩ := hotc rfl
      obtain ⟨hrow, hused, hjc, hcur, hlock⟩ := soloBookRow_spec cfg day t0 job
        (cfg.travel (ds.curLoc t0) job.address : Int) "" ds planned
      have hu0 : (soloBookRow cfg day t0 job
          (cfg.travel (ds.curLoc t0) job.address : Int) "" ds
          planned).1.used t0 =
          ds.used t0 + (cfg.travel (ds.curLoc t0) job.address : Int) +
            job.job_minutes + cfg.bufferJob := by
        rw [hused]; exact fupd_same _ _ _
      have hj0 : (soloBookRow cfg day t0 job
          (cfg.travel (ds.curLoc t0) job.address : Int) "" ds
          planned).1.jobsCount t0 = ds.jobsCount t0 + 1 := by
        rw [hjc]; exact fupd_same _ _ _
      refine ⟨?_, ?_, ?_, ?_⟩
      · rw [hrow]
        exact othersFinal_append cfg day _ _ (Or.inl rfl) ho
      · rw [hrow]
        exact datesOk_append day rest _ _ (Or.inl rfl) hdk
      · rw [hrow]
        exact labelsInv_append hlab _
      · intro t
        rw [hrow]
        by_cases ht : t = t0
        · subst ht
          left
          by_cases hgid : job.job_id = "RETURN_HOME"
          · refine invA_step_skip cfg day ds _ planned _ t hA0
              (fun hc => hc.2.2 hgid) ?_ ?_ ?_
            · show ds.used t ≤ (soloBookRow cfg day t job
                (cfg.travel (ds.curLoc t) job.address : Int) "" ds
                planned).1.used t
              rw [hu0]
              have := hA0.2.2.2.1
              omega
            · show 0 ≤ (soloBookRow cfg day t job
                (cfg.travel (ds.curLoc t) job.address : Int) "" ds
                planned).1.jobsCount t
              rw [hj0]; have := hA0.2.2.2.1; omega
            · show (soloBookRow cfg day t job
                (cfg.travel (ds.curLoc t) job.address : Int) "" ds
                planned).1.jobsCount t = 0 → _
              rw [hj0]; have := hA0.2.2.2.1; intro hc; omega
          · refine invA_step_self cfg day ds _ planned _ t hA0
              rfl rfl hgid rfl ?_ ?_ ?_
            · show ds.used t + ((cfg.travel (ds.curLoc t) job.address : Int) +
                job.job_minutes + cfg.bufferJob) ≤ (soloBookRow cfg day t job
                  (cfg.travel (ds.curLoc t) job.address : Int) "" ds
                  planned).1.used t
              rw [hu0]; omega
            · show ds.used t + ((cfg.travel (ds.curLoc t) job.address : Int) +
                job.job_minutes + cfg.bufferJob) ≤ cfg.available
              omega
            · show 0 < (soloBookRow cfg day t job
                (cfg.travel (ds.curLoc t) job.address : Int) "" ds
                planned).1.jobsCount t
              rw [hj0]; have := hA0.2.2.2.1; omega
        · rcases hAB t with hA | hB
          · left
            refine invA_step_skip cfg day ds _ planned _ t hA
              (fun hc => ht (hc.2.1 : t0 = t).symm) ?_ ?_ ?_
            · show ds.used t ≤ (soloBookRow cfg day t0 job
                (cfg.travel (ds.curLoc t0) job.address : Int) "" ds
                planned).1.used t
              rw [hused, fupd_other _ _ _ _ ht]
            · show 0 ≤ (soloBookRow cfg day t0 job
                (cfg.travel (ds.curLoc t0) job.address : Int) "" ds
                planned).1.jobsCount t
              rw [hjc, fupd_other _ _ _ _ ht]; exact hA.2.2.2.1
            · show (soloBookRow cfg day t0 job
                (cfg.travel (ds.curLoc t0) job.address : Int) "" ds
                planned).1.jobsCount t = 0 → _
              rw [hjc, fupd_other _ _ _ _ ht]; exact fun hc => hc
          · right
            refine invB_step_skip cfg day ds _ planned _ t hB
              (fun hc => ht (hc.2.1 : t0 = t).symm) ?_
            show DayState.lock _ t = ds.lock t
            show fupd (soloBookRow cfg day t0 job
              (cfg.travel (ds.curLoc t0) job.address : Int) "" ds
              planned).1.lock t0 true t = ds.lock t
            rw [fupd_other _ _ _ _ ht, hlock]
    | false =>
      dsimp only
      obtain ⟨g1, g2, g3, g4, g5, g6⟩ := bookSplitPart_C1 cfg day t0 ds planned
        labels
        { base_job_id := job.job_id, cust := job.cust, address := job.address,
          description := job.description, techs_needed := job.techs_needed,
          total_parts := compute_total_parts job.job_minutes cfg.available,
          part_idx_next := 1, remaining_job_min := job.job_minutes }
        rest hlab ho hdk hA0
      refine ⟨g1, g2, g3, ?_⟩
      intro t
      by_cases ht : t = t0
      · rw [ht]; exact Or.inl g4
      · rcases hAB t with hA | hB
        · exact Or.inl (g5 t ht hA)
        · exact Or.inr (g6 t ht hB)

/-- The split tail only filters the solo pool, keeping minutes positive. -/
theorem soloSplitAttempt_poolPos (cfg : Cfg) (day t0 : String) (ds : DayState)
    (planned : List Row) (labels : List (String × Int × List Nat))
    (carry : List (String × SplitState)) (soloJobs sample : List Job)
    (hsolop : PoolPos soloJobs) :
    PoolPos
      (soloSplitAttempt cfg day t0 ds planned labels carry soloJobs
        sample).2.2.2.2.1 := by
  unfold soloSplitAttempt
  cases hbl : soloBestLong cfg ds t0 carry sample with
  | none => exact hsolop
  | some q =>
    obtain ⟨job, tmin, isOT⟩ := q
    cases isOT with
    | true => exact poolPos_filter hsolop _
    | false => exact poolPos_filter hsolop _

/-- One technician's solo turn preserves the day invariant. -/
theorem soloTechStep_C1 (cfg : Cfg) (day t0 : String) (ds : DayState)
    (planned : List Row) (labels : List (String × Int × List Nat))
    (carry : List (String × SplitState)) (soloJobs : List Job)
    (rest : List String)
    (hbuf : 0 ≤ cfg.bufferJob)
    (hpool : ∀ rem tt, ∀ x ∈ cfg.jobPool rem tt, x ∈ rem)
    (hsolop : PoolPos soloJobs)
    (hlab : LabelsInv planned labels)
    (ho : OthersFinal cfg day planned) (hdk : DatesOk day rest planned)
    (hAB : ∀ t, InvA cfg day ds planned t ∨ InvB cfg day ds planned t) :
    OthersFinal cfg day
      (soloTechStep cfg day t0 ds planned labels carry soloJobs).2.1 ∧
    DatesOk day rest
      (soloTechStep cfg day t0 ds planned labels carry soloJobs).2.1 ∧
    LabelsInv (soloTechStep cfg day t0 ds planned labels carry soloJobs).2.1
      (soloTechStep cfg day t0 ds planned labels carry soloJobs).2.2.1 ∧
    PoolPos
      (soloTechStep cfg day t0 ds planned labels carry soloJobs).2.2.2.2.1 ∧
    (∀ t, InvA cfg day
        (soloTechStep cfg day t0 ds planned labels carry soloJobs).1
        (soloTechStep cfg day t0 ds planned labels carry soloJobs).2.1 t ∨
      InvB cfg day
        (soloTechStep cfg day t0 ds planned labels carry soloJobs).1
        (soloTechStep cfg day t0 ds planned labels carry soloJobs).2.1 t) := by
  have hsampos : PoolPos (cfg.jobPool soloJobs t0) :=
    fun j hj => hsolop j (hpool soloJobs t0 j hj)
  unfold soloTechStep
  split
  · exact ⟨ho, hdk, hlab, hsolop, hAB⟩
  · next hlk =>
    split
    · exact ⟨ho, hdk, hlab, hsolop, hAB⟩
    · dsimp only
      have hl0 : ds.lock t0 = false := by
        cases hv : ds.lock t0
        · rfl
        · exact absurd hv hlk
      have hA0 : InvA cfg day ds planned t0 := by
        rcases hAB t0 with h | h
        · exact h
        · exact absurd (hl0.symm.trans h.2.2.2) Bool.false_ne_true
      cases hbn : soloBestNormal cfg ds t0 (cfg.jobPool soloJobs t0) with
      | some p =>
        obtain ⟨job, tmin⟩ := p
        dsimp only
        obtain ⟨hjs, htmin, hneed, hfit⟩ :=
          soloBestNormal_cases cfg ds t0 _ _ hbn
        dsimp only at htmin hneed hfit
        have hjm : 0 < job.job_minutes := hsampos job hjs
        have htr : (0 : Int) ≤ tmin := by rw [htmin]; exact Int.natCast_nonneg _
        have hback : (0 : Int) ≤
            (cfg.travel job.address (cfg.homeMap t0) : Int) :=
          Int.natCast_nonneg _
        obtain ⟨hrow, hused, hjc, hcur, hlock⟩ :=
          soloBookRow_spec cfg day t0 job tmin "" ds planned
        have hu0 : (soloBookRow cfg day t0 job tmin "" ds planned).1.used t0 =
            ds.used t0 + tmin + job.job_minutes + cfg.bufferJob := by
          rw [hused]; exact fupd_same _ _ _
        have hj0 : (soloBookRow cfg day t0 job tmin "" ds
            planned).1.jobsCount t0 = ds.jobsCount t0 + 1 := by
          rw [hjc]; exact fupd_same _ _ _
        refine ⟨?_, ?_, ?_, poolPos_filter hsolop _, ?_⟩
        · rw [hrow]; exact othersFinal_append cfg day _ _ (Or.inl rfl) ho
        · rw [hrow]; exact datesOk_append day rest _ _ (Or.inl rfl) hdk
        · rw [hrow]; exact labelsInv_append hlab _
        · intro t
          rw [hrow]
          by_cases ht : t = t0
          · subst ht
            left
            by_cases hgid : job.job_id = "RETURN_HOME"
            · refine invA_step_skip cfg day ds _ planned _ t hA0
                (fun hc => hc.2.2 hgid) ?_ ?_ ?_
              · show ds.used t ≤
                  (soloBookRow cfg day t job tmin "" ds planned).1.used t
                rw [hu0]; omega
              · show 0 ≤
                  (soloBookRow cfg day t job tmin "" ds planned).1.jobsCount t
                rw [hj0]; have := hA0.2.2.2.1; omega
              · show (soloBookRow cfg day t job tmin "" ds
                  planned).1.jobsCount t = 0 → _
                rw [hj0]; have := hA0.2.2.2.1; intro hc; omega
            · refine invA_step_self cfg day ds _ planned _ t hA0
                rfl rfl hgid rfl ?_ ?_ ?_
              · show ds.used t + (tmin + job.job_minutes + cfg.bufferJob) ≤
                  (soloBookRow cfg day t job tmin "" ds planned).1.used t
                rw [hu0]; omega
              · show ds.used t + (tmin + job.job_minutes + cfg.bufferJob) ≤
                  cfg.available
                omega
              · show 0 <
                  (soloBookRow cfg day t job tmin "" ds planned).1.jobsCount t
                rw [hj0]; have := hA0.2.2.2.1; omega
          · rcases hAB t with hA | hB
            · left
              refine invA_step_skip cfg day ds _ planned _ t hA
                (fun hc => ht (hc.2.1 : t0 = t).symm) ?_ ?_ ?_
              · show ds.used t ≤
                  (soloBookRow cfg day t0 job tmin "" ds planned).1.used t
                rw [hused, fupd_other _ _ _ _ ht]
              · show 0 ≤
                  (soloBookRow cfg day t0 job tmin "" ds planned).1.jobsCount t
                rw [hjc, fupd_other _ _ _ _ ht]; exact hA.2.2.2.1
              · show (soloBookRow cfg day t0 job tmin "" ds
                  planned).1.jobsCount t = 0 → _
                rw [hjc, fupd_other _ _ _ _ ht]; exact fun hc => hc
            · right
              refine invB_step_skip cfg day ds _ planned _ t hB
                (fun hc => ht (hc.2.1 : t0 = t).symm) ?_
              show (soloBookRow cfg day t0 job tmin "" ds planned).1.lock t =
                ds.lock t
              rw [hlock]
      | none =>
        dsimp only
        split
        · next hjc0 =>
          cases hbo : soloBestOT cfg ds t0 (cfg.jobPool soloJobs t0) with
          | some p =>
            obtain ⟨job, tmin⟩ := p
            dsimp only
            obtain ⟨hjs, htmin, hcap⟩ := soloBestOT_cases cfg ds t0 _ _ hbo
            dsimp only at htmin hcap
            have hjm : 0 < job.job_minutes := hsampos job hjs
            have htr : (0 : Int) ≤ tmin := by
              rw [htmin]; exact Int.natCast_nonneg _
            have hback : (0 : Int) ≤
                (cfg.travel job.address (cfg.homeMap t0) : Int) :=
              Int.natCast_nonneg _
            obtain ⟨hrow, hused, hjc, hcur, hlock⟩ :=
              soloBookRow_spec cfg day t0 job tmin "🟥 OT" ds planned
            have hu0 : (soloBookRow cfg day t0 job tmin "🟥 OT" ds
                planned).1.used t0 =
                ds.used t0 + tmin + job.job_minutes + cfg.bufferJob := by
              rw [hused]; exact fupd_same _ _ _
            have hj0 : (soloBookRow cfg day t0 job tmin "🟥 OT" ds
                planned).1.jobsCount t0 = ds.jobsCount t0 + 1 := by
              rw [hjc]; exact fupd_same _ _ _
            refine ⟨?_, ?_, ?_, poolPos_filter hsolop _, ?_⟩
            · rw [hrow]; exact othersFinal_append cfg day _ _ (Or.inl rfl) ho
            · rw [hrow]; exact datesOk_append day rest _ _ (Or.inl rfl) hdk
            · rw [hrow]; exact labelsInv_append hlab _
            · intro t
              rw [hrow]
              by_cases ht : t = t0
              · subst ht
                by_cases hgid : job.job_id = "RETURN_HOME"
                · left
                  refine invA_step_skip cfg day ds _ planned _ t hA0
                    (fun hc => hc.2.2 hgid) ?_ ?_ ?_
                  · show ds.used t ≤ (soloBookRow cfg day t job tmin "🟥 OT" ds
                      planned).1.used t
                    rw [hu0]; omega
                  · show 0 ≤ (soloBookRow cfg day t job tmin "🟥 OT" ds
                      planned).1.jobsCount t
                    rw [hj0]; have := hA0.2.2.2.1; omega
                  · show (soloBookRow cfg day t job tmin "🟥 OT" ds
                      planned).1.jobsCount t = 0 → _
                    rw [hj0]; have := hA0.2.2.2.1; intro hc; omega
                · right
                  refine invB_step_self cfg day ds _ planned _ t hA0 hjc0
                    rfl rfl hgid rfl ?_ ?_ ?_
                  · show ds.jobsCount t + 1 = 1
                    rw [hjc0]
                    omega
                  · show tmin + job.job_minutes + cfg.bufferJob ≤ cfg.otCap
                    omega
                  · show fupd (soloBookRow cfg day t job tmin "🟥 OT" ds
                      planned).1.lock t true t = true
                    rw [fupd_same]
              · rcases hAB t with hA | hB
                · left
                  refine invA_step_skip cfg day ds _ planned _ t hA
                    (fun hc => ht (hc.2.1 : t0 = t).symm) ?_ ?_ ?_
                  · show ds.used t ≤ (soloBookRow cfg day t0 job tmin "🟥 OT" ds
                      planned).1.used t
                    rw [hused, fupd_other _ _ _ _ ht]
                  · show 0 ≤ (soloBookRow cfg day t0 job tmin "🟥 OT" ds
                      planned).1.jobsCount t
                    rw [hjc, fupd_other _ _ _ _ ht]; exact hA.2.2.2.1
                  · show (soloBookRow cfg day t0 job tmin "🟥 OT" ds
                      planned).1.jobsCount t = 0 → _
                    rw [hjc, fupd_other _ _ _ _ ht]; exact fun hc => hc
                · right
                  refine invB_step_skip cfg day ds _ planned _ t hB
                    (fun hc => ht (hc.2.1 : t0 = t).symm) ?_
                  show fupd (soloBookRow cfg day t0 job tmin "🟥 OT" ds
                    planned).1.lock t0 true t = ds.lock t
                  rw [fupd_other _ _ _ _ ht, hlock]
          | none =>
            refine ⟨?_, ?_, ?_, ?_, ?_⟩
            · exact (soloSplitAttempt_C1 cfg day t0 ds planned labels carry
                soloJobs _ rest hbuf hsampos hlab ho hdk hAB hl0).1
            · exact (soloSplitAttempt_C1 cfg day t0 ds planned labels carry
                soloJobs _ rest hbuf hsampos hlab ho hdk hAB hl0).2.1
            · exact (soloSplitAttempt_C1 cfg day t0 ds planned labels carry
                soloJobs _ rest hbuf hsampos hlab ho hdk hAB hl0).2.2.1
            · exact soloSplitAttempt_poolPos cfg day t0 ds planned labels carry
                soloJobs _ hsolop
            · exact (soloSplitAttempt_C1 cfg day t0 ds planned labels carry
                soloJobs _ rest hbuf hsampos hlab ho hdk hAB hl0).2.2.2
        · refine ⟨?_, ?_, ?_, ?_, ?_⟩
          · exact (soloSplitAttempt_C1 cfg day t0 ds planned labels carry
              soloJobs _ rest hbuf hsampos hlab ho hdk hAB hl0).1
          · exact (soloSplitAttempt_C1 cfg day t0 ds planned labels carry
              soloJobs _ rest hbuf hsampos hlab ho hdk hAB hl0).2.1
          · exact (soloSplitAttempt_C1 cfg day t0 ds planned labels carry
              soloJobs _ rest hbuf hsampos hlab ho hdk hAB hl0).2.2.1
          · exact soloSplitAttempt_poolPos cfg day t0 ds planned labels carry
              soloJobs _ hsolop
          · exact (soloSplitAttempt_C1 cfg day t0 ds planned labels carry
              soloJobs _ rest hbuf hsampos hlab ho hdk hAB hl0).2.2.2

/-- The solo sweep over the roster preserves the day invariant. -/
theorem soloSweep_C1 (cfg : Cfg) (day : String) (rest : List String)
    (hbuf : 0 ≤ cfg.bufferJob)
    (hpool : ∀ rem tt, ∀ x ∈ cfg.jobPool rem tt, x ∈ rem) :
    ∀ (ts : List String) (ds : DayState) (planned : List Row)
      (labels : List (String × Int × List Nat))
      (carry : List (String × SplitState)) (soloJobs : List Job)
      (progress : Bool),
      LabelsInv planned labels → PoolPos soloJobs →
      OthersFinal cfg day planned → DatesOk day rest planned →
      (∀ t, InvA cfg day ds planned t ∨ InvB cfg day ds planned t) →
      OthersFinal cfg day (soloSweep cfg day ts
        (ds, planned, labels, carry, soloJobs, progress)).2.1 ∧
      DatesOk day rest (soloSweep cfg day ts
        (ds, planned, labels, carry, soloJobs, progress)).2.1 ∧
      LabelsInv (soloSweep cfg day ts
          (ds, planned, labels, carry, soloJobs, progress)).2.1
        (soloSweep cfg day ts
          (ds, planned, labels, carry, soloJobs, progress)).2.2.1 ∧
      PoolPos (soloSweep cfg day ts
        (ds, planned, labels, carry, soloJobs, progress)).2.2.2.2.1 ∧
      (∀ t, InvA cfg day (soloSweep cfg day ts
          (ds, planned, labels, carry, soloJobs, progress)).1
          (soloSweep cfg day ts
            (ds, planned, labels, carry, soloJobs, progress)).2.1 t ∨
        InvB cfg day (soloSweep cfg day ts
          (ds, planned, labels, carry, soloJobs, progress)).1
          (soloSweep cfg day ts
            (ds, planned, labels, carry, soloJobs, progress)).2.1 t) := by
  intro ts
  induction ts with
  | nil =>
    intro ds planned labels carry soloJobs progress h1 h2 h3 h4 h5
    exact ⟨h3, h4, h1, h2, h5⟩
  | cons t ts ih =>
    intro ds planned labels carry soloJobs progress h1 h2 h3 h4 h5
    have hred : soloSweep cfg day (t :: ts)
        (ds, planned, labels, carry, soloJobs, progress) =
        if soloJobs.isEmpty then (ds, planned, labels, carry, soloJobs, progress)
        else
          soloSweep cfg day ts
            ((soloTechStep cfg day t ds planned labels carry soloJobs).1,
             (soloTechStep cfg day t ds planned labels carry soloJobs).2.1,
             (soloTechStep cfg day t ds planned labels carry soloJobs).2.2.1,
             (soloTechStep cfg day t ds planned labels carry soloJobs).2.2.2.1,
             (soloTechStep cfg day t ds planned labels carry
               soloJobs).2.2.2.2.1,
             progress || (soloTechStep cfg day t ds planned labels carry
               soloJobs).2.2.2.2.2) := rfl
    rw [hred]
    split
    · exact ⟨h3, h4, h1, h2, h5⟩
    · obtain ⟨g1, g2, g3, g4, g5⟩ := soloTechStep_C1 cfg day t ds planned
        labels carry soloJobs rest hbuf hpool h2 h1 h3 h4 h5
      exact ih _ _ _ _ _ _ g3 g4 g1 g2 g5

/-- The solo progress loop preserves the day invariant. -/
theorem soloLoop_C1 (cfg : Cfg) (day : String) (rest : List String)
    (hbuf : 0 ≤ cfg.bufferJob)
    (hpool : ∀ rem tt, ∀ x ∈ cfg.jobPool rem tt, x ∈ rem) :
    ∀ (fuel : Nat) (ds : DayState) (planned : List Row)
      (labels : List (String × Int × List Nat))
      (carry : List (String × SplitState)) (soloJobs : List Job),
      LabelsInv planned labels → PoolPos soloJobs →
      OthersFinal cfg day planned → DatesOk day rest planned →
      (∀ t, InvA cfg day ds planned t ∨ InvB cfg day ds planned t) →
      OthersFinal cfg day (soloLoop cfg day fuel
        (ds, planned, labels, carry, soloJobs)).2.1 ∧
      DatesOk day rest (soloLoop cfg day fuel
        (ds, planned, labels, carry, soloJobs)).2.1 ∧
      LabelsInv (soloLoop cfg day fuel
          (ds, planned, labels, carry, soloJobs)).2.1
        (soloLoop cfg day fuel (ds, planned, labels, carry, soloJobs)).2.2.1 ∧
      PoolPos (soloLoop cfg day fuel
        (ds, planned, labels, carry, soloJobs)).2.2.2.2 ∧
      (∀ t, InvA cfg day (soloLoop cfg day fuel
          (ds, planned, labels, carry, soloJobs)).1
          (soloLoop cfg day fuel (ds, planned, labels, carry, soloJobs)).2.1 t ∨
        InvB cfg day (soloLoop cfg day fuel
          (ds, planned, labels, carry, soloJobs)).1
          (soloLoop cfg day fuel
            (ds, planned, labels, carry, soloJobs)).2.1 t) := by
  intro fuel
  induction fuel with
  | zero =>
    intro ds planned labels carry soloJobs h1 h2 h3 h4 h5
    exact ⟨h3, h4, h1, h2, h5⟩
  | succ fuel ih =>
    intro ds planned labels carry soloJobs h1 h2 h3 h4 h5
    have hred : soloLoop cfg day (fuel + 1)
        (ds, planned, labels, carry, soloJobs) =
        if soloJobs.isEmpty then (ds, planned, labels, carry, soloJobs)
        else
          if (soloSweep cfg day cfg.techNames
              (ds, planned, labels, carry, soloJobs, false)).2.2.2.2.2 then
            soloLoop cfg day fuel
              ((soloSweep cfg day cfg.techNames
                 (ds, planned, labels, carry, soloJobs, false)).1,
               (soloSweep cfg day cfg.techNames
                 (ds, planned, labels, carry, soloJobs, false)).2.1,
               (soloSweep cfg day cfg.techNames
                 (ds, planned, labels, carry, soloJobs, false)).2.2.1,
               (soloSweep cfg day cfg.techNames
                 (ds, planned, labels, carry, soloJobs, false)).2.2.2.1,
               (soloSweep cfg day cfg.techNames
                 (ds, planned, labels, carry, soloJobs, false)).2.2.2.2.1)
          else
            ((soloSweep cfg day cfg.techNames
               (ds, planned, labels, carry, soloJobs, false)).1,
             (soloSweep cfg day cfg.techNames
               (ds, planned, labels, carry, soloJobs, false)).2.1,
             (soloSweep cfg day cfg.techNames
               (ds, planned, labels, carry, soloJobs, false)).2.2.1,
             (soloSweep cfg day cfg.techNames
               (ds, planned, labels, carry, soloJobs, false)).2.2.2.1,
             (soloSweep cfg day cfg.techNames
               (ds, planned, labels, carry, soloJobs, false)).2.2.2.2.1) := rfl
    rw [hred]
    obtain ⟨g1, g2, g3, g4, g5⟩ := soloSweep_C1 cfg day rest hbuf hpool
      cfg.techNames ds planned labels carry soloJobs false h1 h2 h3 h4 h5
    split
    · exact ⟨h3, h4, h1, h2, h5⟩
    · split
      · exact ih _ _ _ _ _ g3 g4 g1 g2 g5
      · exact ⟨g1, g2, g3, g4, g5⟩

/-- The return-home pass preserves the day invariant. -/
theorem returnHomeSweep_C1 (cfg : Cfg) (day : String) (rest : List String) :
    ∀ (ts : List String) (ds : DayState) (planned : List Row),
      OthersFinal cfg day planned → DatesOk day rest planned →
      (∀ t, InvA cfg day ds planned t ∨ InvB cfg day ds planned t) →
      OthersFinal cfg day (returnHomeSweep cfg day ts (ds, planned)).2 ∧
      DatesOk day rest (returnHomeSweep cfg day ts (ds, planned)).2 ∧
      (∀ t, InvA cfg day (returnHomeSweep cfg day ts (ds, planned)).1
          (returnHomeSweep cfg day ts (ds, planned)).2 t ∨
        InvB cfg day (returnHomeSweep cfg day ts (ds, planned)).1
          (returnHomeSweep cfg day ts (ds, planned)).2 t) := by
  intro ts
  induction ts with
  | nil => intro ds planned h1 h2 h3; exact ⟨h1, h2, h3⟩
  | cons t0 ts ih =>
    intro ds planned h1 h2 h3
    have hred : returnHomeSweep cfg day (t0 :: ts) (ds, planned) =
        if 0 < ds.jobsCount t0 then
          returnHomeSweep cfg day ts
            ({ ds with used := fupd ds.used t0 (ds.used t0 + (cfg.travel (ds.curLoc t0) (cfg.homeMap t0) : Int)), curLoc := fupd ds.curLoc t0 (cfg.homeMap t0) },
             planned ++ [{ date := day, technicien := t0, sequence := ds.jobsCount t0 + 1, job_id := "RETURN_HOME", cust := "", duo := "", ot := "", debut := mm_to_hhmm (ds.used t0), fin := mm_to_hhmm (ds.used t0 + (cfg.travel (ds.curLoc t0) (cfg.homeMap t0) : Int)), adresse := cfg.homeMap t0, travel_min := (cfg.travel (ds.curLoc t0) (cfg.homeMap t0) : Int), job_min := 0, buffer_min := 0, techs_needed := 1, description := "🏠 Retour domicile (estimé)" }])
        else returnHomeSweep cfg day ts (ds, planned) := rfl
    rw [hred]
    split
    · refine ih _ _ (othersFinal_append cfg day _ _ (Or.inr rfl) h1)
        (datesOk_append day rest _ _ (Or.inr rfl) h2) ?_
      intro t
      rcases h3 t with hA | hB
      · left
        refine invA_step_skip cfg day ds _ planned _ t hA
          (fun hc => hc.2.2 rfl) ?_ hA.2.2.2.1 (fun hc => hc)
        by_cases ht : t = t0
        · subst ht
          show ds.used t ≤ fupd ds.used t (ds.used t +
            (cfg.travel (ds.curLoc t) (cfg.homeMap t) : Int)) t
          rw [fupd_same]
          have : (0 : Int) ≤ (cfg.travel (ds.curLoc t) (cfg.homeMap t) : Int) :=
            Int.natCast_nonneg _
          omega
        · show ds.used t ≤ fupd ds.used t0 (ds.used t0 +
            (cfg.travel (ds.curLoc t0) (cfg.homeMap t0) : Int)) t
          rw [fupd_other _ _ _ _ ht]
      · right
        exact invB_step_skip cfg day ds _ planned _ t hB
          (fun hc => hc.2.2 rfl) rfl
    · exact ih _ _ h1 h2 h3

/-- At the end of the day every technician's current-day group is final. -/
theorem techInv_final (cfg : Cfg) (day : String) (ds : DayState)
    (planned : List Row) (t : String)
    (h : InvA cfg day ds planned t ∨ InvB cfg day ds planned t) :
    GroupFinal cfg (dayRows planned day t) := by
  rcases h with ⟨h1, h2, h3, -, -⟩ | ⟨h1, h2, h3, -⟩
  · exact Or.inl ⟨h1, h3⟩
  · exact Or.inr ⟨h1, h2, h3⟩

/-- One scheduled day preserves the month-level budget invariant. -/
theorem runDay_C1 (cfg : Cfg) (day : String) (rest : List String)
    (hbuf : 0 ≤ cfg.bufferJob) (hrank : ∀ f, (cfg.rankTechs f).Nodup)
    (hpool : ∀ rem tt, ∀ x ∈ cfg.jobPool rem tt, x ∈ rem)
    (hav : 0 ≤ cfg.available) (hday : day ∉ rest) (ms : MonthState)
    (hall : ∀ d t, GroupFinal cfg (dayRows ms.planned d t))
    (hdates : ∀ r ∈ ms.planned, r.job_id = "RETURN_HOME" ∨
      r.date ∉ day :: rest)
    (hlab : LabelsInv ms.planned ms.labels)
    (hduo : PoolPos ms.duoJobs) (hsolo : PoolPos ms.soloJobs) :
    (∀ d t, GroupFinal cfg (dayRows (runDay cfg ms day).planned d t)) ∧
    (∀ r ∈ (runDay cfg ms day).planned, r.job_id = "RETURN_HOME" ∨
      r.date ∉ rest) ∧
    LabelsInv (runDay cfg ms day).planned (runDay cfg ms day).labels ∧
    PoolPos (runDay cfg ms day).duoJobs ∧
    PoolPos (runDay cfg ms day).soloJobs := by
  have ho0 : OthersFinal cfg day ms.planned := fun d t _ => hall d t
  have hdk0 : DatesOk day rest ms.planned := by
    intro r hr
    rcases hdates r hr with h | h
    · exact Or.inl h
    · exact Or.inr (Or.inr h)
  have hempty : ∀ t, dayRows ms.planned day t = [] := by
    intro t
    refine List.eq_nil_iff_forall_not_mem.mpr ?_
    intro r hr
    have hm := List.mem_of_mem_filter hr
    have hp := (List.mem_filter.mp hr).2
    simp only [Bool.and_eq_true, beq_iff_eq, Bool.not_eq_true',
      beq_eq_false_iff_ne] at hp
    rcases hdates r hm with h | h
    · exact hp.2 h
    · exact h (by rw [← hp.1.1]; exact List.mem_cons_self _ _)
  have hAB0 : ∀ t, InvA cfg day { used := fun _ => 0, curLoc := cfg.homeMap, jobsCount := fun _ => 0, lock := fun _ => false } ms.planned t ∨
      InvB cfg day { used := fun _ => 0, curLoc := cfg.homeMap, jobsCount := fun _ => 0, lock := fun _ => false } ms.planned t := by
    intro t
    left
    refine ⟨?_, ?_, ?_, le_refl 0, fun _ => hempty t⟩
    · intro r hr
      rw [hempty t] at hr
      cases hr
    · show rowSum ms.planned day t ≤ 0
      unfold rowSum
      rw [hempty t]
      exact le_refl 0
    · show rowSum ms.planned day t ≤ cfg.available
      unfold rowSum
      rw [hempty t]
      exact hav
  obtain ⟨c1, c2, c3, c4⟩ := carrySweep_C1 cfg day rest cfg.techNames
    { used := fun _ => 0, curLoc := cfg.homeMap, jobsCount := fun _ => 0, lock := fun _ => false } ms.planned ms.labels ms.carry hlab ho0 hdk0 (fun t => (hAB0 t).elim
      (fun h => h) (fun h => absurd h.2.2.2 (by simp)))
  have hABc : ∀ t, InvA cfg day (carrySweep cfg day cfg.techNames ({ used := fun _ => 0, curLoc := cfg.homeMap, jobsCount := fun _ => 0, lock := fun _ => false }, ms.planned, ms.labels, ms.carry)).1 (carrySweep cfg day cfg.techNames ({ used := fun _ => 0, curLoc := cfg.homeMap, jobsCount := fun _ => 0, lock := fun _ => false }, ms.planned, ms.labels, ms.carry)).2.1 t ∨
      InvB cfg day (carrySweep cfg day cfg.techNames ({ used := fun _ => 0, curLoc := cfg.homeMap, jobsCount := fun _ => 0, lock := fun _ => false }, ms.planned, ms.labels, ms.carry)).1 (carrySweep cfg day cfg.techNames ({ used := fun _ => 0, curLoc := cfg.homeMap, jobsCount := fun _ => 0, lock := fun _ => false }, ms.planned, ms.labels, ms.carry)).2.1 t := fun t => Or.inl (c4 t)
  unfold runDay
  dsimp only
  split
  · -- solo pass active
    split
    · -- duo pass also active
      obtain ⟨d1, d2, d3, d4, d5⟩ := duoLoop_C1 cfg day rest hbuf hrank
        (carrySweep cfg day cfg.techNames ({ used := fun _ => 0, curLoc := cfg.homeMap, jobsCount := fun _ => 0, lock := fun _ => false }, ms.planned, ms.labels, ms.carry)).2.2.1 (ms.duoJobs.length + 1) (carrySweep cfg day cfg.techNames ({ used := fun _ => 0, curLoc := cfg.homeMap, jobsCount := fun _ => 0, lock := fun _ => false }, ms.planned, ms.labels, ms.carry)).1 (carrySweep cfg day cfg.techNames ({ used := fun _ => 0, curLoc := cfg.homeMap, jobsCount := fun _ => 0, lock := fun _ => false }, ms.planned, ms.labels, ms.carry)).2.1 ms.duoJobs
        c3 hduo c1 c2 hABc
      obtain ⟨s1, s2, s3, s4, s5⟩ := soloLoop_C1 cfg day rest hbuf hpool
        (ms.soloJobs.length + 1) (duoLoop cfg day (ms.duoJobs.length + 1) (carrySweep cfg day cfg.techNames ({ used := fun _ => 0, curLoc := cfg.homeMap, jobsCount := fun _ => 0, lock := fun _ => false }, ms.planned, ms.labels, ms.carry)).1 (carrySweep cfg day cfg.techNames ({ used := fun _ => 0, curLoc := cfg.homeMap, jobsCount := fun _ => 0, lock := fun _ => false }, ms.planned, ms.labels, ms.carry)).2.1 ms.duoJobs).1 (duoLoop cfg day (ms.duoJobs.length + 1) (carrySweep cfg day cfg.techNames ({ used := fun _ => 0, curLoc := cfg.homeMap, jobsCount := fun _ => 0, lock := fun _ => false }, ms.planned, ms.labels, ms.carry)).1 (carrySweep cfg day cfg.techNames ({ used := fun _ => 0, curLoc := cfg.homeMap, jobsCount := fun _ => 0, lock := fun _ => false }, ms.planned, ms.labels, ms.carry)).2.1 ms.duoJobs).2.1 (carrySweep cfg day cfg.techNames ({ used := fun _ => 0, curLoc := cfg.homeMap, jobsCount := fun _ => 0, lock := fun _ => false }, ms.planned, ms.labels, ms.carry)).2.2.1 (carrySweep cfg day cfg.techNames ({ used := fun _ => 0, curLoc := cfg.homeMap, jobsCount := fun _ => 0, lock := fun _ => false }, ms.planned, ms.labels, ms.carry)).2.2.2
        ms.soloJobs d3 hsolo d1 d2 d5
      obtain ⟨r1, r2, r3⟩ := returnHomeSweep_C1 cfg day rest cfg.techNames
        _ _ s1 s2 s5
      refine ⟨?_, ?_, returnHome_labels cfg day _ _ _ s3, d4, s4⟩
      · intro d t
        by_cases hd : d = day
        · subst hd
          exact techInv_final cfg d _ _ t (r3 t)
        · exact r1 d t hd
      · intro r hr
        rcases r2 r hr with h | h | h
        · exact Or.inl h
        · right; rw [h]; exact hday
        · right; exact fun hc => h (List.mem_cons_of_mem _ hc)
    · -- duo pass skipped
      obtain ⟨s1, s2, s3, s4, s5⟩ := soloLoop_C1 cfg day rest hbuf hpool
        (ms.soloJobs.length + 1) (carrySweep cfg day cfg.techNames ({ used := fun _ => 0, curLoc := cfg.homeMap, jobsCount := fun _ => 0, lock := fun _ => false }, ms.planned, ms.labels, ms.carry)).1 (carrySweep cfg day cfg.techNames ({ used := fun _ => 0, curLoc := cfg.homeMap, jobsCount := fun _ => 0, lock := fun _ => false }, ms.planned, ms.labels, ms.carry)).2.1 (carrySweep cfg day cfg.techNames ({ used := fun _ => 0, curLoc := cfg.homeMap, jobsCount := fun _ => 0, lock := fun _ => false }, ms.planned, ms.labels, ms.carry)).2.2.1 (carrySweep cfg day cfg.techNames ({ used := fun _ => 0, curLoc := cfg.homeMap, jobsCount := fun _ => 0, lock := fun _ => false }, ms.planned, ms.labels, ms.carry)).2.2.2
        ms.soloJobs c3 hsolo c1 c2 hABc
      obtain ⟨r1, r2, r3⟩ := returnHomeSweep_C1 cfg day rest cfg.techNames
        _ _ s1 s2 s5
      refine ⟨?_, ?_, returnHome_labels cfg day _ _ _ s3, hduo, s4⟩
      · intro d t
        by_cases hd : d = day
        · subst hd
          exact techInv_final cfg d _ _ t (r3 t)
        · exact r1 d t hd
      · intro r hr
        rcases r2 r hr with h | h | h
        · exact Or.inl h
        · right; rw [h]; exact hday
        · right; exact fun hc => h (List.mem_cons_of_mem _ hc)
  · -- solo pass skipped
    split
    · -- duo pass active
      obtain ⟨d1, d2, d3, d4, d5⟩ := duoLoop_C1 cfg day rest hbuf hrank
        (carrySweep cfg day cfg.techNames ({ used := fun _ => 0, curLoc := cfg.homeMap, jobsCount := fun _ => 0, lock := fun _ => false }, ms.planned, ms.labels, ms.carry)).2.2.1 (ms.duoJobs.length + 1) (carrySweep cfg day cfg.techNames ({ used := fun _ => 0, curLoc := cfg.homeMap, jobsCount := fun _ => 0, lock := fun _ => false }, ms.planned, ms.labels, ms.carry)).1 (carrySweep cfg day cfg.techNames ({ used := fun _ => 0, curLoc := cfg.homeMap, jobsCount := fun _ => 0, lock := fun _ => false }, ms.planned, ms.labels, ms.carry)).2.1 ms.duoJobs
        c3 hduo c1 c2 hABc
      obtain ⟨r1, r2, r3⟩ := returnHomeSweep_C1 cfg day rest cfg.techNames
        _ _ d1 d2 d5
      refine ⟨?_, ?_, returnHome_labels cfg day _ _ _ d3, d4, hsolo⟩
      · intro d t
        by_cases hd : d = day
        · subst hd
          exact techInv_final cfg d _ _ t (r3 t)
        · exact r1 d t hd
      · intro r hr
        rcases r2 r hr with h | h | h
        · exact Or.inl h
        · right; rw [h]; exact hday
        · right; exact fun hc => h (List.mem_cons_of_mem _ hc)
    · -- both skipped
      obtain ⟨r1, r2, r3⟩ := returnHomeSweep_C1 cfg day rest cfg.techNames
        _ _ c1 c2 hABc
      refine ⟨?_, ?_, returnHome_labels cfg day _ _ _ c3, hduo, hsolo⟩
      · intro d t
        by_cases hd : d = day
        · subst hd
          exact techInv_final cfg d _ _ t (r3 t)
        · exact r1 d t hd
      · intro r hr
        rcases r2 r hr with h | h | h
        · exact Or.inl h
        · right; rw [h]; exact hday
        · right; exact fun hc => h (List.mem_cons_of_mem _ hc)

/-- The month fold keeps every technician/day group final. -/
theorem foldDays_C1 (cfg : Cfg)
    (hbuf : 0 ≤ cfg.bufferJob) (hrank : ∀ f, (cfg.rankTechs f).Nodup)
    (hpool : ∀ rem tt, ∀ x ∈ cfg.jobPool rem tt, x ∈ rem)
    (hav : 0 ≤ cfg.available) :
    ∀ (days : List String) (ms : MonthState), days.Nodup →
      (∀ d t, GroupFinal cfg (dayRows ms.planned d t)) →
      (∀ r ∈ ms.planned, r.job_id = "RETURN_HOME" ∨ r.date ∉ days) →
      LabelsInv ms.planned ms.labels →
      PoolPos ms.duoJobs → PoolPos ms.soloJobs →
      ∀ d t, GroupFinal cfg (dayRows (days.foldl (runDay cfg) ms).planned d t) := by
  intro days
  induction days with
  | nil => intro ms _ hall _ _ _ _; exact hall
  | cons day days ih =>
    intro ms hnd hall hdates hlab hduo hsolo
    obtain ⟨hday, hnd2⟩ := List.nodup_cons.mp hnd
    obtain ⟨g1, g2, g3, g4, g5⟩ := runDay_C1 cfg day days hbuf hrank hpool hav
      hday ms hall hdates hlab hduo hsolo
    exact ih (runDay cfg ms day) hnd2 g1 g2 g3 g4 g5

/-! ## C1: the daily time budget -/

/-- **C1.**  For every run of the monthly scheduler, every technician and
every date with at least one visit row, the total `travel_min + job_min +
buffer_min` of that technician's rows of that date (the synthetic
`RETURN_HOME` rows excluded) fits the daily budget, except for a day that is
a single OT-flagged visit fitting the extended overtime ceiling.  (Stated
under the app's standing guarantees: non-negative buffer, duplicate-free
ranked-technician lists, a prefilter that only narrows the pool, positive
job durations, and duplicate-free business days.) -/
theorem C1_daily_budget (cfg : Cfg) (jobs_in : List Job)
    (month_days : List String)
    (hbuf : 0 ≤ cfg.bufferJob)
    (hrank : ∀ f, (cfg.rankTechs f).Nodup)
    (hpool : ∀ rem tt, ∀ x ∈ cfg.jobPool rem tt, x ∈ rem)
    (hjobs : ∀ j ∈ jobs_in, 0 < j.job_minutes)
    (hdays : month_days.Nodup) (d t : String)
    (hne : dayRows (schedule_month_with_duo cfg jobs_in month_days).rows d t ≠
      []) :
    rowSum (schedule_month_with_duo cfg jobs_in month_days).rows d t ≤
      cfg.available ∨
    ((dayRows (schedule_month_with_duo cfg jobs_in month_days).rows d
        t).length = 1 ∧
      (∀ r ∈ dayRows (schedule_month_with_duo cfg jobs_in month_days).rows d t,
        r.ot = "🟥 OT") ∧
      rowSum (schedule_month_with_duo cfg jobs_in month_days).rows d t ≤
        cfg.otCap) := by
  unfold schedule_month_with_duo at hne ⊢
  by_cases hav : cfg.available ≤ 0
  · rw [if_pos hav] at hne
    exact absurd rfl hne
  · rw [if_neg hav]
    dsimp only
    have hduo0 : PoolPos (if cfg.allowDuo then
        jobs_in.filter (fun j => j.techs_needed == 2) else []) := by
      intro j hj
      by_cases had : cfg.allowDuo = true
      · rw [if_pos had] at hj
        exact hjobs j (List.mem_of_mem_filter hj)
      · rw [if_neg had] at hj
        cases hj
    have hsolo0 : PoolPos (jobs_in.filter (fun j => j.techs_needed ≤ 1)) :=
      fun j hj => hjobs j (List.mem_of_mem_filter hj)
    have hfin := foldDays_C1 cfg hbuf hrank hpool (by omega) month_days
      { planned := [], labels := [], carry := [],
        duoJobs := if cfg.allowDuo then
          jobs_in.filter (fun j => j.techs_needed == 2) else [],
        soloJobs := jobs_in.filter (fun j => j.techs_needed ≤ 1) }
      hdays
      (fun d2 t2 => Or.inl ⟨fun r hr => absurd hr (List.not_mem_nil r), by
        have h0 : dayRows ([] : List Row) d2 t2 = [] := rfl
        show ((dayRows ([] : List Row) d2 t2).map rowCost).sum ≤ cfg.available
        rw [h0]
        simp
        omega⟩)
      (fun r hr => absurd hr (List.not_mem_nil r))
      (fun e he => absurd he (List.not_mem_nil e))
      hduo0 hsolo0
    rcases hfin d t with ⟨-, hs⟩ | ⟨hl, hq, hs⟩
    · exact Or.inl hs
    · exact Or.inr ⟨hl, fun r hr => (hq r hr).1, hs⟩

/-- Witness for C1 on a small bookable run. -/
theorem C1_daily_budget_witness :
    (dayRows (schedule_month_with_duo demoCfg [demoJob "J1" 60 1]
      ["D1"]).rows "D1" "T1" ≠ []) ∧
    (rowSum (schedule_month_with_duo demoCfg [demoJob "J1" 60 1]
        ["D1"]).rows "D1" "T1" ≤ demoCfg.available ∨
      ((dayRows (schedule_month_with_duo demoCfg [demoJob "J1" 60 1]
          ["D1"]).rows "D1" "T1").length = 1 ∧
        (∀ r ∈ dayRows (schedule_month_with_duo demoCfg [demoJob "J1" 60 1]
          ["D1"]).rows "D1" "T1", r.ot = "🟥 OT") ∧
        rowSum (schedule_month_with_duo demoCfg [demoJob "J1" 60 1]
          ["D1"]).rows "D1" "T1" ≤ demoCfg.otCap)) :=
  ⟨by decide,
    C1_daily_budget demoCfg [demoJob "J1" 60 1] ["D1"] (by decide)
      (fun f => (by decide : (["T1", "T2"] : List String).Nodup))
      (fun rem tt x hx => hx)
      (fun j hj => by
        rcases List.mem_singleton.mp hj with rfl
        decide)
      (by decide) "D1" "T1" (by decide)⟩

/-! ## C7: the solo overtime exception -/

/-- A 9-hour day with a one-hour lunch: budget 420 min, OT ceiling 780 min. -/
def demoCfgC7 : Cfg := { demoCfg with dayMin := 480, lunchMin := 60 }

/-- The OT row the scheduler books for a 10-hour job under `demoCfgC7`. -/
def c7OTRow : Row :=
  { date := "D1", technicien := "T1", sequence := 1, job_id := "J7",
    cust := "", duo := "", ot := "🟥 OT", debut := "00:30", fin := "10:30",
    adresse := "addr-J7", travel_min := 30, job_min := 600, buffer_min := 0,
    techs_needed := 1, description := "" }

/-- **C7, counterexample.**  The claimed "overage under 3 hours" guard does
not exist in the solo OT branch: a 600-minute job is booked as an OT visit
whose cost exceeds the 420-minute budget by 210 minutes (3.5 h). -/
theorem C7_solo_overtime_counterexample :
    dayRows (schedule_month_with_duo demoCfgC7 [demoJob "J7" 600 1]
      ["D1"]).rows "D1" "T1" = [c7OTRow] ∧
    c7OTRow.ot = "🟥 OT" ∧
    demoCfgC7.available + 180 ≤ rowCost c7OTRow ∧
    rowCost c7OTRow ≤ demoCfgC7.otCap := by
  refine ⟨by decide, rfl, by decide, by decide⟩

/-- **C7, amended.**  In every run of the monthly scheduler, an OT-flagged
visit row is its technician's only visit of that date: it carries the OT flag
`🟥 OT`, its sequence number is 1 (the technician had no earlier job that
day), and its cost fits the extended ceiling — but the code puts no bound on
how far the overage may exceed the normal cap (no "under 3 hours" check;
see the counterexample).  (Same standing guarantees as C1.) -/
theorem C7_solo_overtime (cfg : Cfg) (jobs_in : List Job)
    (month_days : List String)
    (hbuf : 0 ≤ cfg.bufferJob)
    (hrank : ∀ f, (cfg.rankTechs f).Nodup)
    (hpool : ∀ rem tt, ∀ x ∈ cfg.jobPool rem tt, x ∈ rem)
    (hjobs : ∀ j ∈ jobs_in, 0 < j.job_minutes)
    (hdays : month_days.Nodup) (d t : String) (r : Row)
    (hr : r ∈ dayRows (schedule_month_with_duo cfg jobs_in month_days).rows
      d t)
    (hot : r.ot ≠ "") :
    dayRows (schedule_month_with_duo cfg jobs_in month_days).rows d t = [r] ∧
    r.ot = "🟥 OT" ∧ r.sequence = 1 ∧ rowCost r ≤ cfg.otCap := by
  unfold schedule_month_with_duo at hr ⊢
  by_cases hav : cfg.available ≤ 0
  · rw [if_pos hav] at hr
    exact absurd hr (List.not_mem_nil r)
  · rw [if_neg hav] at hr ⊢
    dsimp only at hr ⊢
    have hduo0 : PoolPos (if cfg.allowDuo then
        jobs_in.filter (fun j => j.techs_needed == 2) else []) := by
      intro j hj
      by_cases had : cfg.allowDuo = true
      · rw [if_pos had] at hj
        exact hjobs j (List.mem_of_mem_filter hj)
      · rw [if_neg had] at hj
        cases hj
    have hsolo0 : PoolPos (jobs_in.filter (fun j => j.techs_needed ≤ 1)) :=
      fun j hj => hjobs j (List.mem_of_mem_filter hj)
    have hfin := foldDays_C1 cfg hbuf hrank hpool (by omega) month_days
      { planned := [], labels := [], carry := [],
        duoJobs := if cfg.allowDuo then
          jobs_in.filter (fun j => j.techs_needed == 2) else [],
        soloJobs := jobs_in.filter (fun j => j.techs_needed ≤ 1) }
      hdays
      (fun d2 t2 => Or.inl ⟨fun r2 hr2 => absurd hr2 (List.not_mem_nil r2), by
        have h0 : dayRows ([] : List Row) d2 t2 = [] := rfl
        show ((dayRows ([] : List Row) d2 t2).map rowCost).sum ≤ cfg.available
        rw [h0]
        simp
        omega⟩)
      (fun r2 hr2 => absurd hr2 (List.not_mem_nil r2))
      (fun e he => absurd he (List.not_mem_nil e))
      hduo0 hsolo0
    have hfin2 : ∀ d2 t2, GroupFinal cfg
        (dayRows (monthFold cfg jobs_in month_days).planned d2 t2) := hfin
    rcases hfin2 d t with ⟨hq, -⟩ | ⟨hl, hq, hs⟩
    · exact absurd (hq r hr) hot
    · obtain ⟨a, ha⟩ := List.length_eq_one.mp hl
      rw [ha] at hr
      rcases List.mem_singleton.mp hr with rfl
      refine ⟨ha, (hq r (by rw [ha]; exact List.mem_singleton.mpr rfl)).1,
        (hq r (by rw [ha]; exact List.mem_singleton.mpr rfl)).2, ?_⟩
      rw [ha] at hs
      simpa using hs

/-- Witness for C7 (amended) at the concrete OT booking of the
counterexample run. -/
theorem C7_solo_overtime_witness :
    dayRows (schedule_month_with_duo demoCfgC7 [demoJob "J7" 600 1]
      ["D1"]).rows "D1" "T1" = [c7OTRow] ∧
    c7OTRow.ot = "🟥 OT" ∧ c7OTRow.sequence = 1 ∧
    rowCost c7OTRow ≤ demoCfgC7.otCap :=
  C7_solo_overtime demoCfgC7 [demoJob "J7" 600 1] ["D1"] (by decide)
    (fun f => (by decide : (["T1", "T2"] : List String).Nodup))
    (fun rem tt x hx => hx)
    (fun j hj => by
      rcases List.mem_singleton.mp hj with rfl
      decide)
    (by decide) "D1" "T1" c7OTRow (by decide) (by decide)

/-- The split tail only filters the solo pool, keeping an id absent. -/
theorem soloSplitAttempt_poolPos2 (cfg : Cfg) (day t0 : String)
    (ds : DayState) (planned : List Row)
    (labels : List (String × Int × List Nat))
    (carry : List (String × SplitState)) (soloJobs sample : List Job)
    (s : String) (hsolo : PoolAvoids s soloJobs) :
    PoolAvoids s
      (soloSplitAttempt cfg day t0 ds planned labels carry soloJobs
        sample).2.2.2.2.1 := by
  unfold soloSplitAttempt
  cases hbl : soloBestLong cfg ds t0 carry sample with
  | none => exact hsolo
  | some q =>
    obtain ⟨job, tmin, isOT⟩ := q
    cases isOT with
    | true => exact poolAvoids_filter hsolo _
    | false => exact poolAvoids_filter hsolo _

/-! ### Tracking the rows of one job id (for C2) -/

theorem idRows_append_ne (rows : List Row) (row : Row) (s : String)
    (hid : row.job_id ≠ s) : idRows (rows ++ [row]) s = idRows rows s := by
  unfold idRows
  rw [List.filter_append]
  have : List.filter (fun r => r.job_id == s) [row] = [] := by
    simp [hid]
  rw [this, List.append_nil]

theorem idRows_append_eq (rows : List Row) (row : Row) (s : String)
    (hid : row.job_id = s) :
    idRows (rows ++ [row]) s = idRows rows s ++ [row] := by
  unfold idRows
  rw [List.filter_append]
  have : List.filter (fun r => r.job_id == s) [row] = [row] := by
    simp [hid]
  rw [this]

/-- One split-part booking never touches a non-label id's rows. -/
theorem bookSplitPart_idRows (cfg : Cfg) (day t : String) (ds : DayState)
    (planned : List Row) (labels : List (String × Int × List Nat))
    (ss : SplitState) (s : String) (hpart : ∀ b i n, s ≠ partLabel b i n)
    (hlab : LabelsInv planned labels) :
    idRows (bookSplitPart cfg day t ds planned labels ss).2.1 s =
      idRows planned s ∧
    LabelsInv (bookSplitPart cfg day t ds planned labels ss).2.1
      (bookSplitPart cfg day t ds planned labels ss).2.2.1 := by
  rcases bookSplitPart_spec cfg day t ds planned labels ss hlab with hno |
    ⟨onsite, row, -, -, -, -, -, -, ⟨b, i, n, hp⟩, -, -, hequiv, hlabi, -, -,
      -, -, -⟩
  · rw [hno]
    exact ⟨rfl, hlab⟩
  · refine ⟨?_, hlabi⟩
    rw [idRows_equiv hequiv s hpart,
      idRows_append_ne planned row s (by rw [hp]; exact (hpart b i n).symm)]

/-- The carryover pass never touches a non-label id's rows. -/
theorem carrySweep_idRows (cfg : Cfg) (day s : String)
    (hpart : ∀ b i n, s ≠ partLabel b i n) :
    ∀ (ts : List String) (ds : DayState) (planned : List Row)
      (labels : List (String × Int × List Nat))
      (carry : List (String × SplitState)),
      LabelsInv planned labels →
      idRows (carrySweep cfg day ts (ds, planned, labels, carry)).2.1 s =
        idRows planned s ∧
      LabelsInv (carrySweep cfg day ts (ds, planned, labels, carry)).2.1
        (carrySweep cfg day ts (ds, planned, labels, carry)).2.2.1 := by
  intro ts
  induction ts with
  | nil => intro ds planned labels carry hlab; exact ⟨rfl, hlab⟩
  | cons t ts ih =>
    intro ds planned labels carry hlab
    have hred : carrySweep cfg day (t :: ts) (ds, planned, labels, carry) =
        match alookup carry t with
        | none => carrySweep cfg day ts (ds, planned, labels, carry)
        | some ss =>
          carrySweep cfg day ts
            ((bookSplitPart cfg day t ds planned labels ss).1,
             (bookSplitPart cfg day t ds planned labels ss).2.1,
             (bookSplitPart cfg day t ds planned labels ss).2.2.1,
             if (bookSplitPart cfg day t ds planned labels ss).2.2.2.remaining_job_min ≤ 0
             then aerase (aset carry t
               (bookSplitPart cfg day t ds planned labels ss).2.2.2) t
             else aset carry t
               (bookSplitPart cfg day t ds planned labels ss).2.2.2) := rfl
    rw [hred]
    cases halk : alookup carry t with
    | none => exact ih ds planned labels carry hlab
    | some ss =>
      dsimp only
      obtain ⟨g1, g2⟩ :=
        bookSplitPart_idRows cfg day t ds planned labels ss s hpart hlab
      obtain ⟨h1, h2⟩ := ih _ _ _ _ g2
      exact ⟨h1.trans g1, h2⟩

/-- The split tail never touches the rows of an id absent from the sample. -/
theorem soloSplitAttempt_idRows (cfg : Cfg) (day t0 : String) (ds : DayState)
    (planned : List Row) (labels : List (String × Int × List Nat))
    (carry : List (String × SplitState)) (soloJobs sample : List Job)
    (s : String) (hpart : ∀ b i n, s ≠ partLabel b i n)
    (hlab : LabelsInv planned labels) (hsamp : PoolAvoids s sample) :
    idRows
      (soloSplitAttempt cfg day t0 ds planned labels carry soloJobs
        sample).2.1 s = idRows planned s ∧
    LabelsInv
      (soloSplitAttempt cfg day t0 ds planned labels carry soloJobs
        sample).2.1
      (soloSplitAttempt cfg day t0 ds planned labels carry soloJobs
        sample).2.2.1 := by
  unfold soloSplitAttempt
  cases hbl : soloBestLong cfg ds t0 carry sample with
  | none => exact ⟨rfl, hlab⟩
  | some q =>
    obtain ⟨job, tmin, isOT⟩ := q
    have hjid : job.job_id ≠ s :=
      hsamp job (soloBestLong_cases cfg ds t0 carry sample _ hbl).1
    cases isOT with
    | true =>
      dsimp only
      refine ⟨?_, ?_⟩
      · rw [(soloBookRow_spec cfg day t0 job
          (cfg.travel (ds.curLoc t0) job.address : Int) "" ds planned).1]
        exact idRows_append_ne planned _ s hjid
      · rw [(soloBookRow_spec cfg day t0 job
          (cfg.travel (ds.curLoc t0) job.address : Int) "" ds planned).1]
        exact labelsInv_append hlab _
    | false =>
      dsimp only
      exact bookSplitPart_idRows cfg day t0 ds planned labels _ s hpart hlab

/-- One solo turn never touches the rows of an id absent from the pool. -/
theorem soloTechStep_idRows (cfg : Cfg) (day t0 : String) (ds : DayState)
    (planned : List Row) (labels : List (String × Int × List Nat))
    (carry : List (String × SplitState)) (soloJobs : List Job)
    (s : String) (hpart : ∀ b i n, s ≠ partLabel b i n)
    (hpool : ∀ rem tt, ∀ x ∈ cfg.jobPool rem tt, x ∈ rem)
    (hlab : LabelsInv planned labels) (hsolo : PoolAvoids s soloJobs) :
    idRows (soloTechStep cfg day t0 ds planned labels carry soloJobs).2.1 s =
      idRows planned s ∧
    LabelsInv (soloTechStep cfg day t0 ds planned labels carry soloJobs).2.1
      (soloTechStep cfg day t0 ds planned labels carry soloJobs).2.2.1 ∧
    PoolAvoids s
      (soloTechStep cfg day t0 ds planned labels carry soloJobs).2.2.2.2.1 := by
  have hsamp : PoolAvoids s (cfg.jobPool soloJobs t0) :=
    fun x hx => hsolo x (hpool soloJobs t0 x hx)
  unfold soloTechStep
  split
  · exact ⟨rfl, hlab, hsolo⟩
  · split
    · exact ⟨rfl, hlab, hsolo⟩
    · dsimp only
      cases hbn : soloBestNormal cfg ds t0 (cfg.jobPool soloJobs t0) with
      | some p =>
        obtain ⟨job, tmin⟩ := p
        dsimp only
        have hjid : job.job_id ≠ s :=
          hsamp job (soloBestNormal_cases cfg ds t0 _ _ hbn).1
        refine ⟨?_, ?_, poolAvoids_filter hsolo _⟩
        · rw [(soloBookRow_spec cfg day t0 job tmin "" ds planned).1]
          exact idRows_append_ne planned _ s hjid
        · rw [(soloBookRow_spec cfg day t0 job tmin "" ds planned).1]
          exact labelsInv_append hlab _
      | none =>
        dsimp only
        split
        · cases hbo : soloBestOT cfg ds t0 (cfg.jobPool soloJobs t0) with
          | some p =>
            obtain ⟨job, tmin⟩ := p
            dsimp only
            have hjid : job.job_id ≠ s :=
              hsamp job (soloBestOT_cases cfg ds t0 _ _ hbo).1
            refine ⟨?_, ?_, poolAvoids_filter hsolo _⟩
            · rw [(soloBookRow_spec cfg day t0 job tmin "🟥 OT" ds planned).1]
              exact idRows_append_ne planned _ s hjid
            · rw [(soloBookRow_spec cfg day t0 job tmin "🟥 OT" ds planned).1]
              exact labelsInv_append hlab _
          | none =>
            obtain ⟨h1, h2⟩ := soloSplitAttempt_idRows cfg day t0 ds planned
              labels carry soloJobs _ s hpart hlab hsamp
            exact ⟨h1, h2, soloSplitAttempt_poolPos2 cfg day t0 ds planned
              labels carry soloJobs _ s hsolo⟩
        · obtain ⟨h1, h2⟩ := soloSplitAttempt_idRows cfg day t0 ds planned
            labels carry soloJobs _ s hpart hlab hsamp
          exact ⟨h1, h2, soloSplitAttempt_poolPos2 cfg day t0 ds planned
            labels carry soloJobs _ s hsolo⟩

/-- The solo sweep never touches the rows of an id absent from the pool. -/
theorem soloSweep_idRows (cfg : Cfg) (day s : String)
    (hpart : ∀ b i n, s ≠ partLabel b i n)
    (hpool : ∀ rem tt, ∀ x ∈ cfg.jobPool rem tt, x ∈ rem) :
    ∀ (ts : List String) (ds : DayState) (planned : List Row)
      (labels : List (String × Int × List Nat))
      (carry : List (String × SplitState)) (soloJobs : List Job)
      (progress : Bool),
      LabelsInv planned labels → PoolAvoids s soloJobs →
      idRows (soloSweep cfg day ts
        (ds, planned, labels, carry, soloJobs, progress)).2.1 s =
        idRows planned s ∧
      LabelsInv (soloSweep cfg day ts
          (ds, planned, labels, carry, soloJobs, progress)).2.1
        (soloSweep cfg day ts
          (ds, planned, labels, carry, soloJobs, progress)).2.2.1 ∧
      PoolAvoids s (soloSweep cfg day ts
        (ds, planned, labels, carry, soloJobs, progress)).2.2.2.2.1 := by
  intro ts
  induction ts with
  | nil =>
    intro ds planned labels carry soloJobs progress h1 h2
    exact ⟨rfl, h1, h2⟩
  | cons t ts ih =>
    intro ds planned labels carry soloJobs progress h1 h2
    have hred : soloSweep cfg day (t :: ts)
        (ds, planned, labels, carry, soloJobs, progress) =
        if soloJobs.isEmpty then (ds, planned, labels, carry, soloJobs, progress)
        else
          soloSweep cfg day ts
            ((soloTechStep cfg day t ds planned labels carry soloJobs).1,
             (soloTechStep cfg day t ds planned labels carry soloJobs).2.1,
             (soloTechStep cfg day t ds planned labels carry soloJobs).2.2.1,
             (soloTechStep cfg day t ds planned labels carry soloJobs).2.2.2.1,
             (soloTechStep cfg day t ds planned labels carry
               soloJobs).2.2.2.2.1,
             progress || (soloTechStep cfg day t ds planned labels carry
               soloJobs).2.2.2.2.2) := rfl
    rw [hred]
    split
    · exact ⟨rfl, h1, h2⟩
    · obtain ⟨g1, g2, g3⟩ := soloTechStep_idRows cfg day t ds planned labels
        carry soloJobs s hpart hpool h1 h2
      obtain ⟨k1, k2, k3⟩ := ih _ _ _ _ _ _ g2 g3
      exact ⟨k1.trans g1, k2, k3⟩

/-- The solo loop never touches the rows of an id absent from the pool. -/
theorem soloLoop_idRows (cfg : Cfg) (day s : String)
    (hpart : ∀ b i n, s ≠ partLabel b i n)
    (hpool : ∀ rem tt, ∀ x ∈ cfg.jobPool rem tt, x ∈ rem) :
    ∀ (fuel : Nat) (ds : DayState) (planned : List Row)
      (labels : List (String × Int × List Nat))
      (carry : List (String × SplitState)) (soloJobs : List Job),
      LabelsInv planned labels → PoolAvoids s soloJobs →
      idRows (soloLoop cfg day fuel
        (ds, planned, labels, carry, soloJobs)).2.1 s = idRows planned s ∧
      LabelsInv (soloLoop cfg day fuel
          (ds, planned, labels, carry, soloJobs)).2.1
        (soloLoop cfg day fuel (ds, planned, labels, carry, soloJobs)).2.2.1 ∧
      PoolAvoids s (soloLoop cfg day fuel
        (ds, planned, labels, carry, soloJobs)).2.2.2.2 := by
  intro fuel
  induction fuel with
  | zero =>
    intro ds planned labels carry soloJobs h1 h2
    exact ⟨rfl, h1, h2⟩
  | succ fuel ih =>
    intro ds planned labels carry soloJobs h1 h2
    have hred : soloLoop cfg day (fuel + 1)
        (ds, planned, labels, carry, soloJobs) =
        if soloJobs.isEmpty then (ds, planned, labels, carry, soloJobs)
        else
          if (soloSweep cfg day cfg.techNames
              (ds, planned, labels, carry, soloJobs, false)).2.2.2.2.2 then
            soloLoop cfg day fuel
              ((soloSweep cfg day cfg.techNames
                 (ds, planned, labels, carry, soloJobs, false)).1,
               (soloSweep cfg day cfg.techNames
                 (ds, planned, labels, carry, soloJobs, false)).2.1,
               (soloSweep cfg day cfg.techNames
                 (ds, planned, labels, carry, soloJobs, false)).2.2.1,
               (soloSweep cfg day cfg.techNames
                 (ds, planned, labels, carry, soloJobs, false)).2.2.2.1,
               (soloSweep cfg day cfg.techNames
                 (ds, planned, labels, carry, soloJobs, false)).2.2.2.2.1)
          else
            ((soloSweep cfg day cfg.techNames
               (ds, planned, labels, carry, soloJobs, false)).1,
             (soloSweep cfg day cfg.techNames
               (ds, planned, labels, carry, soloJobs, false)).2.1,
             (soloSweep cfg day cfg.techNames
               (ds, planned, labels, carry, soloJobs, false)).2.2.1,
             (soloSweep cfg day cfg.techNames
               (ds, planned, labels, carry, soloJobs, false)).2.2.2.1,
             (soloSweep cfg day cfg.techNames
               (ds, planned, labels, carry, soloJobs, false)).2.2.2.2.1) := rfl
    rw [hred]
    obtain ⟨g1, g2, g3⟩ := soloSweep_idRows cfg day s hpart hpool
      cfg.techNames ds planned labels carry soloJobs false h1 h2
    split
    · exact ⟨rfl, h1, h2⟩
    · split
      · obtain ⟨k1, k2, k3⟩ := ih _ _ _ _ _ g2 g3
        exact ⟨k1.trans g1, k2, k3⟩
      · exact ⟨g1, g2, g3⟩

/-- The return-home pass never touches a real job id's rows. -/
theorem returnHome_idRows (cfg : Cfg) (day s : String)
    (hret : s ≠ "RETURN_HOME") :
    ∀ (ts : List String) (ds : DayState) (planned : List Row),
      idRows (returnHomeSweep cfg day ts (ds, planned)).2 s =
        idRows planned s := by
  intro ts
  induction ts with
  | nil => intro ds planned; rfl
  | cons t0 ts ih =>
    intro ds planned
    have hred : returnHomeSweep cfg day (t0 :: ts) (ds, planned) =
        if 0 < ds.jobsCount t0 then
          returnHomeSweep cfg day ts
            ({ ds with used := fupd ds.used t0 (ds.used t0 + (cfg.travel (ds.curLoc t0) (cfg.homeMap t0) : Int)), curLoc := fupd ds.curLoc t0 (cfg.homeMap t0) },
             planned ++ [{ date := day, technicien := t0, sequence := ds.jobsCount t0 + 1, job_id := "RETURN_HOME", cust := "", duo := "", ot := "", debut := mm_to_hhmm (ds.used t0), fin := mm_to_hhmm (ds.used t0 + (cfg.travel (ds.curLoc t0) (cfg.homeMap t0) : Int)), adresse := cfg.homeMap t0, travel_min := (cfg.travel (ds.curLoc t0) (cfg.homeMap t0) : Int), job_min := 0, buffer_min := 0, techs_needed := 1, description := "🏠 Retour domicile (estimé)" }])
        else returnHomeSweep cfg day ts (ds, planned) := rfl
    rw [hred]
    split
    · rw [ih]
      exact idRows_append_ne planned _ s (fun hc => hret hc.symm)
    · exact ih _ _

/-- The booked shape of one duo job: exactly two rows, distinct technicians,
identical start and end times, each half the (rounded-up) on-site minutes. -/
def C2Pair (jm : Int) (s : String) (rows : List Row) : Prop :=
  ∃ r1 r2, idRows rows s = [r1, r2] ∧ r1.technicien ≠ r2.technicien ∧
    r1.debut = r2.debut ∧ r1.fin = r2.fin ∧
    r1.job_min = ceilHalf jm ∧ r2.job_min = ceilHalf jm

theorem c2Pair_congr {jm : Int} {s : String} {rows rows' : List Row}
    (h : idRows rows' s = idRows rows s) (hp : C2Pair jm s rows) :
    C2Pair jm s rows' := by
  obtain ⟨r1, r2, h12, hrest⟩ := hp
  exact ⟨r1, r2, h.trans h12, hrest⟩

theorem c2Pair_build (jm : Int) (s : String) (planned : List Row)
    (r1 r2 : Row) (he : idRows planned s = []) (h1 : r1.job_id = s)
    (h2 : r2.job_id = s) (htech : r1.technicien ≠ r2.technicien)
    (hd : r1.debut = r2.debut) (hf : r1.fin = r2.fin)
    (hm1 : r1.job_min = ceilHalf jm) (hm2 : r2.job_min = ceilHalf jm) :
    C2Pair jm s ((planned ++ [r1]) ++ [r2]) := by
  refine ⟨r1, r2, ?_, htech, hd, hf, hm1, hm2⟩
  rw [idRows_append_eq _ _ _ h2, idRows_append_eq _ _ _ h1, he]
  rfl

/-- The duo-state of one two-technician job: either still unbooked (no row
carries its id and it sits in the duo pool, which holds no other job with its
id), or booked as a proper pair (and its id is gone from the duo pool). -/
def C2State (j : Job) (planned : List Row) (duoJobs : List Job) : Prop :=
  (idRows planned j.job_id = [] ∧ j ∈ duoJobs ∧
    (∀ x ∈ duoJobs, x.job_id = j.job_id → x = j)) ∨
  (C2Pair j.job_minutes j.job_id planned ∧ PoolAvoids j.job_id duoJobs)

/-- The duo pass either books the tracked job as a proper pair or leaves its
state untouched. -/
theorem duoLoop_C2 (cfg : Cfg) (day : String) (j : Job)
    (hpart : ∀ b i n, j.job_id ≠ partLabel b i n)
    (hrank : ∀ f, (cfg.rankTechs f).Nodup)
    (labels : List (String × Int × List Nat)) :
    ∀ (fuel : Nat) (ds : DayState) (planned : List Row) (duoJobs : List Job),
      LabelsInv planned labels → C2State j planned duoJobs →
      LabelsInv (duoLoop cfg day fuel ds planned duoJobs).2.1 labels ∧
      C2State j (duoLoop cfg day fuel ds planned duoJobs).2.1
        (duoLoop cfg day fuel ds planned duoJobs).2.2 := by
  intro fuel
  induction fuel with
  | zero => intro ds planned duoJobs h1 h2; exact ⟨h1, h2⟩
  | succ fuel ih =>
    intro ds planned duoJobs h1 h2
    have hred : duoLoop cfg day (fuel + 1) ds planned duoJobs =
        if duoJobs.isEmpty then (ds, planned, duoJobs)
        else
          match duoFindBest cfg ds duoJobs with
          | none => (ds, planned, duoJobs)
          | some b =>
            duoLoop cfg day fuel (duoBook cfg day b ds planned duoJobs).1
              (duoBook cfg day b ds planned duoJobs).2.1
              (duoBook cfg day b ds planned duoJobs).2.2 := rfl
    rw [hred]
    split
    · exact ⟨h1, h2⟩
    · cases hfb : duoFindBest cfg ds duoJobs with
      | none => exact ⟨h1, h2⟩
      | some b =>
        dsimp only
        obtain ⟨job, hjs, pr, hpr, hcand⟩ :=
          duoFindBest_cases cfg ds duoJobs b hfb
        obtain ⟨hbjob, hbt1, hbt2, hjme, -, -, -, -, -, -, -, -⟩ := hcand
        have hjmem : b.job ∈ duoJobs := by
          rw [hbjob]; exact mem_duoSample cfg duoJobs job hjs
        obtain ⟨hrows, -, -, -, -, hfilt⟩ :=
          duoBook_spec cfg day b ds planned duoJobs
        have hlab2 : LabelsInv (duoBook cfg day b ds planned duoJobs).2.1
            labels := by
          rw [hrows]
          exact labelsInv_append (labelsInv_append h1 _) _
        refine ih _ _ _ hlab2 ?_
        by_cases hbid : b.job.job_id = j.job_id
        · rcases h2 with ⟨he, hj, huniq⟩ | ⟨hp, havd⟩
          · -- the tracked job itself gets booked now
            have hbj : b.job = j := huniq b.job hjmem hbid
            have hne2 : b.t1 ≠ b.t2 := by
              rw [hbt1, hbt2]
              exact mem_upairs_ne _ (hrank job.fsa) pr.1 pr.2 (by
                rcases pr with ⟨x, y⟩; exact hpr)
            have hjm2 : b.job_min_each = ceilHalf j.job_minutes := by
              rw [← hbj, hbjob]
              exact hjme
            right
            constructor
            · rw [hrows]
              exact c2Pair_build j.job_minutes j.job_id planned _ _ he
                (by exact hbid) (by exact hbid) hne2 rfl rfl hjm2 hjm2
            · rw [hfilt]
              intro x hx heq
              have hxp := (List.mem_filter.mp hx).2
              rw [heq, ← hbid] at hxp
              simp at hxp
          · exact absurd hbid (havd b.job hjmem)
        · have hidkeep : idRows (duoBook cfg day b ds planned duoJobs).2.1
              j.job_id = idRows planned j.job_id := by
            rw [hrows, idRows_append_ne _ _ _ (by exact hbid),
              idRows_append_ne _ _ _ (by exact hbid)]
          rcases h2 with ⟨he, hj, huniq⟩ | ⟨hp, havd⟩
          · left
            refine ⟨hidkeep.trans he, ?_, ?_⟩
            · rw [hfilt]
              refine List.mem_filter.mpr ⟨hj, ?_⟩
              have : (j.job_id == b.job.job_id) = false :=
                beq_eq_false_iff_ne.mpr (fun he2 => hbid he2.symm)
              simp [this]
            · rw [hfilt]
              intro x hx heq
              exact huniq x (List.mem_of_mem_filter hx) heq
          · right
            refine ⟨c2Pair_congr hidkeep hp, ?_⟩
            rw [hfilt]
            exact poolAvoids_filter havd _

theorem c2State_congr {j : Job} {planned planned' : List Row}
    {duoJobs : List Job}
    (h : idRows planned' j.job_id = idRows planned j.job_id)
    (hs : C2State j planned duoJobs) : C2State j planned' duoJobs := by
  rcases hs with ⟨he, hj, hu⟩ | ⟨hp, ha⟩
  · exact Or.inl ⟨h.trans he, hj, hu⟩
  · exact Or.inr ⟨c2Pair_congr h hp, ha⟩

/-- One scheduled day preserves the duo-state of a two-technician job. -/
theorem runDay_C2 (cfg : Cfg) (day : String) (j : Job)
    (hret : j.job_id ≠ "RETURN_HOME")
    (hpart : ∀ b i n, j.job_id ≠ partLabel b i n)
    (hpool : ∀ rem tt, ∀ x ∈ cfg.jobPool rem tt, x ∈ rem)
    (hrank : ∀ f, (cfg.rankTechs f).Nodup) (ms : MonthState)
    (hlab : LabelsInv ms.planned ms.labels)
    (hsolo : PoolAvoids j.job_id ms.soloJobs)
    (hstate : C2State j ms.planned ms.duoJobs) :
    LabelsInv (runDay cfg ms day).planned (runDay cfg ms day).labels ∧
    PoolAvoids j.job_id (runDay cfg ms day).soloJobs ∧
    C2State j (runDay cfg ms day).planned (runDay cfg ms day).duoJobs := by
  obtain ⟨c1, c2⟩ := carrySweep_idRows cfg day j.job_id hpart cfg.techNames
    { used := fun _ => 0, curLoc := cfg.homeMap, jobsCount := fun _ => 0, lock := fun _ => false } ms.planned ms.labels ms.carry hlab
  have hstc : C2State j (carrySweep cfg day cfg.techNames ({ used := fun _ => 0, curLoc := cfg.homeMap, jobsCount := fun _ => 0, lock := fun _ => false }, ms.planned, ms.labels, ms.carry)).2.1 ms.duoJobs := c2State_congr c1 hstate
  unfold runDay
  dsimp only
  split
  · -- solo pass active
    split
    · -- duo pass also active
      obtain ⟨d1, d2⟩ := duoLoop_C2 cfg day j hpart hrank (carrySweep cfg day cfg.techNames ({ used := fun _ => 0, curLoc := cfg.homeMap, jobsCount := fun _ => 0, lock := fun _ => false }, ms.planned, ms.labels, ms.carry)).2.2.1
        (ms.duoJobs.length + 1) (carrySweep cfg day cfg.techNames ({ used := fun _ => 0, curLoc := cfg.homeMap, jobsCount := fun _ => 0, lock := fun _ => false }, ms.planned, ms.labels, ms.carry)).1 (carrySweep cfg day cfg.techNames ({ used := fun _ => 0, curLoc := cfg.homeMap, jobsCount := fun _ => 0, lock := fun _ => false }, ms.planned, ms.labels, ms.carry)).2.1 ms.duoJobs c2 hstc
      obtain ⟨s1, s2, s3⟩ := soloLoop_idRows cfg day j.job_id hpart hpool
        (ms.soloJobs.length + 1) (duoLoop cfg day (ms.duoJobs.length + 1) (carrySweep cfg day cfg.techNames ({ used := fun _ => 0, curLoc := cfg.homeMap, jobsCount := fun _ => 0, lock := fun _ => false }, ms.planned, ms.labels, ms.carry)).1 (carrySweep cfg day cfg.techNames ({ used := fun _ => 0, curLoc := cfg.homeMap, jobsCount := fun _ => 0, lock := fun _ => false }, ms.planned, ms.labels, ms.carry)).2.1 ms.duoJobs).1 (duoLoop cfg day (ms.duoJobs.length + 1) (carrySweep cfg day cfg.techNames ({ used := fun _ => 0, curLoc := cfg.homeMap, jobsCount := fun _ => 0, lock := fun _ => false }, ms.planned, ms.labels, ms.carry)).1 (carrySweep cfg day cfg.techNames ({ used := fun _ => 0, curLoc := cfg.homeMap, jobsCount := fun _ => 0, lock := fun _ => false }, ms.planned, ms.labels, ms.carry)).2.1 ms.duoJobs).2.1 (carrySweep cfg day cfg.techNames ({ used := fun _ => 0, curLoc := cfg.homeMap, jobsCount := fun _ => 0, lock := fun _ => false }, ms.planned, ms.labels, ms.carry)).2.2.1 (carrySweep cfg day cfg.techNames ({ used := fun _ => 0, curLoc := cfg.homeMap, jobsCount := fun _ => 0, lock := fun _ => false }, ms.planned, ms.labels, ms.carry)).2.2.2
        ms.soloJobs d1 hsolo
      refine ⟨returnHome_labels cfg day _ _ _ s2, s3, ?_⟩
      exact c2State_congr ((returnHome_idRows cfg day j.job_id hret
        cfg.techNames _ _).trans s1) d2
    · -- duo pass skipped
      obtain ⟨s1, s2, s3⟩ := soloLoop_idRows cfg day j.job_id hpart hpool
        (ms.soloJobs.length + 1) (carrySweep cfg day cfg.techNames ({ used := fun _ => 0, curLoc := cfg.homeMap, jobsCount := fun _ => 0, lock := fun _ => false }, ms.planned, ms.labels, ms.carry)).1 (carrySweep cfg day cfg.techNames ({ used := fun _ => 0, curLoc := cfg.homeMap, jobsCount := fun _ => 0, lock := fun _ => false }, ms.planned, ms.labels, ms.carry)).2.1 (carrySweep cfg day cfg.techNames ({ used := fun _ => 0, curLoc := cfg.homeMap, jobsCount := fun _ => 0, lock := fun _ => false }, ms.planned, ms.labels, ms.carry)).2.2.1 (carrySweep cfg day cfg.techNames ({ used := fun _ => 0, curLoc := cfg.homeMap, jobsCount := fun _ => 0, lock := fun _ => false }, ms.planned, ms.labels, ms.carry)).2.2.2
        ms.soloJobs c2 hsolo
      refine ⟨returnHome_labels cfg day _ _ _ s2, s3, ?_⟩
      exact c2State_congr ((returnHome_idRows cfg day j.job_id hret
        cfg.techNames _ _).trans s1) hstc
  · -- solo pass skipped
    split
    · -- duo pass active
      obtain ⟨d1, d2⟩ := duoLoop_C2 cfg day j hpart hrank (carrySweep cfg day cfg.techNames ({ used := fun _ => 0, curLoc := cfg.homeMap, jobsCount := fun _ => 0, lock := fun _ => false }, ms.planned, ms.labels, ms.carry)).2.2.1
        (ms.duoJobs.length + 1) (carrySweep cfg day cfg.techNames ({ used := fun _ => 0, curLoc := cfg.homeMap, jobsCount := fun _ => 0, lock := fun _ => false }, ms.planned, ms.labels, ms.carry)).1 (carrySweep cfg day cfg.techNames ({ used := fun _ => 0, curLoc := cfg.homeMap, jobsCount := fun _ => 0, lock := fun _ => false }, ms.planned, ms.labels, ms.carry)).2.1 ms.duoJobs c2 hstc
      refine ⟨returnHome_labels cfg day _ _ _ d1, hsolo, ?_⟩
      exact c2State_congr (returnHome_idRows cfg day j.job_id hret
        cfg.techNames _ _) d2
    · -- both skipped
      refine ⟨returnHome_labels cfg day _ _ _ c2, hsolo, ?_⟩
      exact c2State_congr (returnHome_idRows cfg day j.job_id hret
        cfg.techNames _ _) hstc

/-- The month fold preserves the duo-state of a two-technician job. -/
theorem foldDays_C2 (cfg : Cfg) (j : Job)
    (hret : j.job_id ≠ "RETURN_HOME")
    (hpart : ∀ b i n, j.job_id ≠ partLabel b i n)
    (hpool : ∀ rem tt, ∀ x ∈ cfg.jobPool rem tt, x ∈ rem)
    (hrank : ∀ f, (cfg.rankTechs f).Nodup) :
    ∀ (days : List String) (ms : MonthState),
      LabelsInv ms.planned ms.labels → PoolAvoids j.job_id ms.soloJobs →
      C2State j ms.planned ms.duoJobs →
      LabelsInv (days.foldl (runDay cfg) ms).planned
        (days.foldl (runDay cfg) ms).labels ∧
      PoolAvoids j.job_id (days.foldl (runDay cfg) ms).soloJobs ∧
      C2State j (days.foldl (runDay cfg) ms).planned
        (days.foldl (runDay cfg) ms).duoJobs := by
  intro days
  induction days with
  | nil => intro ms h1 h2 h3; exact ⟨h1, h2, h3⟩
  | cons day days ih =>
    intro ms h1 h2 h3
    obtain ⟨g1, g2, g3⟩ := runDay_C2 cfg day j hret hpart hpool hrank ms
      h1 h2 h3
    exact ih (runDay cfg ms day) g1 g2 g3

/-! ## C2: duo bookings -/

/-- **C2, counterexample.**  A 101-minute two-technician job books two rows of
51 minutes each (`ceil(101/2)`), so the two halves sum to 102, not 101: the
split is even only up to rounding the half up. -/
theorem C2_duo_booking_counterexample :
    ((idRows (schedule_month_with_duo demoCfg [demoJob "D" 101 2]
        ["D1"]).rows "D").map Row.job_min) = [51, 51] ∧
    ¬ ((51 : Int) + 51 = (demoJob "D" 101 2).job_minutes) :=
  ⟨by decide, by decide⟩

/-- **C2, amended.**  A two-technician job the scheduler books yields exactly
two visit rows carrying its id, with distinct technicians and identical start
and end times, each row's on-site minutes equal to the rounded-up half
`ceil(total/2)` of the job's total; a job it does not book leaves no row and
reappears in the remainder.  (Duo booking enabled; same id sanity conditions
as C5 and roster guarantees as C1.) -/
theorem C2_duo_booking (cfg : Cfg) (jobs_in : List Job)
    (month_days : List String) (j : Job)
    (hallow : cfg.allowDuo = true)
    (hmem : j ∈ jobs_in) (hduo2 : j.techs_needed = 2)
    (hnodup : (jobs_in.map Job.job_id).Nodup)
    (hret : j.job_id ≠ "RETURN_HOME")
    (hpart : ∀ b i n, j.job_id ≠ partLabel b i n)
    (hpool : ∀ rem tt, ∀ x ∈ cfg.jobPool rem tt, x ∈ rem)
    (hrank : ∀ f, (cfg.rankTechs f).Nodup) :
    (idRows (schedule_month_with_duo cfg jobs_in month_days).rows j.job_id =
        [] ∧
      j ∈ (schedule_month_with_duo cfg jobs_in month_days).remaining) ∨
    (∃ r1 r2,
      idRows (schedule_month_with_duo cfg jobs_in month_days).rows j.job_id =
        [r1, r2] ∧
      r1.technicien ≠ r2.technicien ∧ r1.debut = r2.debut ∧ r1.fin = r2.fin ∧
      r1.job_min = ceilHalf j.job_minutes ∧
      r2.job_min = ceilHalf j.job_minutes ∧
      ∀ x ∈ (schedule_month_with_duo cfg jobs_in month_days).remaining,
        x.job_id ≠ j.job_id) := by
  have hinj := List.inj_on_of_nodup_map hnodup
  unfold schedule_month_with_duo
  by_cases hav : cfg.available ≤ 0
  · rw [if_pos hav]
    exact Or.inl ⟨rfl, hmem⟩
  · rw [if_neg hav]
    dsimp only
    have hduo0eq : (if cfg.allowDuo then
        jobs_in.filter (fun x => x.techs_needed == 2) else []) =
        jobs_in.filter (fun x => x.techs_needed == 2) := if_pos hallow
    have hstate0 : C2State j ([] : List Row)
        (if cfg.allowDuo then jobs_in.filter (fun x => x.techs_needed == 2)
         else []) := by
      rw [hduo0eq]
      left
      refine ⟨rfl, ?_, ?_⟩
      · exact List.mem_filter.mpr ⟨hmem, beq_iff_eq.mpr hduo2⟩
      · intro x hx heq
        exact hinj (List.mem_of_mem_filter hx) hmem heq
    have hsolo0 : PoolAvoids j.job_id
        (jobs_in.filter (fun x => x.techs_needed ≤ 1)) := by
      intro x hx heq
      have hx1 := (List.mem_filter.mp hx).2
      have hxe : x = j := hinj (List.mem_of_mem_filter hx) hmem heq
      rw [hxe] at hx1
      have : j.techs_needed ≤ 1 := of_decide_eq_true hx1
      omega
    obtain ⟨f1, f2, f3⟩ := foldDays_C2 cfg j hret hpart hpool hrank month_days
      { planned := [], labels := [], carry := [],
        duoJobs := if cfg.allowDuo then
          jobs_in.filter (fun x => x.techs_needed == 2) else [],
        soloJobs := jobs_in.filter (fun x => x.techs_needed ≤ 1) }
      (fun e he => absurd he (List.not_mem_nil e)) hsolo0 hstate0
    have f2m : PoolAvoids j.job_id
        (monthFold cfg jobs_in month_days).soloJobs := f2
    have f3m : C2State j (monthFold cfg jobs_in month_days).planned
        (monthFold cfg jobs_in month_days).duoJobs := f3
    rcases f3m with ⟨he, hj, -⟩ | ⟨⟨r1, r2, hpair, htech, hd, hf, hm1, hm2⟩,
        havd⟩
    · exact Or.inl ⟨he, List.mem_append.mpr (Or.inl
        (List.mem_append.mpr (Or.inl hj)))⟩
    · right
      refine ⟨r1, r2, hpair, htech, hd, hf, hm1, hm2, ?_⟩
      intro x hx heq
      rcases List.mem_append.mp hx with hx1 | hx2
      · rcases List.mem_append.mp hx1 with hxd | hxs
        · exact havd x hxd heq
        · exact f2m x hxs heq
      · have hx3 := (List.mem_filter.mp hx2).2
        have hxe : x = j := hinj (List.mem_of_mem_filter hx2) hmem heq
        rw [hxe] at hx3
        have : 2 < j.techs_needed := of_decide_eq_true hx3
        omega

/-- Witness for C2 (amended) on the 101-minute duo job of the
counterexample. -/
theorem C2_duo_booking_witness :
    (idRows (schedule_month_with_duo demoCfg [demoJob "D" 101 2]
        ["D1"]).rows (demoJob "D" 101 2).job_id = [] ∧
      demoJob "D" 101 2 ∈ (schedule_month_with_duo demoCfg
        [demoJob "D" 101 2] ["D1"]).remaining) ∨
    (∃ r1 r2,
      idRows (schedule_month_with_duo demoCfg [demoJob "D" 101 2]
        ["D1"]).rows (demoJob "D" 101 2).job_id = [r1, r2] ∧
      r1.technicien ≠ r2.technicien ∧ r1.debut = r2.debut ∧ r1.fin = r2.fin ∧
      r1.job_min = ceilHalf (demoJob "D" 101 2).job_minutes ∧
      r2.job_min = ceilHalf (demoJob "D" 101 2).job_minutes ∧
      ∀ x ∈ (schedule_month_with_duo demoCfg [demoJob "D" 101 2]
        ["D1"]).remaining, x.job_id ≠ (demoJob "D" 101 2).job_id) :=
  C2_duo_booking demoCfg [demoJob "D" 101 2] ["D1"] (demoJob "D" 101 2)
    rfl (List.mem_cons_self _ _) (by decide) (by decide) (by decide)
    (ne_partLabel_of_short _ (by decide)) (fun rem tt x hx => hx)
    (fun f => (by decide : (["T1", "T2"] : List String).Nodup))

end RouteOpt


































